import Mathlib

/-!
Coup-style rules engine: shallow embedding and verified properties.

Embedding of `Game`, `Player` and the `Role` hierarchy (src/src/Game.cpp,
src/src/Player.cpp, src/include/Role.hpp and the six role classes).

Modelling conventions
* A `Player*` is an address (`Nat`); the objects themselves live in
  `Game.store`, which maps every address to the `Player` object found there
  (the engine never allocates or frees players, it only keeps pointers).
  A nullable pointer is an `Option Nat`.
* `int` is `Int` and `size_t` is `Nat`. The engine is embedded twice. The
  definitions without suffix compute on exact integers: the rules only add or
  subtract the constants 1..7, so they describe the code as long as no `int`
  computation overflows. The definitions with suffix `32` (`Game.apply32` and
  what it calls) take the width of `int` into account: every assignment to
  `_coins` or `_poolCoins` goes through `Game.setCoins32` / `Game.setPool32`,
  which report signed overflow, undefined behaviour in C++, as
  `Err.Undefined` and leave the two's-complement value behind.
  `Game.apply32_refines` relates the two: an operation that does not end in
  undefined behaviour has the same outcome in both.
* A member function that can throw returns a `Step`: either `ok s` or
  `throw e s`, where `s` is the state of the game at the moment the exception
  leaves the function. Undefined behaviour (indexing `_players` out of range)
  is reported as the error `Err.Undefined`.
-/

namespace CoupGame

/-- The four exception classes of Exceptions.hpp, and a marker for undefined behaviour. -/
inductive Err where
  | IllegalAction
  | OutOfCoins
  | NotYourTurn
  | GameStillActive
  | Undefined
  deriving DecidableEq, Repr

/-- Modelled from the spec: the header ActionType.hpp is not part of the sources; the
enumerators are the ones Game.cpp switches over (the five pending kinds of the spec, and
Gather). -/
inductive ActionType where
  | Gather
  | Tax
  | Bribe
  | Arrest
  | Sanction
  | Coup
  deriving DecidableEq, Repr

/-- The six capability predicates of `Role` (Role.hpp:30-35). -/
structure Caps where
  canGather : Bool
  canTax : Bool
  canBribe : Bool
  canArrest : Bool
  canSanction : Bool
  canCoup : Bool
  deriving DecidableEq, Repr

/-- The `Role` hierarchy: the six concrete classes, and `Custom` for a subclass that
overrides only `name()` and capability predicates (as the classes `Briber` and `Taxer`
of the tests do) and inherits every veto and hook from `Role`. -/
inductive Role where
  | Governor
  | Spy
  | Baron
  | General
  | Judge
  | Merchant
  | Custom (name : String) (caps : Caps)
  deriving DecidableEq, Repr

/-- The fields of `Player` (Player.hpp:20-23); the `_game` pointer is the one game. -/
structure Player where
  name : String
  coins : Int
  role : Role
  deriving DecidableEq, Repr

/-- The struct `Game::PendingAction` (Game.hpp:115-119). -/
structure PendingAction where
  actor : Nat
  target : Option Nat
  type : ActionType
  deriving DecidableEq, Repr

/-- The fields of `Game` (Game.hpp:121-124) and the player objects the pointers refer to. -/
structure Game where
  store : Nat → Player
  _players : List Nat
  _currentIndex : Nat
  _poolCoins : Int
  _pending : List PendingAction

/-- Outcome of a member function that may throw. -/
inductive Step where
  | ok (s : Game)
  | throw (e : Err) (s : Game)

/-- Sequencing: an exception propagates, a normal return continues. -/
def Step.bind (r : Step) (f : Game → Step) : Step :=
  match r with
  | .ok s => f s
  | .throw e s => .throw e s

/-- The game state an outcome leaves behind. -/
def Step.state : Step → Game
  | .ok s => s
  | .throw _ s => s

/-- The exception an outcome carries, if any. -/
def Step.err : Step → Option Err
  | .ok _ => none
  | .throw e _ => some e

/-! ## Role (Role.hpp and the role classes) -/

/-- Method `Role::name()` of each class. -/
def Role.name : Role → String
  | .Governor => "Governor"
  | .Spy => "Spy"
  | .Baron => "Baron"
  | .General => "General"
  | .Judge => "Judge"
  | .Merchant => "Merchant"
  | .Custom n _ => n

/-- Method `Role::canGather()`: true in `Role`, overridden by no concrete class. -/
def Role.canGather : Role → Bool
  | .Custom _ c => c.canGather
  | _ => true

/-- Method `Role::canTax()`: false in `Role`, true in `Governor` (Governor.hpp:18). -/
def Role.canTax : Role → Bool
  | .Governor => true
  | .Custom _ c => c.canTax
  | _ => false

/-- Method `Role::canBribe()`: false in `Role`; `Judge` overrides it with false (Judge.hpp:19). -/
def Role.canBribe : Role → Bool
  | .Custom _ c => c.canBribe
  | _ => false

/-- Method `Role::canArrest()`: false in `Role`; `Spy` overrides it with false (Spy.hpp:18). -/
def Role.canArrest : Role → Bool
  | .Custom _ c => c.canArrest
  | _ => false

/-- Method `Role::canSanction()`: false in `Role`, overridden by no concrete class. -/
def Role.canSanction : Role → Bool
  | .Custom _ c => c.canSanction
  | _ => false

/-- Method `Role::canCoup()`: false in `Role`; `General` overrides it with false (General.hpp:18). -/
def Role.canCoup : Role → Bool
  | .Custom _ c => c.canCoup
  | _ => false

/-! ## Player: accessors and coin management (Player.cpp:85-98) -/

/-- Method `Player::roleName()`. -/
def Player.roleName (p : Player) : String := p.role.name

/-- Method `Player::addCoins`: a negative amount is ignored. The sum is the exact integer;
`Game.addCoins32` is the same method with the width of `int` taken into account. -/
def Player.addCoins (p : Player) (n : Int) : Player :=
  if n < 0 then p else { p with coins := p.coins + n }

/-- Method `Player::removeCoins`: throws OutOfCoins when `n` exceeds the balance. The
difference is the exact integer; `Game.removeCoins32` is the same method with the width of
`int` taken into account. -/
def Player.removeCoins (p : Player) (n : Int) : Except Err Player :=
  if n > p.coins then .error .OutOfCoins else .ok { p with coins := p.coins - n }

/-- Method `Role::onStartTurn`: only `Merchant` overrides it (Merchant.cpp:7-11). -/
def Role.onStartTurn (r : Role) (self : Player) : Except Err Player :=
  match r with
  | .Merchant => if self.coins ≥ 3 then .ok (self.addCoins 1) else .ok self
  | _ => .ok self

/-- Method `Role::onArrested`: overridden by `General` (General.cpp:20-22) and
`Merchant` (Merchant.cpp:18-24). -/
def Role.onArrested (r : Role) (self : Player) : Except Err Player :=
  match r with
  | .General => .ok (self.addCoins 1)
  | .Merchant => if self.coins ≥ 2 then self.removeCoins 2 else self.removeCoins self.coins
  | _ => .ok self

/-- Method `Role::onSanctioned`: overridden by `Baron` (Baron.cpp:22-24) and, with an empty
body, by `Judge` (Judge.cpp:20-23). -/
def Role.onSanctioned (r : Role) (self : Player) : Except Err Player :=
  match r with
  | .Baron => .ok (self.addCoins 1)
  | _ => .ok self

/-- Method `Player::onStartTurn` (Player.cpp:58-61). -/
def Player.onStartTurn (p : Player) : Except Err Player := p.role.onStartTurn p

/-- Method `Player::handleArrested` (Player.cpp:66-68). -/
def Player.handleArrested (p : Player) : Except Err Player := p.role.onArrested p

/-- Method `Player::handleSanctioned` (Player.cpp:73-75). -/
def Player.handleSanctioned (p : Player) : Except Err Player := p.role.onSanctioned p

/-! ## Game (Game.cpp) -/

/-- Overwrite the player object at address `p`. -/
def Game.setPlayer (s : Game) (p : Nat) (pl : Player) : Game :=
  { s with store := Function.update s.store p pl }

/-- Run a member function of the player at address `p`; if it throws, nothing was written. -/
def Game.onPlayer (s : Game) (p : Nat) (f : Player → Except Err Player) : Step :=
  match f (s.store p) with
  | .ok pl => .ok (s.setPlayer p pl)
  | .error e => .throw e s

/-- Method `Game::Game()`: pointer 0, pool 50, no players, nothing pending (Game.cpp:7-8). -/
def Game.new (store : Nat → Player) : Game :=
  { store := store, _players := [], _currentIndex := 0, _poolCoins := 50, _pending := [] }

/-- Method `Game::addPlayer` (Game.cpp:16-26); `none` is the null pointer. -/
def Game.addPlayer (s : Game) (player : Option Nat) : Step :=
  match player with
  | none => .throw .IllegalAction s
  | some p =>
    if s._players.any (fun q => (s.store q).name == (s.store p).name) then .throw .IllegalAction s
    else .ok { s with _players := s._players ++ [p] }

/-- Method `Game::turn` (Game.cpp:32-37). -/
def Game.turn (s : Game) : Except Err String :=
  if s._players.isEmpty then .error .IllegalAction
  else
    match s._players[s._currentIndex]? with
    | some p => .ok (s.store p).name
    | none => .error .Undefined

/-- Method `Game::players` (Game.cpp:56-62). -/
def Game.players (s : Game) : List String := s._players.map (fun p => (s.store p).name)

/-- Method `Game::removePlayer` (Game.cpp:68-83). -/
def Game.removePlayer (s : Game) (player : Nat) : Step :=
  if player ∈ s._players then
    let idx := s._players.indexOf player
    let ps := s._players.erase player
    if ps.isEmpty then .ok { s with _players := ps, _currentIndex := 0 }
    else if idx < s._currentIndex ∨ s._currentIndex ≥ ps.length then
      .ok { s with _players := ps,
                   _currentIndex := if s._currentIndex = 0 then 0 else s._currentIndex - 1 }
    else .ok { s with _players := ps }
  else .throw .IllegalAction s

/-- Method `Game::winner` (Game.cpp:89-94). -/
def Game.winner (s : Game) : Except Err String :=
  match s._players with
  | [p] => .ok (s.store p).name
  | _ => .error .GameStillActive

/-- Method `Game::poolCoins` (Game.cpp:99-101). -/
def Game.poolCoins (s : Game) : Int := s._poolCoins

/-- Method `Game::takeFromPool` (Game.cpp:102-107). The difference is the exact integer;
`Game.takeFromPool32` is the same method with the width of `int` taken into account. -/
def Game.takeFromPool (s : Game) (n : Int) : Step :=
  if n > s._poolCoins then .throw .IllegalAction s
  else .ok { s with _poolCoins := s._poolCoins - n }

/-- Method `Game::returnToPool` (Game.cpp:108-111). The sum is the exact integer;
`Game.returnToPool32` is the same method with the width of `int` taken into account. -/
def Game.returnToPool (s : Game) (n : Int) : Game :=
  if n < 0 then s else { s with _poolCoins := s._poolCoins + n }

/-- Method `Game::mustCoup` (Game.cpp:117-119). -/
def Game.mustCoup (_s : Game) (p : Player) : Bool := decide (p.coins ≥ 10)

/-- Append an entry to `_pending`. -/
def Game.pushPending (s : Game) (pa : PendingAction) : Game :=
  { s with _pending := s._pending ++ [pa] }

/-- Method `Game::registerTax` (Game.cpp:126-128). -/
def Game.registerTax (s : Game) (actor : Nat) : Game :=
  s.pushPending ⟨actor, none, .Tax⟩

/-- Method `Game::registerBribe` (Game.cpp:129-131). -/
def Game.registerBribe (s : Game) (actor : Nat) : Game :=
  s.pushPending ⟨actor, none, .Bribe⟩

/-- Method `Game::registerArrest` (Game.cpp:132-134). -/
def Game.registerArrest (s : Game) (actor : Nat) (target : Option Nat) : Game :=
  s.pushPending ⟨actor, target, .Arrest⟩

/-- Method `Game::registerSanction` (Game.cpp:135-137). -/
def Game.registerSanction (s : Game) (actor : Nat) (target : Option Nat) : Game :=
  s.pushPending ⟨actor, target, .Sanction⟩

/-- Method `Game::registerCoup` (Game.cpp:138-140). -/
def Game.registerCoup (s : Game) (actor : Nat) (target : Option Nat) : Game :=
  s.pushPending ⟨actor, target, .Coup⟩

/-- The loop shared by the five veto functions: position of the first pending entry
that satisfies the match condition. -/
def Game.findPending (s : Game) (m : PendingAction → Bool) : Option Nat :=
  s._pending.findIdx? m

/-- Method `Game::blockTax` (Game.cpp:152-160). -/
def Game.blockTax (s : Game) (_blocker : Nat) (target : Nat) : Step :=
  match s.findPending (fun pa => pa.type == .Tax && pa.actor == target) with
  | some i => .ok { s with _pending := s._pending.eraseIdx i }
  | none => .throw .IllegalAction s

/-- Method `Game::blockBribe` (Game.cpp:162-172). -/
def Game.blockBribe (s : Game) (_blocker : Nat) (target : Nat) : Step :=
  match s.findPending (fun pa => pa.type == .Bribe && pa.actor == target) with
  | some i =>
    let s1 := s.returnToPool 4
    .ok { s1 with _pending := s1._pending.eraseIdx i }
  | none => .throw .IllegalAction s

/-- Method `Game::blockArrest` (Game.cpp:174-182). -/
def Game.blockArrest (s : Game) (_blocker : Nat) (target : Nat) : Step :=
  match s.findPending (fun pa => pa.type == .Arrest && pa.target == some target) with
  | some i => .ok { s with _pending := s._pending.eraseIdx i }
  | none => .throw .IllegalAction s

/-- Method `Game::blockSanction` (Game.cpp:184-195). -/
def Game.blockSanction (s : Game) (_blocker : Nat) (target : Nat) : Step :=
  match s.findPending (fun pa => pa.type == .Sanction && pa.target == some target) with
  | some i =>
    match s._pending[i]? with
    | some pa =>
      (s.onPlayer pa.actor (fun pl => pl.removeCoins 1)).bind fun s1 =>
        let s2 := s1.returnToPool 1
        .ok { s2 with _pending := s2._pending.eraseIdx i }
    | none => .throw .Undefined s
  | none => .throw .IllegalAction s

/-- Method `Game::blockCoup` (Game.cpp:197-211). -/
def Game.blockCoup (s : Game) (blocker : Nat) (target : Nat) : Step :=
  match s.findPending (fun pa => pa.type == .Coup && pa.target == some target) with
  | some i =>
    if (s.store blocker).coins < 5 then .throw .OutOfCoins s
    else
      (s.onPlayer blocker (fun pl => pl.removeCoins 5)).bind fun s1 =>
        let s2 := s1.returnToPool 7
        .ok { s2 with _pending := s2._pending.eraseIdx i }
  | none => .throw .IllegalAction s

/-- Method `Game::getCurrentPlayer` (Game.cpp:216-219): `none` is the null pointer. -/
def Game.getCurrentPlayer (s : Game) : Except Err (Option Nat) :=
  if s._players.isEmpty then .ok none
  else
    match s._players[s._currentIndex]? with
    | some p => .ok (some p)
    | none => .error .Undefined

/-- Method `Game::isActive` (Game.cpp:224-226); the null pointer is never in `_players`. -/
def Game.isActive (s : Game) (p : Option Nat) : Bool :=
  match p with
  | some q => decide (q ∈ s._players)
  | none => false

/-- One iteration of the loop of `Game::processPending` (Game.cpp:241-298). -/
def Game.resolve (s : Game) (pa : PendingAction) : Step :=
  match pa.type with
  | .Gather => .ok (s.setPlayer pa.actor ((s.store pa.actor).addCoins 1))
  | .Tax =>
    if (s.store pa.actor).roleName = "Governor" then
      .ok (s.setPlayer pa.actor ((s.store pa.actor).addCoins 3))
    else
      .ok (s.setPlayer pa.actor ((s.store pa.actor).addCoins 2))
  | .Bribe =>
    match s.getCurrentPlayer with
    | .error e => .throw e s
    | .ok cur =>
      if some pa.actor = cur then
        if s._currentIndex > 0 then .ok { s with _currentIndex := s._currentIndex - 1 }
        else .ok { s with _currentIndex := s._players.length - 1 }
      else .ok s
  | .Arrest =>
    if !s.isActive (some pa.actor) || !s.isActive pa.target then .ok s
    else
      match pa.target with
      | none => .ok s
      | some t =>
        let stolen0 : Int := if (s.store t).roleName = "Merchant" then 2 else 1
        let stolen : Int := if (s.store t).coins < stolen0 then (s.store t).coins else stolen0
        (s.onPlayer t (fun pl => pl.removeCoins stolen)).bind fun s1 =>
          let s2 := s1.setPlayer pa.actor ((s1.store pa.actor).addCoins stolen)
          s2.onPlayer t Player.handleArrested
  | .Sanction =>
    if !s.isActive (some pa.actor) || !s.isActive pa.target then .ok s
    else
      match pa.target with
      | none => .ok s
      | some t =>
        let r1 : Step :=
          if (s.store t).coins > 0 then
            (s.onPlayer t (fun pl => pl.removeCoins 1)).bind fun s1 => .ok (s1.returnToPool 1)
          else .ok s
        r1.bind fun s2 =>
          if (s2.store t).roleName = "Baron" then s2.onPlayer t Player.handleSanctioned
          else .ok s2
  | .Coup =>
    if s.isActive pa.target then
      match pa.target with
      | none => .ok s
      | some t => s.removePlayer t
    else .ok (s.returnToPool 7)

/-- The loop of `Game::processPending` over the copied queue. -/
def Game.resolveAll (s : Game) : List PendingAction → Step
  | [] => .ok s
  | pa :: rest => (s.resolve pa).bind fun s1 => s1.resolveAll rest

/-- Method `Game::processPending` (Game.cpp:236-299): copy the queue, clear it, resolve the copy. -/
def Game.processPending (s : Game) : Step :=
  Game.resolveAll { s with _pending := [] } s._pending

/-- Method `Game::nextTurn` (Game.cpp:46-51). -/
def Game.nextTurn (s : Game) : Step :=
  s.processPending.bind fun s1 =>
    if s1._players.isEmpty then .ok s1
    else
      let s2 : Game := { s1 with _currentIndex := (s1._currentIndex + 1) % s1._players.length }
      match s2._players[s2._currentIndex]? with
      | some p => s2.onPlayer p Player.onStartTurn
      | none => .throw .Undefined s2

/-! ## Player: the six actions (Player.cpp:7-11, 111-201) -/

/-- Method `Player::ensureMyTurn` (Player.cpp:7-11): the error it raises, if any. -/
def Player.ensureMyTurn (s : Game) (self : Nat) : Option Err :=
  match s.turn with
  | .error e => some e
  | .ok n => if n ≠ (s.store self).name then some .NotYourTurn else none

/-- Method `Player::gather` (Player.cpp:111-115). -/
def Player.gather (s : Game) (self : Nat) : Step :=
  match Player.ensureMyTurn s self with
  | some e => .throw e s
  | none =>
    let s1 := s.setPlayer self { s.store self with coins := (s.store self).coins + 1 }
    s1.nextTurn

/-- Method `Player::tax` (Player.cpp:122-129). -/
def Player.tax (s : Game) (self : Nat) : Step :=
  match Player.ensureMyTurn s self with
  | some e => .throw e s
  | none =>
    if !(s.store self).role.canTax then .throw .IllegalAction s
    else (s.registerTax self).nextTurn

/-- Method `Player::bribe` (Player.cpp:137-148). -/
def Player.bribe (s : Game) (self : Nat) : Step :=
  match Player.ensureMyTurn s self with
  | some e => .throw e s
  | none =>
    if !(s.store self).role.canBribe then .throw .IllegalAction s
    else if (s.store self).coins < 4 then .throw .OutOfCoins s
    else
      let s1 := s.setPlayer self { s.store self with coins := (s.store self).coins - 4 }
      .ok (s1.registerBribe self)

/-- Method `Player::arrest` (Player.cpp:155-165). -/
def Player.arrest (s : Game) (self : Nat) (target : Nat) : Step :=
  match Player.ensureMyTurn s self with
  | some e => .throw e s
  | none =>
    if !(s.store self).role.canArrest then .throw .IllegalAction s
    else if self = target then .throw .IllegalAction s
    else (s.registerArrest self (some target)).nextTurn

/-- Method `Player::sanction` (Player.cpp:172-183). -/
def Player.sanction (s : Game) (self : Nat) (target : Nat) : Step :=
  match Player.ensureMyTurn s self with
  | some e => .throw e s
  | none =>
    if !(s.store self).role.canSanction then .throw .IllegalAction s
    else if (s.store self).coins < 3 then .throw .OutOfCoins s
    else
      let s1 := s.setPlayer self { s.store self with coins := (s.store self).coins - 3 }
      (s1.registerSanction self (some target)).nextTurn

/-- Method `Player::coup` (Player.cpp:190-201). -/
def Player.coup (s : Game) (self : Nat) (target : Nat) : Step :=
  match Player.ensureMyTurn s self with
  | some e => .throw e s
  | none =>
    if (s.store self).coins < 7 then .throw .OutOfCoins s
    else if self = target then .throw .IllegalAction s
    else
      let s1 := s.setPlayer self { s.store self with coins := (s.store self).coins - 7 }
      (s1.registerCoup self (some target)).nextTurn

/-! ## Role: the vetoes (Role.hpp:40-45 and the role classes)

A role class that overrides a veto forwards it to the game and passes itself as the
blocker; `self` is the address of that object. -/

/-- Method `Role::blockGather`: overridden by no class. -/
def Role.blockGather (_r : Role) (_self : Nat) (s : Game) (_target : Nat) : Step :=
  .throw .IllegalAction s

/-- Method `Role::blockTax`: overridden by `Governor` (Governor.cpp:9-15). -/
def Role.blockTax (r : Role) (self : Nat) (s : Game) (target : Nat) : Step :=
  match r with
  | .Governor => s.blockTax self target
  | _ => .throw .IllegalAction s

/-- Method `Role::blockBribe`: overridden by `Judge` (Judge.cpp:7-13). -/
def Role.blockBribe (r : Role) (self : Nat) (s : Game) (target : Nat) : Step :=
  match r with
  | .Judge => s.blockBribe self target
  | _ => .throw .IllegalAction s

/-- Method `Role::blockArrest`: overridden by `Spy` (Spy.cpp:9-15). -/
def Role.blockArrest (r : Role) (self : Nat) (s : Game) (target : Nat) : Step :=
  match r with
  | .Spy => s.blockArrest self target
  | _ => .throw .IllegalAction s

/-- Method `Role::blockSanction`: overridden by no class. -/
def Role.blockSanction (_r : Role) (_self : Nat) (s : Game) (_target : Nat) : Step :=
  .throw .IllegalAction s

/-- Method `Role::blockCoup`: overridden by `General` (General.cpp:8-14). -/
def Role.blockCoup (r : Role) (self : Nat) (s : Game) (target : Nat) : Step :=
  match r with
  | .General => s.blockCoup self target
  | _ => .throw .IllegalAction s

/-! ## Notions used in the statements -/

/-- The six classes shipped with the engine. -/
def Role.builtin : Role → Bool
  | .Custom _ _ => false
  | _ => true

/-- The turn pointer indexes the roster whenever the roster is not empty. -/
def Game.wf (s : Game) : Prop := s._players ≠ [] → s._currentIndex < s._players.length

instance (s : Game) : Decidable s.wf := by unfold Game.wf; infer_instance

/-- The players whose balance the resolution of an entry may write. -/
def PendingAction.touches (pa : PendingAction) (q : Nat) : Bool :=
  match pa.type with
  | .Gather => pa.actor == q
  | .Tax => pa.actor == q
  | .Arrest => pa.actor == q || pa.target == some q
  | .Sanction => pa.target == some q
  | .Bribe => false
  | .Coup => false

/-- What a resolution step preserves: names, roles, the queue, and every player object
outside the set `w` of addresses it may write. -/
structure Game.Pres (w : Nat → Prop) (s s' : Game) : Prop where
  name_eq : ∀ q, (s'.store q).name = (s.store q).name
  role_eq : ∀ q, (s'.store q).role = (s.store q).role
  store_eq : ∀ q, ¬ w q → s'.store q = s.store q
  pending_eq : s'._pending = s._pending

/-- The part of `Game::nextTurn` that follows the sweep (Game.cpp:48-50). -/
def Game.advance (s1 : Game) : Step :=
  if s1._players.isEmpty then .ok s1
  else
    let s2 : Game := { s1 with _currentIndex := (s1._currentIndex + 1) % s1._players.length }
    match s2._players[s2._currentIndex]? with
    | some p => s2.onPlayer p Player.onStartTurn
    | none => .throw .Undefined s2

/-- Method `k` successive calls of `Game::nextTurn`, stopping at the first exception. -/
def Game.nextTurns (s : Game) : Nat → Step
  | 0 => .ok s
  | k + 1 => s.nextTurn.bind fun s1 => s1.nextTurns k

/-- The amount `stolen` computed in the Arrest case (Game.cpp:267-269). -/
def Game.stolen (s : Game) (t : Nat) : Int :=
  if (s.store t).coins < (if (s.store t).roleName = "Merchant" then 2 else 1) then
    (s.store t).coins
  else (if (s.store t).roleName = "Merchant" then 2 else 1)

/-- Method `Role::specialAction`: `Baron` pays 3 coins and gains 6 (Baron.cpp:10-16), `Spy`
only prints (Spy.cpp:22-26), every other class has an empty body. -/
def Role.specialAction (r : Role) (s : Game) (self : Nat) (_target : Nat) : Step :=
  match r with
  | .Baron =>
    if (s.store self).coins < 3 then .throw .OutOfCoins s
    else
      (s.onPlayer self (fun pl => pl.removeCoins 3)).bind fun s1 =>
        .ok (s1.setPlayer self ((s1.store self).addCoins 6))
  | _ => .ok s

/-- Method `Player::specialAction` (Player.cpp:28-30): the role of the receiver `recv` acts
on the player `self` that is passed in. -/
def Player.specialAction (s : Game) (recv self target : Nat) : Step :=
  (s.store recv).role.specialAction s self target

/-- The public operations of `Game` and `Player` that change the state. -/
inductive Op where
  | addPlayer (player : Option Nat)
  | removePlayer (player : Nat)
  | nextTurn
  | takeFromPool (n : Int)
  | returnToPool (n : Int)
  | registerTax (actor : Nat)
  | registerBribe (actor : Nat)
  | registerArrest (actor : Nat) (target : Option Nat)
  | registerSanction (actor : Nat) (target : Option Nat)
  | registerCoup (actor : Nat) (target : Option Nat)
  | blockTax (blocker target : Nat)
  | blockBribe (blocker target : Nat)
  | blockArrest (blocker target : Nat)
  | blockSanction (blocker target : Nat)
  | blockCoup (blocker target : Nat)
  | gather (p : Nat)
  | tax (p : Nat)
  | bribe (p : Nat)
  | arrest (p target : Nat)
  | sanction (p target : Nat)
  | coup (p target : Nat)
  | specialAction (recv self target : Nat)
  | onStartTurn (p : Nat)
  | handleArrested (p : Nat)
  | handleSanctioned (p : Nat)
  | addCoins (p : Nat) (n : Int)
  | removeCoins (p : Nat) (n : Int)
  deriving DecidableEq, Repr

/-- Run one public operation. -/
def Game.apply (s : Game) : Op → Step
  | .addPlayer player => s.addPlayer player
  | .removePlayer player => s.removePlayer player
  | .nextTurn => s.nextTurn
  | .takeFromPool n => s.takeFromPool n
  | .returnToPool n => .ok (s.returnToPool n)
  | .registerTax a => .ok (s.registerTax a)
  | .registerBribe a => .ok (s.registerBribe a)
  | .registerArrest a t => .ok (s.registerArrest a t)
  | .registerSanction a t => .ok (s.registerSanction a t)
  | .registerCoup a t => .ok (s.registerCoup a t)
  | .blockTax b t => s.blockTax b t
  | .blockBribe b t => s.blockBribe b t
  | .blockArrest b t => s.blockArrest b t
  | .blockSanction b t => s.blockSanction b t
  | .blockCoup b t => s.blockCoup b t
  | .gather p => Player.gather s p
  | .tax p => Player.tax s p
  | .bribe p => Player.bribe s p
  | .arrest p t => Player.arrest s p t
  | .sanction p t => Player.sanction s p t
  | .coup p t => Player.coup s p t
  | .specialAction r p t => Player.specialAction s r p t
  | .onStartTurn p => s.onPlayer p Player.onStartTurn
  | .handleArrested p => s.onPlayer p Player.handleArrested
  | .handleSanctioned p => s.onPlayer p Player.handleSanctioned
  | .addCoins p n => .ok (s.setPlayer p ((s.store p).addCoins n))
  | .removeCoins p n => s.onPlayer p (fun pl => pl.removeCoins n)

/-- The players that have joined so far, in joining order, after one more operation. -/
def Game.joinLog (log : List Nat) (s : Game) : Op → List Nat
  | .addPlayer (some p) => if (s.addPlayer (some p)).err = none then log ++ [p] else log
  | _ => log

/-- The games reachable from a new game, whose player objects are all created with balance
0, by public operations satisfying `allowed` (the state left by a failed operation counts),
together with the log of the players that joined. -/
inductive Game.Trace (allowed : Op → Prop) : List Nat → Game → Prop where
  | new (store : Nat → Player) (h0 : ∀ q, (store q).coins = 0) :
      Game.Trace allowed [] (Game.new store)
  | step {log : List Nat} {s : Game} (op : Op) (h : Game.Trace allowed log s)
      (hop : allowed op) : Game.Trace allowed (Game.joinLog log s op) (s.apply op).state

/-- Reachable by any sequence of public operations. -/
def Game.Reachable (s : Game) : Prop := ∃ log, Game.Trace (fun _ => True) log s

/-- The invariants of the engine apart from name uniqueness: valid turn pointer (0 on an
empty roster), non-negative pool, non-negative balances. -/
structure Game.Inv (s : Game) : Prop where
  ptr : s.wf
  ptr0 : s._players = [] → s._currentIndex = 0
  pool : 0 ≤ s._poolCoins
  coins : ∀ q, 0 ≤ (s.store q).coins

/-- What every operation other than `addPlayer` guarantees: it keeps the invariants and
the names, and the roster afterwards is a sublist of the roster before. -/
def Game.Mono (s s' : Game) : Prop :=
  s.Inv → s'.Inv ∧ (∀ q, (s'.store q).name = (s.store q).name) ∧
    s'._players.Sublist s._players

/-- The veto result `s'` has lost exactly the earliest pending entry of `s` that satisfies
`P`; the entries before and after it keep their order. -/
def Game.firstRemoved (P : PendingAction → Prop) (s s' : Game) : Prop :=
  ∃ l1 pa l2, s._pending = l1 ++ pa :: l2 ∧ P pa ∧ (∀ x ∈ l1, ¬ P x) ∧ s'._pending = l1 ++ l2

/-- The direct calls of `registerTax`, ..., `registerCoup`. -/
def Op.isRegister : Op → Bool
  | .registerTax _ => true
  | .registerBribe _ => true
  | .registerArrest _ _ => true
  | .registerSanction _ _ => true
  | .registerCoup _ _ => true
  | _ => false

/-- Run a sequence of public operations; a failed operation leaves its state behind. -/
def Game.run (s : Game) : List Op → Game
  | [] => s
  | op :: rest => Game.run (s.apply op).state rest

/-- Smallest value of the 32-bit type `int`. -/
def intMin : Int := -2147483648

/-- Largest value of the 32-bit type `int`. -/
def intMax : Int := 2147483647

/-- The exact result `v` of a computation is representable in an `int`. -/
def fitsInt (v : Int) : Prop := intMin ≤ v ∧ v ≤ intMax

instance (v : Int) : Decidable (fitsInt v) := by unfold fitsInt; infer_instance

/-- The value a two's-complement `int` holds after a computation whose exact result is
`v`: the representative of `v` modulo 2^32 in the range of `int`. -/
def wrapInt (v : Int) : Int := (v + 2147483648) % 4294967296 - 2147483648

/-- Assignment of the result of an `int` computation, whose exact value is `v`, to `_coins`
of the player at address `p`. Signed overflow is undefined behaviour: it is reported as
`Err.Undefined`, with the wrapped value left in the object. -/
def Game.setCoins32 (s : Game) (p : Nat) (v : Int) : Step :=
  if fitsInt v then .ok (s.setPlayer p { s.store p with coins := v })
  else .throw .Undefined (s.setPlayer p { s.store p with coins := wrapInt v })

/-- Assignment of the result of an `int` computation, whose exact value is `v`, to
`_poolCoins`; overflow is reported as `Err.Undefined`, with the wrapped value left in the pool. -/
def Game.setPool32 (s : Game) (v : Int) : Step :=
  if fitsInt v then .ok { s with _poolCoins := v }
  else .throw .Undefined { s with _poolCoins := wrapInt v }

/-- Method `Player::addCoins` (Player.cpp:83-86) on the player at address `p`, with the width
of `int` taken into account. -/
def Game.addCoins32 (s : Game) (p : Nat) (n : Int) : Step :=
  if n < 0 then .ok s else s.setCoins32 p ((s.store p).coins + n)

/-- Method `Player::removeCoins` (Player.cpp:91-96) on the player at address `p`, with the
width of `int` taken into account. -/
def Game.removeCoins32 (s : Game) (p : Nat) (n : Int) : Step :=
  if n > (s.store p).coins then .throw .OutOfCoins s
  else s.setCoins32 p ((s.store p).coins - n)

/-- Method `Game::takeFromPool` (Game.cpp:102-107), with the width of `int` taken into
account. -/
def Game.takeFromPool32 (s : Game) (n : Int) : Step :=
  if n > s._poolCoins then .throw .IllegalAction s
  else s.setPool32 (s._poolCoins - n)

/-- Method `Game::returnToPool` (Game.cpp:108-111), with the width of `int` taken into
account. -/
def Game.returnToPool32 (s : Game) (n : Int) : Step :=
  if n < 0 then .ok s else s.setPool32 (s._poolCoins + n)

/-- Method `Player::onStartTurn` on the player at address `p`: `Merchant::onStartTurn`
(Merchant.cpp:7-11) calls `addCoins(1)`. -/
def Game.onStartTurn32 (s : Game) (p : Nat) : Step :=
  match (s.store p).role with
  | .Merchant => if (s.store p).coins ≥ 3 then s.addCoins32 p 1 else .ok s
  | _ => .ok s

/-- Method `Player::handleArrested` on the player at address `p`: `General::onArrested`
(General.cpp:20-22) and `Merchant::onArrested` (Merchant.cpp:18-24). -/
def Game.handleArrested32 (s : Game) (p : Nat) : Step :=
  match (s.store p).role with
  | .General => s.addCoins32 p 1
  | .Merchant =>
    if (s.store p).coins ≥ 2 then s.removeCoins32 p 2
    else s.removeCoins32 p (s.store p).coins
  | _ => .ok s

/-- Method `Player::handleSanctioned` on the player at address `p`: `Baron::onSanctioned`
(Baron.cpp:22-24). -/
def Game.handleSanctioned32 (s : Game) (p : Nat) : Step :=
  match (s.store p).role with
  | .Baron => s.addCoins32 p 1
  | _ => .ok s

/-- Method `Game::blockBribe` (Game.cpp:162-172), with the width of `int` taken into
account. -/
def Game.blockBribe32 (s : Game) (_blocker : Nat) (target : Nat) : Step :=
  match s.findPending (fun pa => pa.type == .Bribe && pa.actor == target) with
  | some i =>
    (s.returnToPool32 4).bind fun s1 => .ok { s1 with _pending := s1._pending.eraseIdx i }
  | none => .throw .IllegalAction s

/-- Method `Game::blockSanction` (Game.cpp:184-195), with the width of `int` taken into
account. -/
def Game.blockSanction32 (s : Game) (_blocker : Nat) (target : Nat) : Step :=
  match s.findPending (fun pa => pa.type == .Sanction && pa.target == some target) with
  | some i =>
    match s._pending[i]? with
    | some pa =>
      (s.removeCoins32 pa.actor 1).bind fun s1 =>
        (s1.returnToPool32 1).bind fun s2 =>
          .ok { s2 with _pending := s2._pending.eraseIdx i }
    | none => .throw .Undefined s
  | none => .throw .IllegalAction s

/-- Method `Game::blockCoup` (Game.cpp:197-211), with the width of `int` taken into
account. -/
def Game.blockCoup32 (s : Game) (blocker : Nat) (target : Nat) : Step :=
  match s.findPending (fun pa => pa.type == .Coup && pa.target == some target) with
  | some i =>
    if (s.store blocker).coins < 5 then .throw .OutOfCoins s
    else
      (s.removeCoins32 blocker 5).bind fun s1 =>
        (s1.returnToPool32 7).bind fun s2 =>
          .ok { s2 with _pending := s2._pending.eraseIdx i }
  | none => .throw .IllegalAction s

/-- One iteration of the loop of `Game::processPending` (Game.cpp:241-298), with the width
of `int` taken into account; the Bribe case computes on `size_t` only. -/
def Game.resolve32 (s : Game) (pa : PendingAction) : Step :=
  match pa.type with
  | .Gather => s.addCoins32 pa.actor 1
  | .Tax =>
    if (s.store pa.actor).roleName = "Governor" then s.addCoins32 pa.actor 3
    else s.addCoins32 pa.actor 2
  | .Bribe => s.resolve ⟨pa.actor, pa.target, .Bribe⟩
  | .Arrest =>
    if !s.isActive (some pa.actor) || !s.isActive pa.target then .ok s
    else
      match pa.target with
      | none => .ok s
      | some t =>
        let stolen0 : Int := if (s.store t).roleName = "Merchant" then 2 else 1
        let stolen : Int := if (s.store t).coins < stolen0 then (s.store t).coins else stolen0
        (s.removeCoins32 t stolen).bind fun s1 =>
          (s1.addCoins32 pa.actor stolen).bind fun s2 => s2.handleArrested32 t
  | .Sanction =>
    if !s.isActive (some pa.actor) || !s.isActive pa.target then .ok s
    else
      match pa.target with
      | none => .ok s
      | some t =>
        let r1 : Step :=
          if (s.store t).coins > 0 then
            (s.removeCoins32 t 1).bind fun s1 => s1.returnToPool32 1
          else .ok s
        r1.bind fun s2 =>
          if (s2.store t).roleName = "Baron" then s2.handleSanctioned32 t
          else .ok s2
  | .Coup =>
    if s.isActive pa.target then
      match pa.target with
      | none => .ok s
      | some t => s.removePlayer t
    else s.returnToPool32 7

/-- The loop of `Game::processPending` over the copied queue, with the width of `int` taken
into account. -/
def Game.resolveAll32 (s : Game) : List PendingAction → Step
  | [] => .ok s
  | pa :: rest => (s.resolve32 pa).bind fun s1 => s1.resolveAll32 rest

/-- Method `Game::processPending` (Game.cpp:236-299), with the width of `int` taken into
account. -/
def Game.processPending32 (s : Game) : Step :=
  Game.resolveAll32 { s with _pending := [] } s._pending

/-- Method `Game::nextTurn` (Game.cpp:46-51), with the width of `int` taken into account. -/
def Game.nextTurn32 (s : Game) : Step :=
  s.processPending32.bind fun s1 =>
    if s1._players.isEmpty then .ok s1
    else
      let s2 : Game := { s1 with _currentIndex := (s1._currentIndex + 1) % s1._players.length }
      match s2._players[s2._currentIndex]? with
      | some p => s2.onStartTurn32 p
      | none => .throw .Undefined s2

/-- Method `Player::gather` (Player.cpp:111-115), with the width of `int` taken into
account. -/
def Player.gather32 (s : Game) (self : Nat) : Step :=
  match Player.ensureMyTurn s self with
  | some e => .throw e s
  | none => (s.setCoins32 self ((s.store self).coins + 1)).bind Game.nextTurn32

/-- Method `Player::tax` (Player.cpp:122-129), with the width of `int` taken into account. -/
def Player.tax32 (s : Game) (self : Nat) : Step :=
  match Player.ensureMyTurn s self with
  | some e => .throw e s
  | none =>
    if !(s.store self).role.canTax then .throw .IllegalAction s
    else (s.registerTax self).nextTurn32

/-- Method `Player::bribe` (Player.cpp:137-148), with the width of `int` taken into
account. -/
def Player.bribe32 (s : Game) (self : Nat) : Step :=
  match Player.ensureMyTurn s self with
  | some e => .throw e s
  | none =>
    if !(s.store self).role.canBribe then .throw .IllegalAction s
    else if (s.store self).coins < 4 then .throw .OutOfCoins s
    else (s.setCoins32 self ((s.store self).coins - 4)).bind fun s1 =>
      .ok (s1.registerBribe self)

/-- Method `Player::arrest` (Player.cpp:155-165), with the width of `int` taken into
account. -/
def Player.arrest32 (s : Game) (self : Nat) (target : Nat) : Step :=
  match Player.ensureMyTurn s self with
  | some e => .throw e s
  | none =>
    if !(s.store self).role.canArrest then .throw .IllegalAction s
    else if self = target then .throw .IllegalAction s
    else (s.registerArrest self (some target)).nextTurn32

/-- Method `Player::sanction` (Player.cpp:172-183), with the width of `int` taken into
account. -/
def Player.sanction32 (s : Game) (self : Nat) (target : Nat) : Step :=
  match Player.ensureMyTurn s self with
  | some e => .throw e s
  | none =>
    if !(s.store self).role.canSanction then .throw .IllegalAction s
    else if (s.store self).coins < 3 then .throw .OutOfCoins s
    else (s.setCoins32 self ((s.store self).coins - 3)).bind fun s1 =>
      (s1.registerSanction self (some target)).nextTurn32

/-- Method `Player::coup` (Player.cpp:190-201), with the width of `int` taken into
account. -/
def Player.coup32 (s : Game) (self : Nat) (target : Nat) : Step :=
  match Player.ensureMyTurn s self with
  | some e => .throw e s
  | none =>
    if (s.store self).coins < 7 then .throw .OutOfCoins s
    else if self = target then .throw .IllegalAction s
    else (s.setCoins32 self ((s.store self).coins - 7)).bind fun s1 =>
      (s1.registerCoup self (some target)).nextTurn32

/-- Method `Player::specialAction` (Player.cpp:28-30) with `Baron::specialAction`
(Baron.cpp:10-16), with the width of `int` taken into account. -/
def Player.specialAction32 (s : Game) (recv self _target : Nat) : Step :=
  match (s.store recv).role with
  | .Baron =>
    if (s.store self).coins < 3 then .throw .OutOfCoins s
    else (s.removeCoins32 self 3).bind fun s1 => s1.addCoins32 self 6
  | _ => .ok s

/-- Run one public operation, with the width of `int` taken into account: an operation
in which an `int` computation overflows ends in `Err.Undefined`. -/
def Game.apply32 (s : Game) : Op → Step
  | .addPlayer player => s.addPlayer player
  | .removePlayer player => s.removePlayer player
  | .nextTurn => s.nextTurn32
  | .takeFromPool n => s.takeFromPool32 n
  | .returnToPool n => s.returnToPool32 n
  | .registerTax a => .ok (s.registerTax a)
  | .registerBribe a => .ok (s.registerBribe a)
  | .registerArrest a t => .ok (s.registerArrest a t)
  | .registerSanction a t => .ok (s.registerSanction a t)
  | .registerCoup a t => .ok (s.registerCoup a t)
  | .blockTax b t => s.blockTax b t
  | .blockBribe b t => s.blockBribe32 b t
  | .blockArrest b t => s.blockArrest b t
  | .blockSanction b t => s.blockSanction32 b t
  | .blockCoup b t => s.blockCoup32 b t
  | .gather p => Player.gather32 s p
  | .tax p => Player.tax32 s p
  | .bribe p => Player.bribe32 s p
  | .arrest p t => Player.arrest32 s p t
  | .sanction p t => Player.sanction32 s p t
  | .coup p t => Player.coup32 s p t
  | .specialAction r p t => Player.specialAction32 s r p t
  | .onStartTurn p => s.onStartTurn32 p
  | .handleArrested p => s.handleArrested32 p
  | .handleSanctioned p => s.handleSanctioned32 p
  | .addCoins p n => s.addCoins32 p n
  | .removeCoins p n => s.removeCoins32 p n

/-- The games reachable from a new game, whose player objects are all created with balance
0, by public operations whose `int` computations do not overflow (the state left by a
failed operation counts), together with the log of the players that joined. -/
inductive Game.Trace32 : List Nat → Game → Prop where
  | new (store : Nat → Player) (h0 : ∀ q, (store q).coins = 0) :
      Game.Trace32 [] (Game.new store)
  | step {log : List Nat} {s : Game} (op : Op) (h : Game.Trace32 log s)
      (hub : (s.apply32 op).err ≠ some .Undefined) :
      Game.Trace32 (Game.joinLog log s op) (s.apply32 op).state

/-- Reachable by a sequence of public operations without `int` overflow. -/
def Game.Reachable32 (s : Game) : Prop := ∃ log, Game.Trace32 log s

/-- The outcome `r32` computed on `int` agrees with the outcome `r` computed on exact
integers, unless it ran into undefined behaviour. -/
def Step.refines (r32 r : Step) : Prop := r32.err = some .Undefined ∨ r32 = r

/-! ## Example games -/

/-- Player objects of an example, laid out at the addresses 0, 1, 2, ... -/
def exStore (l : List Player) : Nat → Player := fun i => l.getD i ⟨"", 0, .Spy⟩

/-- A game holding the given player objects, all of them in the roster in address order. -/
def exGame (l : List Player) (cur : Nat) (pending : List PendingAction) : Game :=
  { store := exStore l, _players := List.range l.length, _currentIndex := cur,
    _poolCoins := 50, _pending := pending }

/-- The class `Briber` of test_Player.cpp:76-82: a role that only enables bribing. -/
def briber : Role := .Custom "Briber" ⟨true, false, true, false, false, false⟩

/-- A Governor alone in the game, as in test_Player.cpp:41-43. -/
def exTax : Game := exGame [⟨"Alice", 0, .Governor⟩] 0 []

/-- Alice holds 7 coins and it is her turn; Bob is the other player. -/
def exCoup : Game := exGame [⟨"Alice", 7, .Governor⟩, ⟨"Bob", 0, .Spy⟩] 0 []

/-- The game `exCoup` after `game.registerTax(&alice)`. -/
def exCoupTax : Game :=
  exGame [⟨"Alice", 7, .Governor⟩, ⟨"Bob", 0, .Spy⟩] 0 [⟨0, none, .Tax⟩]

/-- The game of test_Player.cpp:135-148 when `baron.arrest(carol)` is called. -/
def exArrest : Game :=
  exGame [⟨"Spy", 0, .Spy⟩, ⟨"Baron", 0, .Baron⟩, ⟨"Carol", 2, .Baron⟩] 1 []

/-- The game of test_Player.cpp:84-90 when `alice.bribe()` is called. -/
def exBribe : Game :=
  exGame [⟨"Baron", 5, .Baron⟩, ⟨"Judge", 0, .Judge⟩, ⟨"Alice", 4, briber⟩] 2 []

/-- A briber at roster position 0 whose Bribe is pending. -/
def exBribed : Game :=
  exGame [⟨"Alice", 0, briber⟩, ⟨"Judge", 0, .Judge⟩] 0 [⟨0, none, .Bribe⟩]

/-- A game with one pending entry of each kind a built-in role can veto, all matching
player 1; the player at address 0 holds the 5 coins a Coup veto costs. -/
def exVeto : Game :=
  exGame [⟨"Gen", 5, .General⟩, ⟨"Carol", 0, .Baron⟩] 0
    [⟨1, none, .Tax⟩, ⟨1, none, .Bribe⟩, ⟨0, some 1, .Arrest⟩, ⟨0, some 1, .Coup⟩]

/-- Bob and the Merchant Dave, who holds 3 coins, as in test_Player.cpp:114-126. -/
def exMerchant : Game := exGame [⟨"Bob", 0, .Baron⟩, ⟨"Dave", 3, .Merchant⟩] 0 []

/-- A Baron holding 3 coins and a Judge. -/
def exBaron : Game := exGame [⟨"Baron", 3, .Baron⟩, ⟨"Judge", 0, .Judge⟩] 0 []

/-- A Baron without coins and a Judge, as in test_Baron.cpp:31-38. -/
def exBaronZero : Game := exGame [⟨"Baron", 0, .Baron⟩, ⟨"Judge", 0, .Judge⟩] 0 []

/-- Two players have each registered a Coup on the General, who holds 5 coins. -/
def exTwoCoups : Game :=
  exGame [⟨"Gen", 5, .General⟩, ⟨"Carol", 0, .Baron⟩, ⟨"Dan", 0, .Spy⟩] 0
    [⟨1, some 0, .Coup⟩, ⟨2, some 0, .Coup⟩]

/-- A pending Tax by Alice is followed by a pending Tax by Bob. -/
def exTaxQueue : Game :=
  exGame [⟨"Alice", 0, .Governor⟩, ⟨"Bob", 0, .Governor⟩] 0
    [⟨0, none, .Tax⟩, ⟨1, none, .Tax⟩]

/-- Player objects as the constructor leaves them: Alice (Governor) and Bob (Spy), no coins. -/
def exFresh : Nat → Player := exStore [⟨"Alice", 0, .Governor⟩, ⟨"Bob", 0, .Spy⟩]

/-- The game after `addPlayer(alice)`, `addPlayer(bob)` and `alice.gather()` on a new game. -/
def exPlayed : Game :=
  ((((Game.new exFresh).apply (.addPlayer (some 0))).state.apply
    (.addPlayer (some 1))).state.apply (.gather 0)).state

/-- Four players A, B, C, D with B current, as in test_Game.cpp:207-221. -/
def exFour : Game :=
  exGame [⟨"A", 0, .Governor⟩, ⟨"B", 0, .Spy⟩, ⟨"C", 0, .Baron⟩, ⟨"D", 0, .Merchant⟩] 1 []

/-- Three players A, C, D with D, the last one, current, as in test_Game.cpp:231-233. -/
def exThree : Game :=
  exGame [⟨"A", 0, .Governor⟩, ⟨"C", 0, .Baron⟩, ⟨"D", 0, .Merchant⟩] 2 []

/-- Player objects as the constructor leaves them: Tom (Spy), Alice (Briber), Xena (Spy). -/
def exJoin : Nat → Player :=
  exStore [⟨"Tom", 0, .Spy⟩, ⟨"Alice", 0, briber⟩, ⟨"Xena", 0, .Spy⟩]

/-- Tom, Alice and Xena have joined in this order; Alice was given 11 coins, the turn was
passed to her and she has called `bribe()`. -/
def exBribePending : Game :=
  (Game.new exJoin).run [.addPlayer (some 0), .addPlayer (some 1), .addPlayer (some 2),
    .addCoins 1 11, .nextTurn, .bribe 1]

/-- The game after `addPlayer(alice)`, `addPlayer(bob)` and `alice.gather()` on a new game,
computed on `int`. -/
def exPlayed32 : Game :=
  ((((Game.new exFresh).apply32 (.addPlayer (some 0))).state.apply32
    (.addPlayer (some 1))).state.apply32 (.gather 0)).state

/-! # Lemmas -/

theorem Player.addCoins_name (p : Player) (n : Int) : (p.addCoins n).name = p.name := by
  unfold Player.addCoins; split <;> rfl

theorem Player.addCoins_role (p : Player) (n : Int) : (p.addCoins n).role = p.role := by
  unfold Player.addCoins; split <;> rfl

theorem Player.removeCoins_ok (p : Player) (n : Int) (h : n ≤ p.coins) :
    p.removeCoins n = .ok { p with coins := p.coins - n } := by
  unfold Player.removeCoins
  rw [if_neg (by omega)]

theorem Player.handleArrested_ok (p : Player) :
    ∃ p', p.handleArrested = .ok p' ∧ p'.name = p.name ∧ p'.role = p.role := by
  unfold Player.handleArrested Role.onArrested
  split
  · exact ⟨_, rfl, Player.addCoins_name _ _, Player.addCoins_role _ _⟩
  · split
    · rw [Player.removeCoins_ok _ _ (by omega)]; exact ⟨_, rfl, rfl, rfl⟩
    · rw [Player.removeCoins_ok _ _ (le_refl _)]; exact ⟨_, rfl, rfl, rfl⟩
  · exact ⟨_, rfl, rfl, rfl⟩

theorem Player.handleSanctioned_ok (p : Player) :
    ∃ p', p.handleSanctioned = .ok p' ∧ p'.name = p.name ∧ p'.role = p.role := by
  unfold Player.handleSanctioned Role.onSanctioned
  split
  · exact ⟨_, rfl, Player.addCoins_name _ _, Player.addCoins_role _ _⟩
  · exact ⟨_, rfl, rfl, rfl⟩

theorem Game.Pres.refl (w : Nat → Prop) (s : Game) : Game.Pres w s s :=
  ⟨fun _ => rfl, fun _ => rfl, fun _ _ => rfl, rfl⟩

theorem Game.Pres.trans {w : Nat → Prop} {s s1 s2 : Game}
    (h1 : Game.Pres w s s1) (h2 : Game.Pres w s1 s2) : Game.Pres w s s2 :=
  ⟨fun q => (h2.name_eq q).trans (h1.name_eq q), fun q => (h2.role_eq q).trans (h1.role_eq q),
   fun q hq => (h2.store_eq q hq).trans (h1.store_eq q hq), h2.pending_eq.trans h1.pending_eq⟩

theorem Game.Pres.mono {w v : Nat → Prop} {s s' : Game} (hw : ∀ q, w q → v q)
    (h : Game.Pres w s s') : Game.Pres v s s' :=
  ⟨h.name_eq, h.role_eq, fun q hq => h.store_eq q (fun h' => hq (hw q h')), h.pending_eq⟩

theorem Game.setPlayer_pres (s : Game) (p : Nat) (pl : Player)
    (hn : pl.name = (s.store p).name) (hr : pl.role = (s.store p).role) :
    Game.Pres (fun q => q = p) s (s.setPlayer p pl) := by
  refine ⟨fun q => ?_, fun q => ?_, fun q hq => ?_, rfl⟩
  · by_cases h : q = p
    · subst h; simp [Game.setPlayer, hn]
    · simp [Game.setPlayer, Function.update_noteq h]
  · by_cases h : q = p
    · subst h; simp [Game.setPlayer, hr]
    · simp [Game.setPlayer, Function.update_noteq h]
  · simp [Game.setPlayer, Function.update_noteq hq]

theorem Game.setPlayer_wf (s : Game) (p : Nat) (pl : Player) (h : s.wf) : (s.setPlayer p pl).wf := h

theorem Game.returnToPool_pres (s : Game) (n : Int) (w : Nat → Prop) :
    Game.Pres w s (s.returnToPool n) := by
  unfold Game.returnToPool
  split
  · exact Game.Pres.refl _ _
  · exact ⟨fun _ => rfl, fun _ => rfl, fun _ _ => rfl, rfl⟩

theorem Game.returnToPool_wf (s : Game) (n : Int) (h : s.wf) : (s.returnToPool n).wf := by
  unfold Game.returnToPool
  split
  · exact h
  · exact h

theorem Game.removePlayer_ok (s : Game) (t : Nat) (ht : t ∈ s._players) :
    ∃ s', s.removePlayer t = .ok s' ∧ s'._players = s._players.erase t ∧
      s'.store = s.store ∧ s'._poolCoins = s._poolCoins ∧ s'._pending = s._pending ∧
      (s.wf → s'.wf) := by
  have hlen : (s._players.erase t).length = s._players.length - 1 := List.length_erase_of_mem ht
  have hne : s._players ≠ [] := List.ne_nil_of_mem ht
  unfold Game.removePlayer
  rw [if_pos ht]
  dsimp only
  by_cases he : (s._players.erase t).isEmpty = true
  · rw [if_pos he]
    refine ⟨_, rfl, rfl, rfl, rfl, rfl, fun _ hne' => ?_⟩
    exact absurd (List.isEmpty_iff.mp he) hne'
  · rw [if_neg he]
    have hlen2 : 0 < (s._players.erase t).length := by
      rcases hl : s._players.erase t with _ | ⟨a, l⟩
      · simp [hl] at he
      · simp
    by_cases hc : List.indexOf t s._players < s._currentIndex ∨
        s._currentIndex ≥ (s._players.erase t).length
    · rw [if_pos hc]
      refine ⟨_, rfl, rfl, rfl, rfl, rfl, fun hwf _ => ?_⟩
      have := hwf hne
      show (if s._currentIndex = 0 then 0 else s._currentIndex - 1) < (s._players.erase t).length
      split <;> omega
    · rw [if_neg hc]
      refine ⟨_, rfl, rfl, rfl, rfl, rfl, fun _ _ => ?_⟩
      show s._currentIndex < (s._players.erase t).length
      omega

theorem Game.onPlayer_ok (s : Game) (p : Nat) (f : Player → Except Err Player) (pl : Player)
    (h : f (s.store p) = .ok pl) : s.onPlayer p f = .ok (s.setPlayer p pl) := by
  unfold Game.onPlayer; rw [h]

theorem Game.resolve_ok (s : Game) (pa : PendingAction) (h : s.wf) :
    ∃ s', s.resolve pa = .ok s' ∧ s'.wf ∧ s'._players.length ≤ s._players.length ∧
      Game.Pres (fun q => pa.touches q = true) s s' := by
  rcases pa with ⟨a, tgt, ty⟩
  cases ty
  · -- Gather
    refine ⟨_, rfl, h, le_refl _, ?_⟩
    exact (Game.setPlayer_pres s a _ (Player.addCoins_name _ _) (Player.addCoins_role _ _)).mono
      (fun q hq => by simp [PendingAction.touches, hq])
  · -- Tax
    unfold Game.resolve
    dsimp only
    split
    · refine ⟨_, rfl, h, le_refl _, ?_⟩
      exact (Game.setPlayer_pres s a _ (Player.addCoins_name _ _) (Player.addCoins_role _ _)).mono
        (fun q hq => by simp [PendingAction.touches, hq])
    · refine ⟨_, rfl, h, le_refl _, ?_⟩
      exact (Game.setPlayer_pres s a _ (Player.addCoins_name _ _) (Player.addCoins_role _ _)).mono
        (fun q hq => by simp [PendingAction.touches, hq])
  · -- Bribe
    unfold Game.resolve Game.getCurrentPlayer
    dsimp only
    by_cases he : s._players.isEmpty = true
    · rw [if_pos he]
      dsimp only
      rw [if_neg (by simp)]
      exact ⟨_, rfl, h, le_refl _, Game.Pres.refl _ _⟩
    · rw [if_neg he]
      have hne : s._players ≠ [] := fun hh => he (List.isEmpty_iff.mpr hh)
      have hlt := h hne
      rw [List.getElem?_eq_getElem hlt]
      dsimp only
      split
      · split
        · refine ⟨_, rfl, fun _ => ?_, le_refl _, ⟨fun _ => rfl, fun _ => rfl, fun _ _ => rfl, rfl⟩⟩
          show s._currentIndex - 1 < s._players.length
          omega
        · refine ⟨_, rfl, fun _ => ?_, le_refl _, ⟨fun _ => rfl, fun _ => rfl, fun _ _ => rfl, rfl⟩⟩
          show s._players.length - 1 < s._players.length
          omega
      · exact ⟨_, rfl, h, le_refl _, Game.Pres.refl _ _⟩
  · -- Arrest
    unfold Game.resolve
    dsimp only
    split
    · exact ⟨_, rfl, h, le_refl _, Game.Pres.refl _ _⟩
    · cases tgt with
      | none => exact ⟨_, rfl, h, le_refl _, Game.Pres.refl _ _⟩
      | some t =>
        dsimp only
        generalize hst : (if (s.store t).coins < (if (s.store t).roleName = "Merchant" then (2:Int) else 1)
          then (s.store t).coins else (if (s.store t).roleName = "Merchant" then (2:Int) else 1)) = stolen
        have hle : stolen ≤ (s.store t).coins := by
          rw [← hst]; split <;> omega
        rw [Game.onPlayer_ok s t _ _ (Player.removeCoins_ok _ _ hle)]
        simp only [Step.bind]
        obtain ⟨p', hp', hn', hr'⟩ := Player.handleArrested_ok
          ((((s.setPlayer t { s.store t with coins := (s.store t).coins - stolen }).setPlayer a
            (((s.setPlayer t { s.store t with coins := (s.store t).coins - stolen }).store a).addCoins
              stolen))).store t)
        rw [Game.onPlayer_ok _ t _ _ hp']
        refine ⟨_, rfl, h, le_refl _, ?_⟩
        have h1 := (Game.setPlayer_pres s t { s.store t with coins := (s.store t).coins - stolen }
          rfl rfl).mono (v := fun q => PendingAction.touches ⟨a, some t, .Arrest⟩ q = true)
          (fun q hq => by simp [PendingAction.touches, hq])
        have h2 := (Game.setPlayer_pres (s.setPlayer t { s.store t with coins := (s.store t).coins - stolen })
          a (((s.setPlayer t { s.store t with coins := (s.store t).coins - stolen }).store a).addCoins
              stolen) (Player.addCoins_name _ _) (Player.addCoins_role _ _)).mono
          (v := fun q => PendingAction.touches ⟨a, some t, .Arrest⟩ q = true)
          (fun q hq => by simp [PendingAction.touches, hq])
        have h3 := (Game.setPlayer_pres _ t p' hn' hr').mono
          (v := fun q => PendingAction.touches ⟨a, some t, .Arrest⟩ q = true)
          (fun q hq => by simp [PendingAction.touches, hq])
        exact (h1.trans h2).trans h3
  · -- Sanction
    unfold Game.resolve
    dsimp only
    split
    · exact ⟨_, rfl, h, le_refl _, Game.Pres.refl _ _⟩
    · cases tgt with
      | none => exact ⟨_, rfl, h, le_refl _, Game.Pres.refl _ _⟩
      | some t =>
        dsimp only
        have key : ∃ s2, (if (s.store t).coins > 0 then
            (s.onPlayer t (fun pl => pl.removeCoins 1)).bind fun s1 => Step.ok (s1.returnToPool 1)
            else Step.ok s) = .ok s2 ∧ s2.wf ∧ s2._players = s._players ∧
            Game.Pres (fun q => PendingAction.touches ⟨a, some t, .Sanction⟩ q = true) s s2 := by
          split
          · rename_i hpos
            rw [Game.onPlayer_ok s t _ _ (Player.removeCoins_ok _ _ (by omega))]
            refine ⟨_, rfl, Game.returnToPool_wf _ _ h, ?_, ?_⟩
            · unfold Game.returnToPool; split <;> rfl
            · exact ((Game.setPlayer_pres s t { s.store t with coins := (s.store t).coins - 1 }
                rfl rfl).mono
                (fun q hq => by simp [PendingAction.touches, hq])).trans
                (Game.returnToPool_pres _ _ _)
          · exact ⟨_, rfl, h, rfl, Game.Pres.refl _ _⟩
        obtain ⟨s2, hs2, hwf2, hpl2, hpres2⟩ := key
        rw [hs2]
        simp only [Step.bind]
        split
        · obtain ⟨p', hp', hn', hr'⟩ := Player.handleSanctioned_ok (s2.store t)
          rw [Game.onPlayer_ok _ t _ _ hp']
          refine ⟨_, rfl, hwf2, by rw [← hpl2]; exact le_refl _, ?_⟩
          exact hpres2.trans ((Game.setPlayer_pres _ t p' hn' hr').mono
            (fun q hq => by simp [PendingAction.touches, hq]))
        · exact ⟨_, rfl, hwf2, by rw [← hpl2], hpres2⟩
  · -- Coup
    unfold Game.resolve
    dsimp only
    split
    · rename_i hact
      cases tgt with
      | none => exact ⟨_, rfl, h, le_refl _, Game.Pres.refl _ _⟩
      | some t =>
        have ht : t ∈ s._players := by simpa [Game.isActive] using hact
        obtain ⟨s', hs', hpl, hst, _, hpend, hwf⟩ := Game.removePlayer_ok s t ht
        refine ⟨s', hs', hwf h, ?_, ⟨fun q => by rw [hst], fun q => by rw [hst],
          fun q _ => by rw [hst], hpend⟩⟩
        rw [hpl, List.length_erase_of_mem ht]; omega
    · refine ⟨_, rfl, Game.returnToPool_wf _ _ h, ?_, Game.returnToPool_pres _ _ _⟩
      unfold Game.returnToPool; split <;> exact le_refl _

theorem Game.resolveAll_ok (l : List PendingAction) (s : Game) (h : s.wf) :
    ∃ s', s.resolveAll l = .ok s' ∧ s'.wf ∧ s'._players.length ≤ s._players.length ∧
      Game.Pres (fun q => ∃ pa ∈ l, pa.touches q = true) s s' := by
  induction l generalizing s with
  | nil => exact ⟨s, rfl, h, le_refl _, Game.Pres.refl _ _⟩
  | cons pa rest ih =>
    obtain ⟨s1, hs1, hwf1, hlen1, hp1⟩ := Game.resolve_ok s pa h
    obtain ⟨s2, hs2, hwf2, hlen2, hp2⟩ := ih s1 hwf1
    refine ⟨s2, ?_, hwf2, le_trans hlen2 hlen1, ?_⟩
    · simp only [Game.resolveAll, hs1, Step.bind, hs2]
    · exact (hp1.mono (fun q hq => ⟨pa, List.mem_cons_self _ _, hq⟩)).trans
        (hp2.mono (fun q ⟨pb, hpb, hq⟩ => ⟨pb, List.mem_cons_of_mem _ hpb, hq⟩))

theorem Game.processPending_ok (s : Game) (h : s.wf) :
    ∃ s', s.processPending = .ok s' ∧ s'.wf ∧ s'._players.length ≤ s._players.length ∧
      Game.Pres (fun q => ∃ pa ∈ s._pending, pa.touches q = true) { s with _pending := [] } s' :=
  Game.resolveAll_ok s._pending { s with _pending := [] } h

theorem Game.nextTurn_eq (s : Game) : s.nextTurn = s.processPending.bind Game.advance := rfl

theorem Player.onStartTurn_spec (p : Player) :
    ∃ p', p.onStartTurn = .ok p' ∧ p'.name = p.name ∧ p'.role = p.role ∧
      p'.coins = p.coins + (if p.role = .Merchant ∧ p.coins ≥ 3 then 1 else 0) := by
  unfold Player.onStartTurn Role.onStartTurn
  split
  · rename_i hr
    split
    · rename_i hc
      refine ⟨_, rfl, Player.addCoins_name _ _, Player.addCoins_role _ _, ?_⟩
      rw [if_pos ⟨hr, hc⟩]
      simp [Player.addCoins]
    · rename_i hc
      refine ⟨_, rfl, rfl, rfl, ?_⟩
      rw [if_neg (fun h => hc h.2)]; simp
  · rename_i hr
    refine ⟨_, rfl, rfl, rfl, ?_⟩
    rw [if_neg (fun h => hr h.1)]; simp

theorem Game.advance_ok (s1 : Game) :
    ∃ s', s1.advance = .ok s' ∧ s'.wf ∧ s'._players = s1._players ∧
      s'._poolCoins = s1._poolCoins ∧ s'._pending = s1._pending ∧
      s'._currentIndex = (if s1._players = [] then s1._currentIndex
        else (s1._currentIndex + 1) % s1._players.length) ∧
      (∀ q, (s'.store q).name = (s1.store q).name) ∧
      (∀ q, (s'.store q).role = (s1.store q).role) ∧
      (∀ q, (s'.store q).coins = (s1.store q).coins +
        (if s1._players[(s1._currentIndex + 1) % s1._players.length]? = some q ∧
            (s1.store q).role = .Merchant ∧ (s1.store q).coins ≥ 3 then 1 else 0)) := by
  unfold Game.advance
  by_cases he : s1._players.isEmpty = true
  · rw [if_pos he]
    have hnil : s1._players = [] := List.isEmpty_iff.mp he
    refine ⟨s1, rfl, fun hne => absurd hnil hne, rfl, rfl, rfl, by rw [if_pos hnil],
      fun _ => rfl, fun _ => rfl, fun q => ?_⟩
    rw [if_neg (by simp [hnil])]; simp
  · rw [if_neg he]
    have hne : s1._players ≠ [] := fun hh => he (List.isEmpty_iff.mpr hh)
    have hpos : 0 < s1._players.length := List.length_pos.mpr hne
    have hlt : (s1._currentIndex + 1) % s1._players.length < s1._players.length :=
      Nat.mod_lt _ hpos
    dsimp only
    rw [List.getElem?_eq_getElem hlt]
    dsimp only
    generalize hcur : s1._players[(s1._currentIndex + 1) % s1._players.length] = cur
    obtain ⟨p', hp', hn', hr', hc'⟩ := Player.onStartTurn_spec (s1.store cur)
    rw [Game.onPlayer_ok { s1 with _currentIndex := (s1._currentIndex + 1) % s1._players.length }
      cur _ p' hp']
    refine ⟨_, rfl, fun _ => hlt, rfl, rfl, rfl, by rw [if_neg hne]; rfl, fun q => ?_, fun q => ?_,
      fun q => ?_⟩
    · by_cases hq : q = cur
      · subst hq; simpa [Game.setPlayer] using hn'
      · simp [Game.setPlayer, Function.update_noteq hq]
    · by_cases hq : q = cur
      · subst hq; simpa [Game.setPlayer] using hr'
      · simp [Game.setPlayer, Function.update_noteq hq]
    · by_cases hq : q = cur
      · subst hq
        simp only [Game.setPlayer, Function.update_same, hc', true_and]
      · have : ¬ (some cur = some q) := fun h => hq (Option.some.inj h).symm
        simp [Game.setPlayer, Function.update_noteq hq, this]

theorem Game.nextTurn_ok (s : Game) (h : s.wf) :
    ∃ s', s.nextTurn = .ok s' ∧ s'.wf ∧ s'._pending = [] ∧
      (∀ q, (s'.store q).name = (s.store q).name) ∧
      (∀ q, (s'.store q).role = (s.store q).role) ∧
      (∀ q, (∀ pa ∈ s._pending, pa.touches q = false) → (s.store q).role ≠ .Merchant →
        (s'.store q).coins = (s.store q).coins) := by
  obtain ⟨s1, hs1, hwf1, _, hp1⟩ := Game.processPending_ok s h
  obtain ⟨s2, hs2, hwf2, _, _, hpend2, _, hn2, hr2, hc2⟩ := Game.advance_ok s1
  refine ⟨s2, by rw [Game.nextTurn_eq, hs1]; exact hs2, hwf2, hpend2.trans hp1.pending_eq,
    fun q => (hn2 q).trans (hp1.name_eq q), fun q => (hr2 q).trans (hp1.role_eq q),
    fun q hq hm => ?_⟩
  have hst : s1.store q = s.store q := hp1.store_eq q (by
    rintro ⟨pa, hpa, ht⟩
    rw [hq pa hpa] at ht
    exact Bool.false_ne_true ht)
  rw [hc2 q, hst, if_neg (fun hh => hm hh.2.1)]
  simp

theorem Game.wf_of_current (s : Game) (p : Nat) (hcur : s._players[s._currentIndex]? = some p) :
    s.wf := by
  intro _
  exact (List.getElem?_eq_some.mp hcur).1

theorem Game.turn_of_current (s : Game) (p : Nat) (hcur : s._players[s._currentIndex]? = some p) :
    s.turn = .ok (s.store p).name := by
  unfold Game.turn
  have hne : s._players.isEmpty = false := by
    cases h : s._players with
    | nil => simp [h] at hcur
    | cons a l => rfl
  rw [hne, hcur]
  rfl

theorem Player.ensureMyTurn_current (s : Game) (p : Nat)
    (hcur : s._players[s._currentIndex]? = some p) : Player.ensureMyTurn s p = none := by
  unfold Player.ensureMyTurn
  rw [Game.turn_of_current s p hcur]
  simp

theorem Player.ensureMyTurn_other (s : Game) (p : Nat) (nm : String) (hturn : s.turn = .ok nm)
    (hne : (s.store p).name ≠ nm) : Player.ensureMyTurn s p = some .NotYourTurn := by
  unfold Player.ensureMyTurn
  rw [hturn]
  simp [Ne.symm hne]

theorem Game.processPending_nil (s : Game) (h : s._pending = []) : s.processPending = .ok s := by
  unfold Game.processPending
  rw [h]
  cases s
  simp_all [Game.resolveAll]

theorem Game.nextTurn_nil (s : Game) (h : s._pending = []) : s.nextTurn = s.advance := by
  rw [Game.nextTurn_eq, Game.processPending_nil s h]
  rfl

theorem findIdx?_split {α : Type} (m : α → Bool) (l1 : List α) (x : α) (l2 : List α)
    (hx : m x = true) (h1 : ∀ y ∈ l1, m y = false) :
    (l1 ++ x :: l2).findIdx? m = some l1.length := by
  have hnone : l1.findIdx? m = none := List.findIdx?_eq_none_iff.mpr h1
  rw [List.findIdx?_append, hnone, List.findIdx?_cons, if_pos hx]
  simp

theorem eraseIdx_split {α : Type} (l1 : List α) (x : α) (l2 : List α) :
    (l1 ++ x :: l2).eraseIdx l1.length = l1 ++ l2 := by
  rw [List.eraseIdx_append_of_length_le (le_refl _)]
  simp

theorem getElem?_split {α : Type} (l1 : List α) (x : α) (l2 : List α) :
    (l1 ++ x :: l2)[l1.length]? = some x := by
  rw [List.getElem?_append_right (le_refl _)]
  simp

theorem exists_first_match {α : Type} (m : α → Bool) (l : List α)
    (h : ∃ x ∈ l, m x = true) :
    ∃ l1 x l2, l = l1 ++ x :: l2 ∧ m x = true ∧ ∀ y ∈ l1, m y = false := by
  induction l with
  | nil => obtain ⟨x, hx, _⟩ := h; cases hx
  | cons a l ih =>
    by_cases ha : m a = true
    · exact ⟨[], a, l, rfl, ha, fun y hy => by cases hy⟩
    · have hrest : ∃ x ∈ l, m x = true := by
        obtain ⟨x, hx, hm⟩ := h
        rcases List.mem_cons.mp hx with rfl | hx
        · exact absurd hm ha
        · exact ⟨x, hx, hm⟩
      obtain ⟨l1, x, l2, hl, hm, h1⟩ := ih hrest
      refine ⟨a :: l1, x, l2, by rw [hl]; rfl, hm, fun y hy => ?_⟩
      rcases List.mem_cons.mp hy with rfl | hy
      · simpa using ha
      · exact h1 y hy

theorem Game.findPending_split (s : Game) (m : PendingAction → Bool) (l1 : List PendingAction)
    (x : PendingAction) (l2 : List PendingAction) (hl : s._pending = l1 ++ x :: l2)
    (hx : m x = true) (h1 : ∀ y ∈ l1, m y = false) :
    s.findPending m = some l1.length ∧ s._pending.eraseIdx l1.length = l1 ++ l2 ∧
      s._pending[l1.length]? = some x := by
  unfold Game.findPending
  rw [hl]
  exact ⟨findIdx?_split m l1 x l2 hx h1, eraseIdx_split l1 x l2,
    getElem?_split l1 x l2⟩

theorem Game.findPending_none (s : Game) (m : PendingAction → Bool) :
    s.findPending m = none ↔ ∀ x ∈ s._pending, m x = false := by
  unfold Game.findPending
  exact List.findIdx?_eq_none_iff

theorem Game.isActive_some (s : Game) (q : Nat) : s.isActive (some q) = decide (q ∈ s._players) :=
  rfl

theorem Game.resolve_sanction (s : Game) (a t : Nat) (ha : a ∈ s._players)
    (ht : t ∈ s._players) :
    s.resolve ⟨a, some t, .Sanction⟩ =
      (if (s.store t).coins > 0 then
        Step.ok ((s.setPlayer t { s.store t with coins := (s.store t).coins - 1 }).returnToPool 1)
       else Step.ok s).bind fun s2 =>
        if (s2.store t).roleName = "Baron" then s2.onPlayer t Player.handleSanctioned
        else .ok s2 := by
  have hc : ¬ ((!s.isActive (some a) || !s.isActive (some t)) = true) := by
    simp [Game.isActive, ha, ht]
  unfold Game.resolve
  dsimp only
  rw [if_neg hc]
  by_cases hpos : (s.store t).coins > 0
  · rw [if_pos hpos, if_pos hpos,
      Game.onPlayer_ok s t _ _ (Player.removeCoins_ok _ _ (by omega))]
    rfl
  · rw [if_neg hpos, if_neg hpos]

theorem Game.setPlayer_self (s : Game) (t : Nat) : s.setPlayer t (s.store t) = s := by
  cases s
  simp [Game.setPlayer]

theorem Step.bind_eq_ok {r : Step} {f : Game → Step} {s' : Game} (h : r.bind f = .ok s') :
    ∃ s1, r = .ok s1 ∧ f s1 = .ok s' := by
  cases r with
  | ok s1 => exact ⟨s1, rfl, h⟩
  | throw e s1 => cases h

theorem Game.onPlayer_eq_ok {s s' : Game} {p : Nat} {f : Player → Except Err Player}
    (h : s.onPlayer p f = .ok s') : ∃ pl, f (s.store p) = .ok pl ∧ s' = s.setPlayer p pl := by
  unfold Game.onPlayer at h
  split at h
  · rename_i pl hpl
    exact ⟨pl, hpl, (Step.ok.inj h).symm⟩
  · cases h

theorem Game.onPlayer_throw (s : Game) (p : Nat) (f : Player → Except Err Player) (e : Err)
    (h : f (s.store p) = .error e) : s.onPlayer p f = .throw e s := by
  unfold Game.onPlayer; rw [h]

theorem Game.blockCoup_of_split (s : Game) (blocker t : Nat) (l1 : List PendingAction)
    (pa : PendingAction) (l2 : List PendingAction) (hl : s._pending = l1 ++ pa :: l2)
    (hm : pa.type = .Coup ∧ pa.target = some t)
    (h1 : ∀ x ∈ l1, ¬ (x.type = .Coup ∧ x.target = some t)) :
    s.blockCoup blocker t =
      if (s.store blocker).coins < 5 then .throw .OutOfCoins s
      else .ok { (s.setPlayer blocker
          { s.store blocker with coins := (s.store blocker).coins - 5 }).returnToPool 7 with
          _pending := l1 ++ l2 } := by
  obtain ⟨hf, he, _⟩ := Game.findPending_split s
    (fun pa => pa.type == .Coup && pa.target == some t) l1 pa l2 hl
    (by simp [hm.1, hm.2]) (fun x hx => by simpa using h1 x hx)
  unfold Game.blockCoup
  rw [hf]
  dsimp only
  by_cases hc : (s.store blocker).coins < 5
  · rw [if_pos hc, if_pos hc]
  · rw [if_neg hc, if_neg hc, Game.onPlayer_ok s blocker _ _ (Player.removeCoins_ok _ _ (by omega))]
    simp only [Step.bind]
    congr 1
    simp [Game.returnToPool, Game.setPlayer, he]

theorem Game.blockSanction_of_split (s : Game) (blocker t : Nat) (l1 : List PendingAction)
    (pa : PendingAction) (l2 : List PendingAction) (hl : s._pending = l1 ++ pa :: l2)
    (hm : pa.type = .Sanction ∧ pa.target = some t)
    (h1 : ∀ x ∈ l1, ¬ (x.type = .Sanction ∧ x.target = some t)) :
    s.blockSanction blocker t =
      if (s.store pa.actor).coins < 1 then .throw .OutOfCoins s
      else .ok { (s.setPlayer pa.actor
          { s.store pa.actor with coins := (s.store pa.actor).coins - 1 }).returnToPool 1 with
          _pending := l1 ++ l2 } := by
  obtain ⟨hf, he, hg⟩ := Game.findPending_split s
    (fun pa => pa.type == .Sanction && pa.target == some t) l1 pa l2 hl
    (by simp [hm.1, hm.2]) (fun x hx => by simpa using h1 x hx)
  unfold Game.blockSanction
  rw [hf]
  dsimp only
  rw [hg]
  dsimp only
  by_cases hc : (s.store pa.actor).coins < 1
  · rw [if_pos hc]
    have : (s.store pa.actor).removeCoins 1 = .error .OutOfCoins := by
      unfold Player.removeCoins; rw [if_pos (by omega)]
    rw [Game.onPlayer_throw s pa.actor _ _ this]
    rfl
  · rw [if_neg hc, Game.onPlayer_ok s pa.actor _ _ (Player.removeCoins_ok _ _ (by omega))]
    simp only [Step.bind]
    congr 1
    simp [Game.returnToPool, Game.setPlayer, he]

theorem Game.blockTax_of_split (s : Game) (blocker t : Nat) (l1 : List PendingAction)
    (pa : PendingAction) (l2 : List PendingAction) (hl : s._pending = l1 ++ pa :: l2)
    (hm : pa.type = .Tax ∧ pa.actor = t)
    (h1 : ∀ x ∈ l1, ¬ (x.type = .Tax ∧ x.actor = t)) :
    s.blockTax blocker t = .ok { s with _pending := l1 ++ l2 } := by
  obtain ⟨hf, he, _⟩ := Game.findPending_split s
    (fun pa => pa.type == .Tax && pa.actor == t) l1 pa l2 hl
    (by simp [hm.1, hm.2]) (fun x hx => by simpa using h1 x hx)
  unfold Game.blockTax
  rw [hf]
  dsimp only
  rw [he]

theorem Game.blockArrest_of_split (s : Game) (blocker t : Nat) (l1 : List PendingAction)
    (pa : PendingAction) (l2 : List PendingAction) (hl : s._pending = l1 ++ pa :: l2)
    (hm : pa.type = .Arrest ∧ pa.target = some t)
    (h1 : ∀ x ∈ l1, ¬ (x.type = .Arrest ∧ x.target = some t)) :
    s.blockArrest blocker t = .ok { s with _pending := l1 ++ l2 } := by
  obtain ⟨hf, he, _⟩ := Game.findPending_split s
    (fun pa => pa.type == .Arrest && pa.target == some t) l1 pa l2 hl
    (by simp [hm.1, hm.2]) (fun x hx => by simpa using h1 x hx)
  unfold Game.blockArrest
  rw [hf]
  dsimp only
  rw [he]

theorem Game.blockBribe_of_split (s : Game) (blocker t : Nat) (l1 : List PendingAction)
    (pa : PendingAction) (l2 : List PendingAction) (hl : s._pending = l1 ++ pa :: l2)
    (hm : pa.type = .Bribe ∧ pa.actor = t)
    (h1 : ∀ x ∈ l1, ¬ (x.type = .Bribe ∧ x.actor = t)) :
    s.blockBribe blocker t = .ok { s.returnToPool 4 with _pending := l1 ++ l2 } := by
  obtain ⟨hf, he, _⟩ := Game.findPending_split s
    (fun pa => pa.type == .Bribe && pa.actor == t) l1 pa l2 hl
    (by simp [hm.1, hm.2]) (fun x hx => by simpa using h1 x hx)
  unfold Game.blockBribe
  rw [hf]
  dsimp only
  congr 1
  simp [Game.returnToPool, he]

theorem Game.findPending_none_of_not_exists (s : Game) (P : PendingAction → Prop)
    (m : PendingAction → Bool) (hm : ∀ x, m x = true ↔ P x)
    (h : ¬ ∃ pa ∈ s._pending, P pa) : s.findPending m = none := by
  rw [Game.findPending_none]
  intro x hx
  cases hmx : m x with
  | false => rfl
  | true => exact absurd ⟨x, hx, (hm x).mp hmx⟩ h

theorem Game.split_of_exists (s : Game) (P : PendingAction → Prop)
    (h : ∃ pa ∈ s._pending, P pa) :
    ∃ l1 pa l2, s._pending = l1 ++ pa :: l2 ∧ P pa ∧ ∀ x ∈ l1, ¬ P x := by
  classical
  obtain ⟨l1, x, l2, hl, hx, h1⟩ := exists_first_match (fun pa => decide (P pa)) s._pending
    (by obtain ⟨pa, hpa, hP⟩ := h; exact ⟨pa, hpa, by simpa using hP⟩)
  exact ⟨l1, x, l2, hl, by simpa using hx, fun y hy => by simpa using h1 y hy⟩

theorem map_eraseIdx' {α β : Type} (f : α → β) (l : List α) (i : Nat) :
    (l.eraseIdx i).map f = (l.map f).eraseIdx i := by
  induction l generalizing i with
  | nil => rfl
  | cons a l ih =>
    cases i with
    | zero => rfl
    | succ i => simp [List.eraseIdx_cons_succ, ih]

theorem indexOf_of_getElem? (l : List Nat) (r q : Nat) (hnd : l.Nodup) (hr : l[r]? = some q) :
    l.indexOf q = r := by
  obtain ⟨hlt, hq⟩ := List.getElem?_eq_some.mp hr
  rw [← hq]
  exact List.indexOf_getElem hnd r hlt

/-- The outcome of `removePlayer` on a member of the roster, with the new pointer spelled out. -/
theorem Game.removePlayer_index (s : Game) (q : Nat) (hq : q ∈ s._players) :
    ∃ s', s.removePlayer q = .ok s' ∧ s'._players = s._players.erase q ∧
      s'.store = s.store ∧ s'._poolCoins = s._poolCoins ∧ s'._pending = s._pending ∧
      s'._currentIndex =
        (if s._players.length = 1 then 0
         else if s._players.indexOf q < s._currentIndex ∨
              s._currentIndex + 1 ≥ s._players.length then s._currentIndex - 1
         else s._currentIndex) := by
  have hlen : (s._players.erase q).length = s._players.length - 1 := List.length_erase_of_mem hq
  have hpos : 0 < s._players.length := List.length_pos_of_mem hq
  unfold Game.removePlayer
  rw [if_pos hq]
  dsimp only
  by_cases he : (s._players.erase q).isEmpty = true
  · rw [if_pos he]
    have h0 : (s._players.erase q).length = 0 := by
      rw [List.isEmpty_iff.mp he]; rfl
    have h1 : s._players.length = 1 := by omega
    refine ⟨_, rfl, rfl, rfl, rfl, rfl, ?_⟩
    rw [if_pos h1]
  · rw [if_neg he]
    have hlen2 : 0 < (s._players.erase q).length := by
      rcases hl : s._players.erase q with _ | ⟨a, l⟩
      · simp [hl] at he
      · simp
    have h1 : ¬ s._players.length = 1 := by omega
    by_cases hc : List.indexOf q s._players < s._currentIndex ∨
        s._currentIndex ≥ (s._players.erase q).length
    · rw [if_pos hc]
      refine ⟨_, rfl, rfl, rfl, rfl, rfl, ?_⟩
      have hg : s._players.indexOf q < s._currentIndex ∨
          s._currentIndex + 1 ≥ s._players.length := by omega
      show (if s._currentIndex = 0 then 0 else s._currentIndex - 1) = _
      rw [if_neg h1, if_pos hg]
      split <;> omega
    · rw [if_neg hc]
      refine ⟨_, rfl, rfl, rfl, rfl, rfl, ?_⟩
      have hg : ¬ (s._players.indexOf q < s._currentIndex ∨
          s._currentIndex + 1 ≥ s._players.length) := by omega
      show s._currentIndex = _
      rw [if_neg h1, if_neg hg]

theorem Game.removePlayer_throw (s : Game) (q : Nat) (hq : q ∉ s._players) :
    s.removePlayer q = .throw .IllegalAction s := by
  unfold Game.removePlayer
  rw [if_neg hq]

theorem Game.Mono.self (s : Game) : Game.Mono s s :=
  fun h => ⟨h, fun _ => rfl, List.Sublist.refl _⟩

theorem Game.Mono.chain {s s1 s2 : Game} (h1 : Game.Mono s s1) (h2 : Game.Mono s1 s2) :
    Game.Mono s s2 := by
  intro h
  obtain ⟨hi1, hn1, hs1⟩ := h1 h
  obtain ⟨hi2, hn2, hs2⟩ := h2 hi1
  exact ⟨hi2, fun q => (hn2 q).trans (hn1 q), hs2.trans hs1⟩

theorem Player.addCoins_nonneg (p : Player) (n : Int) (h : 0 ≤ p.coins) :
    0 ≤ (p.addCoins n).coins := by
  unfold Player.addCoins
  split
  · exact h
  · show 0 ≤ p.coins + n
    omega

theorem Player.removeCoins_spec (p p' : Player) (n : Int) (h : p.removeCoins n = .ok p') :
    p'.name = p.name ∧ p'.role = p.role ∧ p'.coins = p.coins - n ∧ n ≤ p.coins := by
  unfold Player.removeCoins at h
  split at h
  · cases h
  · cases h
    exact ⟨rfl, rfl, rfl, by omega⟩

theorem Player.handleArrested_nonneg (p p' : Player) (h : p.handleArrested = .ok p')
    (h0 : 0 ≤ p.coins) : 0 ≤ p'.coins ∧ p'.name = p.name := by
  unfold Player.handleArrested Role.onArrested at h
  split at h
  · cases h; exact ⟨Player.addCoins_nonneg _ _ h0, Player.addCoins_name _ _⟩
  · split at h
    · obtain ⟨hn, _, hc, _⟩ := Player.removeCoins_spec _ _ _ h
      exact ⟨by omega, hn⟩
    · obtain ⟨hn, _, hc, _⟩ := Player.removeCoins_spec _ _ _ h
      exact ⟨by omega, hn⟩
  · cases h; exact ⟨h0, rfl⟩

theorem Player.handleSanctioned_nonneg (p p' : Player) (h : p.handleSanctioned = .ok p')
    (h0 : 0 ≤ p.coins) : 0 ≤ p'.coins ∧ p'.name = p.name := by
  unfold Player.handleSanctioned Role.onSanctioned at h
  split at h
  · cases h; exact ⟨Player.addCoins_nonneg _ _ h0, Player.addCoins_name _ _⟩
  · cases h; exact ⟨h0, rfl⟩

theorem Player.onStartTurn_nonneg (p p' : Player) (h : p.onStartTurn = .ok p')
    (h0 : 0 ≤ p.coins) : 0 ≤ p'.coins ∧ p'.name = p.name := by
  unfold Player.onStartTurn Role.onStartTurn at h
  split at h
  · split at h
    · cases h; exact ⟨Player.addCoins_nonneg _ _ h0, Player.addCoins_name _ _⟩
    · cases h; exact ⟨h0, rfl⟩
  · cases h; exact ⟨h0, rfl⟩

/-- Overwriting a player object by one with the same name and a non-negative balance. -/
theorem Game.Mono.setPlayer (s : Game) (p : Nat) (pl : Player) (hn : pl.name = (s.store p).name)
    (hc : 0 ≤ pl.coins) : Game.Mono s (s.setPlayer p pl) := by
  intro h
  refine ⟨⟨h.ptr, h.ptr0, h.pool, fun q => ?_⟩, fun q => ?_, List.Sublist.refl _⟩
  · by_cases hq : q = p
    · subst hq; simpa [Game.setPlayer] using hc
    · simpa [Game.setPlayer, Function.update_noteq hq] using h.coins q
  · by_cases hq : q = p
    · subst hq; simpa [Game.setPlayer] using hn
    · simp [Game.setPlayer, Function.update_noteq hq]

theorem Game.Mono.returnToPool (s : Game) (n : Int) : Game.Mono s (s.returnToPool n) := by
  intro h
  unfold Game.returnToPool
  split
  · exact ⟨h, fun _ => rfl, List.Sublist.refl _⟩
  · exact ⟨⟨h.ptr, h.ptr0, by show 0 ≤ s._poolCoins + n; have := h.pool; omega, h.coins⟩,
      fun _ => rfl, List.Sublist.refl _⟩

theorem Game.Mono.setPending (s : Game) (l : List PendingAction) :
    Game.Mono s { s with _pending := l } :=
  fun h => ⟨⟨h.ptr, h.ptr0, h.pool, h.coins⟩, fun _ => rfl, List.Sublist.refl _⟩

/-- A hook or coin operation run on one player object. -/
theorem Game.Mono.onPlayer (s : Game) (p : Nat) (f : Player → Except Err Player)
    (hf : ∀ pl pl', f pl = .ok pl' → 0 ≤ pl.coins → 0 ≤ pl'.coins ∧ pl'.name = pl.name) :
    Game.Mono s (s.onPlayer p f).state := by
  intro h
  unfold Game.onPlayer
  cases hres : f (s.store p) with
  | error e => exact Game.Mono.self s h
  | ok pl =>
    obtain ⟨hc, hn⟩ := hf _ _ hres (h.coins p)
    exact Game.Mono.setPlayer s p pl hn hc h

theorem Game.Mono.bind (s : Game) (r : Step) (f : Game → Step) (hr : Game.Mono s r.state)
    (hf : ∀ s1, Game.Mono s1 (f s1).state) : Game.Mono s (r.bind f).state := by
  cases r with
  | ok s1 => exact hr.chain (hf s1)
  | throw e s1 => exact hr

theorem Game.Mono.removePlayer (s : Game) (q : Nat) : Game.Mono s (s.removePlayer q).state := by
  by_cases hq : q ∈ s._players
  · obtain ⟨s', hs', hpl, hst, hpool, _, hidx⟩ := Game.removePlayer_index s q hq
    obtain ⟨s'', hs'', _, _, _, _, hwf⟩ := Game.removePlayer_ok s q hq
    rw [hs'] at hs''
    cases hs''
    rw [hs']
    show Game.Mono s s'
    intro h
    refine ⟨⟨hwf h.ptr, fun he => ?_, by rw [hpool]; exact h.pool, fun x => by
      rw [hst]; exact h.coins x⟩, fun x => by rw [hst], by
      show s'._players.Sublist s._players
      rw [hpl]; exact List.erase_sublist q _⟩
    have hlen : s._players.length = 1 := by
      have h1 := List.length_erase_of_mem hq
      have h2 : (s._players.erase q).length = 0 := by
        rw [← hpl]
        show s'._players.length = 0
        rw [he]; rfl
      have h3 : 0 < s._players.length := List.length_pos_of_mem hq
      omega
    show s'._currentIndex = 0
    rw [hidx, if_pos hlen]
  · rw [Game.removePlayer_throw s q hq]
    exact Game.Mono.self s

theorem Player.removeCoins_nonneg (n : Int) (pl pl' : Player) (h : pl.removeCoins n = .ok pl')
    (_h0 : 0 ≤ pl.coins) : 0 ≤ pl'.coins ∧ pl'.name = pl.name := by
  obtain ⟨hn, _, hc, hle⟩ := Player.removeCoins_spec _ _ _ h
  exact ⟨by omega, hn⟩

theorem Game.Mono.ok (s s' : Game) (h : Game.Mono s s') : Game.Mono s (Step.ok s').state := h

theorem Game.Mono.throw (s : Game) (e : Err) : Game.Mono s (Step.throw e s).state :=
  Game.Mono.self s

theorem Game.Mono.addCoinsAt (s : Game) (p : Nat) (n : Int) :
    Game.Mono s (s.setPlayer p ((s.store p).addCoins n)) := by
  intro h
  exact Game.Mono.setPlayer s p _ (Player.addCoins_name _ _)
    (Player.addCoins_nonneg _ _ (h.coins p)) h

theorem Game.Mono.resolve (s : Game) (pa : PendingAction) :
    Game.Mono s (s.resolve pa).state := by
  rcases pa with ⟨a, tgt, ty⟩
  cases ty
  · exact Game.Mono.addCoinsAt s a 1
  · unfold Game.resolve
    dsimp only
    split
    · exact Game.Mono.addCoinsAt s a 3
    · exact Game.Mono.addCoinsAt s a 2
  · -- Bribe
    unfold Game.resolve Game.getCurrentPlayer
    dsimp only
    by_cases he : s._players.isEmpty = true
    · rw [if_pos he]
      dsimp only
      rw [if_neg (by simp)]
      exact Game.Mono.self s
    · rw [if_neg he]
      have hne : s._players ≠ [] := fun hh => he (List.isEmpty_iff.mpr hh)
      cases hcur : s._players[s._currentIndex]? with
      | none => exact Game.Mono.self s
      | some c =>
        dsimp only
        have hlt : s._currentIndex < s._players.length := (List.getElem?_eq_some.mp hcur).1
        split
        · split
          · intro h
            refine ⟨⟨fun _ => ?_, fun he' => absurd he' hne, h.pool, h.coins⟩, fun _ => rfl,
              List.Sublist.refl _⟩
            show s._currentIndex - 1 < s._players.length
            omega
          · intro h
            refine ⟨⟨fun _ => ?_, fun he' => absurd he' hne, h.pool, h.coins⟩, fun _ => rfl,
              List.Sublist.refl _⟩
            show s._players.length - 1 < s._players.length
            omega
        · exact Game.Mono.self s
  · -- Arrest
    unfold Game.resolve
    dsimp only
    split
    · exact Game.Mono.self s
    · cases tgt with
      | none => exact Game.Mono.self s
      | some t =>
        dsimp only
        refine Game.Mono.bind s _ _ (Game.Mono.onPlayer s t _ (Player.removeCoins_nonneg _))
          (fun s1 => ?_)
        exact (Game.Mono.addCoinsAt s1 a _).chain
          (Game.Mono.onPlayer _ t _ Player.handleArrested_nonneg)
  · -- Sanction
    unfold Game.resolve
    dsimp only
    split
    · exact Game.Mono.self s
    · cases tgt with
      | none => exact Game.Mono.self s
      | some t =>
        dsimp only
        refine Game.Mono.bind s _ _ ?_ (fun s2 => ?_)
        · split
          · exact Game.Mono.bind s _ _
              (Game.Mono.onPlayer s t _ (Player.removeCoins_nonneg _))
              (fun s1 => Game.Mono.returnToPool s1 1)
          · exact Game.Mono.self s
        · split
          · exact Game.Mono.onPlayer s2 t _ Player.handleSanctioned_nonneg
          · exact Game.Mono.self s2
  · -- Coup
    unfold Game.resolve
    dsimp only
    split
    · cases tgt with
      | none => exact Game.Mono.self s
      | some t => exact Game.Mono.removePlayer s t
    · exact Game.Mono.returnToPool s 7

theorem Game.Mono.resolveAll (l : List PendingAction) (s : Game) :
    Game.Mono s (s.resolveAll l).state := by
  induction l generalizing s with
  | nil => exact Game.Mono.self s
  | cons pa rest ih => exact Game.Mono.bind s _ _ (Game.Mono.resolve s pa) (fun s1 => ih s1)

theorem Game.Mono.processPending (s : Game) : Game.Mono s s.processPending.state :=
  (Game.Mono.setPending s []).chain (Game.Mono.resolveAll s._pending _)

theorem Game.Mono.advance (s : Game) : Game.Mono s s.advance.state := by
  obtain ⟨s', hs', hwf, hpl, hpool, _, hidx, hn, _, hc⟩ := Game.advance_ok s
  rw [hs']
  show Game.Mono s s'
  intro h
  refine ⟨⟨hwf, fun he => ?_, by rw [hpool]; exact h.pool, fun q => ?_⟩, hn, by
    rw [hpl]⟩
  · rw [hpl] at he
    rw [hidx, if_pos he]
    exact h.ptr0 he
  · rw [hc q]
    have := h.coins q
    split <;> omega

theorem Game.Mono.nextTurn (s : Game) : Game.Mono s s.nextTurn.state := by
  rw [Game.nextTurn_eq]
  exact Game.Mono.bind s _ _ (Game.Mono.processPending s) Game.Mono.advance

theorem Game.Mono.setCoins (s : Game) (p : Nat) (c : Int) (hc : s.Inv → 0 ≤ c) :
    Game.Mono s (s.setPlayer p { s.store p with coins := c }) :=
  fun h => Game.Mono.setPlayer s p { s.store p with coins := c } rfl (hc h) h

theorem Game.Mono.pushPending (s : Game) (pa : PendingAction) :
    Game.Mono s (s.pushPending pa) :=
  Game.Mono.setPending s _

theorem Game.Mono.takeFromPool (s : Game) (n : Int) : Game.Mono s (s.takeFromPool n).state := by
  unfold Game.takeFromPool
  split
  · exact Game.Mono.self s
  · rename_i hn
    intro h
    exact ⟨⟨h.ptr, h.ptr0, by show 0 ≤ s._poolCoins - n; omega, h.coins⟩, fun _ => rfl,
      List.Sublist.refl _⟩

theorem Game.Mono.blockTax (s : Game) (b t : Nat) : Game.Mono s (s.blockTax b t).state := by
  unfold Game.blockTax
  split
  · exact Game.Mono.setPending s _
  · exact Game.Mono.self s

theorem Game.Mono.blockArrest (s : Game) (b t : Nat) :
    Game.Mono s (s.blockArrest b t).state := by
  unfold Game.blockArrest
  split
  · exact Game.Mono.setPending s _
  · exact Game.Mono.self s

theorem Game.Mono.blockBribe (s : Game) (b t : Nat) : Game.Mono s (s.blockBribe b t).state := by
  unfold Game.blockBribe
  split
  · exact (Game.Mono.returnToPool s 4).chain (Game.Mono.setPending _ _)
  · exact Game.Mono.self s

theorem Game.Mono.blockSanction (s : Game) (b t : Nat) :
    Game.Mono s (s.blockSanction b t).state := by
  unfold Game.blockSanction
  split
  · split
    · exact Game.Mono.bind s _ _ (Game.Mono.onPlayer s _ _ (Player.removeCoins_nonneg 1))
        (fun s1 => (Game.Mono.returnToPool s1 1).chain (Game.Mono.setPending _ _))
    · exact Game.Mono.self s
  · exact Game.Mono.self s

theorem Game.Mono.blockCoup (s : Game) (b t : Nat) : Game.Mono s (s.blockCoup b t).state := by
  unfold Game.blockCoup
  split
  · split
    · exact Game.Mono.self s
    · exact Game.Mono.bind s _ _ (Game.Mono.onPlayer s _ _ (Player.removeCoins_nonneg 5))
        (fun s1 => (Game.Mono.returnToPool s1 7).chain (Game.Mono.setPending _ _))
  · exact Game.Mono.self s

theorem Game.Mono.gather (s : Game) (p : Nat) : Game.Mono s (Player.gather s p).state := by
  unfold Player.gather
  split
  · exact Game.Mono.self s
  · exact (Game.Mono.setCoins s p _ (fun h => by have := h.coins p; omega)).chain
      (Game.Mono.nextTurn _)

theorem Game.Mono.tax (s : Game) (p : Nat) : Game.Mono s (Player.tax s p).state := by
  unfold Player.tax
  split
  · exact Game.Mono.self s
  · split
    · exact Game.Mono.self s
    · exact (Game.Mono.pushPending s _).chain (Game.Mono.nextTurn _)

theorem Game.Mono.bribe (s : Game) (p : Nat) : Game.Mono s (Player.bribe s p).state := by
  unfold Player.bribe
  split
  · exact Game.Mono.self s
  · split
    · exact Game.Mono.self s
    · split
      · exact Game.Mono.self s
      · exact (Game.Mono.setCoins s p _ (fun _ => by omega)).chain (Game.Mono.pushPending _ _)

theorem Game.Mono.arrest (s : Game) (p t : Nat) : Game.Mono s (Player.arrest s p t).state := by
  unfold Player.arrest
  split
  · exact Game.Mono.self s
  · split
    · exact Game.Mono.self s
    · split
      · exact Game.Mono.self s
      · exact (Game.Mono.pushPending s _).chain (Game.Mono.nextTurn _)

theorem Game.Mono.sanction (s : Game) (p t : Nat) :
    Game.Mono s (Player.sanction s p t).state := by
  unfold Player.sanction
  split
  · exact Game.Mono.self s
  · split
    · exact Game.Mono.self s
    · split
      · exact Game.Mono.self s
      · exact ((Game.Mono.setCoins s p _ (fun _ => by omega)).chain
          (Game.Mono.pushPending _ _)).chain (Game.Mono.nextTurn _)

theorem Game.Mono.coup (s : Game) (p t : Nat) : Game.Mono s (Player.coup s p t).state := by
  unfold Player.coup
  split
  · exact Game.Mono.self s
  · split
    · exact Game.Mono.self s
    · split
      · exact Game.Mono.self s
      · exact ((Game.Mono.setCoins s p _ (fun _ => by omega)).chain
          (Game.Mono.pushPending _ _)).chain (Game.Mono.nextTurn _)

theorem Game.Mono.specialAction (s : Game) (r p t : Nat) :
    Game.Mono s (Player.specialAction s r p t).state := by
  unfold Player.specialAction Role.specialAction
  split
  · split
    · exact Game.Mono.self s
    · exact Game.Mono.bind s _ _ (Game.Mono.onPlayer s _ _ (Player.removeCoins_nonneg 3))
        (fun s1 => Game.Mono.addCoinsAt s1 p 6)
  · exact Game.Mono.self s

/-- Every public operation other than `addPlayer` keeps the invariants and the names and can
only shrink the roster. -/
theorem Game.Mono.apply (s : Game) (op : Op) (hop : ∀ player, op ≠ .addPlayer player) :
    Game.Mono s (s.apply op).state := by
  cases op with
  | addPlayer player => exact absurd rfl (hop player)
  | removePlayer q => exact Game.Mono.removePlayer s q
  | nextTurn => exact Game.Mono.nextTurn s
  | takeFromPool n => exact Game.Mono.takeFromPool s n
  | returnToPool n => exact Game.Mono.returnToPool s n
  | registerTax a => exact Game.Mono.pushPending s _
  | registerBribe a => exact Game.Mono.pushPending s _
  | registerArrest a t => exact Game.Mono.pushPending s _
  | registerSanction a t => exact Game.Mono.pushPending s _
  | registerCoup a t => exact Game.Mono.pushPending s _
  | blockTax b t => exact Game.Mono.blockTax s b t
  | blockBribe b t => exact Game.Mono.blockBribe s b t
  | blockArrest b t => exact Game.Mono.blockArrest s b t
  | blockSanction b t => exact Game.Mono.blockSanction s b t
  | blockCoup b t => exact Game.Mono.blockCoup s b t
  | gather p => exact Game.Mono.gather s p
  | tax p => exact Game.Mono.tax s p
  | bribe p => exact Game.Mono.bribe s p
  | arrest p t => exact Game.Mono.arrest s p t
  | sanction p t => exact Game.Mono.sanction s p t
  | coup p t => exact Game.Mono.coup s p t
  | specialAction r p t => exact Game.Mono.specialAction s r p t
  | onStartTurn p => exact Game.Mono.onPlayer s p _ Player.onStartTurn_nonneg
  | handleArrested p => exact Game.Mono.onPlayer s p _ Player.handleArrested_nonneg
  | handleSanctioned p => exact Game.Mono.onPlayer s p _ Player.handleSanctioned_nonneg
  | addCoins p n => exact Game.Mono.addCoinsAt s p n
  | removeCoins p n => exact Game.Mono.onPlayer s p _ (Player.removeCoins_nonneg n)

theorem Game.addPlayer_dup (s : Game) (p : Nat)
    (h : ∃ q ∈ s._players, (s.store q).name = (s.store p).name) :
    s.addPlayer (some p) = .throw .IllegalAction s := by
  unfold Game.addPlayer
  dsimp only
  rw [if_pos]
  simpa using h

theorem Game.addPlayer_fresh (s : Game) (p : Nat)
    (h : ¬ ∃ q ∈ s._players, (s.store q).name = (s.store p).name) :
    s.addPlayer (some p) = .ok { s with _players := s._players ++ [p] } := by
  unfold Game.addPlayer
  dsimp only
  rw [if_neg]
  simpa using h

/-- The invariants that hold along every trace. -/
theorem Game.Trace.inv {allowed : Op → Prop} {log : List Nat} {s : Game}
    (h : Game.Trace allowed log s) :
    s.Inv ∧ s.players.Nodup ∧ s._players.Sublist log := by
  induction h with
  | new store h0 =>
    refine ⟨⟨fun hne => absurd rfl hne, fun _ => rfl, by show (0 : Int) ≤ 50; decide, fun q => ?_⟩, ?_, ?_⟩
    · show 0 ≤ (store q).coins
      rw [h0 q]
    · exact List.nodup_nil
    · exact List.Sublist.refl _
  | @step log s op _ _ ih =>
    obtain ⟨hinv, hnd, hsub⟩ := ih
    by_cases hop : ∀ player, op ≠ .addPlayer player
    · obtain ⟨hinv', hn', hsub'⟩ := Game.Mono.apply s op hop hinv
      have hlog : Game.joinLog log s op = log := by
        cases op <;> first | rfl | exact absurd rfl (hop _)
      refine ⟨hinv', ?_, by rw [hlog]; exact hsub'.trans hsub⟩
      have hmap : (s.apply op).state.players =
          (s.apply op).state._players.map (fun q => (s.store q).name) := by
        unfold Game.players
        exact List.map_congr_left (fun q _ => hn' q)
      rw [hmap]
      exact List.Nodup.sublist (hsub'.map _) hnd
    · have hex : ∃ player, op = .addPlayer player := by
        by_contra hno
        exact hop (fun player hp => hno ⟨player, hp⟩)
      obtain ⟨player, rfl⟩ := hex
      cases player with
      | none => exact ⟨hinv, hnd, hsub⟩
      | some p =>
        by_cases hdup : ∃ q ∈ s._players, (s.store q).name = (s.store p).name
        · have hres := Game.addPlayer_dup s p hdup
          have e1 : (s.apply (.addPlayer (some p))).state = s := by
            show (s.addPlayer (some p)).state = s
            rw [hres]; rfl
          have e2 : Game.joinLog log s (.addPlayer (some p)) = log := by
            show (if (s.addPlayer (some p)).err = none then log ++ [p] else log) = log
            rw [hres]; rfl
          rw [e1, e2]
          exact ⟨hinv, hnd, hsub⟩
        · have hres := Game.addPlayer_fresh s p hdup
          have e1 : (s.apply (.addPlayer (some p))).state =
              { s with _players := s._players ++ [p] } := by
            show (s.addPlayer (some p)).state = _
            rw [hres]; rfl
          have e2 : Game.joinLog log s (.addPlayer (some p)) = log ++ [p] := by
            show (if (s.addPlayer (some p)).err = none then log ++ [p] else log) = log ++ [p]
            rw [hres]; rfl
          rw [e1, e2]
          refine ⟨⟨fun _ => ?_, fun he => ?_, hinv.pool, hinv.coins⟩, ?_, ?_⟩
          · show s._currentIndex < (s._players ++ [p]).length
            rw [List.length_append]
            by_cases hnil : s._players = []
            · rw [hinv.ptr0 hnil]; simp
            · have := hinv.ptr hnil
              omega
          · have he' : s._players ++ [p] = [] := he
            simp at he'
          · show ((s._players ++ [p]).map fun q => (s.store q).name).Nodup
            rw [List.map_append, List.map_singleton]
            refine List.Nodup.append hnd (List.nodup_singleton _) ?_
            intro nm h1 h2
            rw [List.mem_singleton] at h2
            subst h2
            obtain ⟨q, hq, hqn⟩ := List.mem_map.mp h1
            exact hdup ⟨q, hq, hqn⟩
          · show (s._players ++ [p]).Sublist (log ++ [p])
            exact List.Sublist.append hsub (List.Sublist.refl _)

theorem getElem?_erase_nodup (l : List Nat) (r q j : Nat) (hnd : l.Nodup)
    (hr : l[r]? = some q) : (l.erase q)[j]? = if j < r then l[j]? else l[j + 1]? := by
  rw [← List.eraseIdx_indexOf_eq_erase, indexOf_of_getElem? l r q hnd hr, List.getElem?_eraseIdx]

theorem exFresh_coins (q : Nat) : (exFresh q).coins = 0 := by
  rcases q with _ | _ | q <;> rfl

theorem exPlayed_reachable : exPlayed.Reachable :=
  ⟨_, Game.Trace.step (.gather 0)
    (Game.Trace.step (.addPlayer (some 1))
      (Game.Trace.step (.addPlayer (some 0)) (Game.Trace.new exFresh exFresh_coins) trivial)
      trivial) trivial⟩

theorem Game.nextTurns_nil (k : Nat) (s : Game) (hpend : s._pending = [])
    (hlt : s._currentIndex < s._players.length) :
    ∃ s', s.nextTurns k = .ok s' ∧
      s'._currentIndex = (s._currentIndex + k) % s._players.length ∧
      s'._players = s._players ∧ s'._poolCoins = s._poolCoins ∧ s'._pending = [] := by
  induction k generalizing s with
  | zero => exact ⟨s, rfl, (Nat.mod_eq_of_lt hlt).symm, rfl, rfl, hpend⟩
  | succ k ih =>
    have hne : s._players ≠ [] := by
      intro h; rw [h] at hlt; exact absurd hlt (Nat.not_lt_zero _)
    obtain ⟨s1, hs1, hwf1, hpl1, hpool1, hpd1, hidx1, _⟩ := Game.advance_ok s
    rw [if_neg hne] at hidx1
    have hlt1 : s1._currentIndex < s1._players.length := hwf1 (by rw [hpl1]; exact hne)
    obtain ⟨s2, hs2, hidx2, hpl2, hpool2, hpd2⟩ := ih s1 (hpd1.trans hpend) hlt1
    refine ⟨s2, ?_, ?_, hpl2.trans hpl1, hpool2.trans hpool1, hpd2⟩
    · simp only [Game.nextTurns, Game.nextTurn_nil s hpend, hs1, Step.bind, hs2]
    · rw [hidx2, hidx1, hpl1, Nat.mod_add_mod]
      congr 1
      omega

theorem Game.onPlayer_pending (s : Game) (p : Nat) (f : Player → Except Err Player) :
    (s.onPlayer p f).state._pending = s._pending := by
  unfold Game.onPlayer
  split <;> rfl

theorem Game.removePlayer_pending (s : Game) (t : Nat) :
    (s.removePlayer t).state._pending = s._pending := by
  unfold Game.removePlayer
  split
  · dsimp only
    split
    · rfl
    · split <;> rfl
  · rfl

theorem Game.returnToPool_pending (s : Game) (n : Int) :
    (s.returnToPool n)._pending = s._pending := by
  unfold Game.returnToPool
  split <;> rfl

theorem Step.bind_pending (r : Step) (f : Game → Step) (l : List PendingAction)
    (hr : r.state._pending = l) (hf : ∀ s1, s1._pending = l → (f s1).state._pending = l) :
    (r.bind f).state._pending = l := by
  cases r with
  | ok s1 => exact hf s1 hr
  | throw e s1 => exact hr

theorem Game.resolve_pending (s : Game) (pa : PendingAction) :
    (s.resolve pa).state._pending = s._pending := by
  rcases pa with ⟨a, tgt, ty⟩
  cases ty
  · rfl
  · unfold Game.resolve
    dsimp only
    split <;> rfl
  · unfold Game.resolve
    dsimp only
    split
    · rfl
    · split
      · split <;> rfl
      · rfl
  · unfold Game.resolve
    dsimp only
    split
    · rfl
    · cases tgt with
      | none => rfl
      | some t =>
        dsimp only
        refine Step.bind_pending _ _ _ (Game.onPlayer_pending _ _ _) (fun s1 h1 => ?_)
        exact (Game.onPlayer_pending _ _ _).trans h1
  · unfold Game.resolve
    dsimp only
    split
    · rfl
    · cases tgt with
      | none => rfl
      | some t =>
        dsimp only
        refine Step.bind_pending _ _ _ ?_ (fun s1 h1 => ?_)
        · split
          · refine Step.bind_pending _ _ _ (Game.onPlayer_pending _ _ _) (fun s1 h1 => ?_)
            exact (Game.returnToPool_pending _ _).trans h1
          · rfl
        · split
          · exact (Game.onPlayer_pending _ _ _).trans h1
          · exact h1
  · unfold Game.resolve
    dsimp only
    split
    · cases tgt with
      | none => rfl
      | some t => exact Game.removePlayer_pending _ _
    · exact Game.returnToPool_pending _ _

theorem Game.resolveAll_pending (l : List PendingAction) (s : Game) :
    (s.resolveAll l).state._pending = s._pending := by
  induction l generalizing s with
  | nil => rfl
  | cons pa rest ih =>
    exact Step.bind_pending _ _ _ (Game.resolve_pending s pa) (fun s1 h1 => (ih s1).trans h1)

theorem Player.ensureMyTurn_wf (s : Game) (p : Nat) (h : Player.ensureMyTurn s p = none) :
    s.wf := by
  unfold Player.ensureMyTurn Game.turn at h
  by_cases he : s._players.isEmpty = true
  · rw [if_pos he] at h
    cases h
  · rw [if_neg he] at h
    cases hcur : s._players[s._currentIndex]? with
    | none => rw [hcur] at h; cases h
    | some q => exact Game.wf_of_current s q hcur

theorem Game.nextTurn_not_throw (s : Game) (h : s.wf) (e : Err) (s' : Game) :
    s.nextTurn ≠ .throw e s' := by
  obtain ⟨s1, hs1, _⟩ := Game.nextTurn_ok s h
  rw [hs1]
  intro hh
  cases hh

theorem Game.onPlayer_atomic (s s' : Game) (p : Nat) (f : Player → Except Err Player) (e : Err)
    (h : s.onPlayer p f = .throw e s') : s' = s := by
  unfold Game.onPlayer at h
  split at h
  · cases h
  · cases h; rfl

theorem Game.blockTax_atomic (s s' : Game) (b t : Nat) (e : Err)
    (h : s.blockTax b t = .throw e s') : s' = s := by
  unfold Game.blockTax at h
  split at h
  · cases h
  · cases h; rfl

theorem Game.blockBribe_atomic (s s' : Game) (b t : Nat) (e : Err)
    (h : s.blockBribe b t = .throw e s') : s' = s := by
  unfold Game.blockBribe at h
  split at h
  · cases h
  · cases h; rfl

theorem Game.blockArrest_atomic (s s' : Game) (b t : Nat) (e : Err)
    (h : s.blockArrest b t = .throw e s') : s' = s := by
  unfold Game.blockArrest at h
  split at h
  · cases h
  · cases h; rfl

theorem Step.bind_ok_atomic (r : Step) (g : Game → Game) (s s' : Game) (e : Err)
    (hr : ∀ e1 s1, r = .throw e1 s1 → s1 = s)
    (h : (r.bind fun s1 => .ok (g s1)) = .throw e s') : s' = s := by
  cases r with
  | ok s1 => cases h
  | throw e1 s1 =>
    have := hr e1 s1 rfl
    cases h
    exact this

theorem Game.blockSanction_atomic (s s' : Game) (b t : Nat) (e : Err)
    (h : s.blockSanction b t = .throw e s') : s' = s := by
  unfold Game.blockSanction at h
  split at h
  · split at h
    · exact Step.bind_ok_atomic _ _ s s' e (fun e1 s1 h1 => Game.onPlayer_atomic _ _ _ _ _ h1) h
    · cases h; rfl
  · cases h; rfl

theorem Game.blockCoup_atomic (s s' : Game) (b t : Nat) (e : Err)
    (h : s.blockCoup b t = .throw e s') : s' = s := by
  unfold Game.blockCoup at h
  split at h
  · split at h
    · cases h; rfl
    · exact Step.bind_ok_atomic _ _ s s' e (fun e1 s1 h1 => Game.onPlayer_atomic _ _ _ _ _ h1) h
  · cases h; rfl

theorem Player.gather_atomic (s s' : Game) (p : Nat) (e : Err)
    (h : Player.gather s p = .throw e s') : s' = s := by
  unfold Player.gather at h
  cases hm : Player.ensureMyTurn s p with
  | some e1 => rw [hm] at h; cases h; rfl
  | none =>
    rw [hm] at h
    dsimp only at h
    refine absurd h (Game.nextTurn_not_throw _ ?_ e s')
    exact Player.ensureMyTurn_wf s p hm

theorem Player.tax_atomic (s s' : Game) (p : Nat) (e : Err)
    (h : Player.tax s p = .throw e s') : s' = s := by
  unfold Player.tax at h
  cases hm : Player.ensureMyTurn s p with
  | some e1 => rw [hm] at h; cases h; rfl
  | none =>
    rw [hm] at h
    dsimp only at h
    split at h
    · cases h; rfl
    · refine absurd h (Game.nextTurn_not_throw _ ?_ e s')
      exact Player.ensureMyTurn_wf s p hm

theorem Player.bribe_atomic (s s' : Game) (p : Nat) (e : Err)
    (h : Player.bribe s p = .throw e s') : s' = s := by
  unfold Player.bribe at h
  cases hm : Player.ensureMyTurn s p with
  | some e1 => rw [hm] at h; cases h; rfl
  | none =>
    rw [hm] at h
    dsimp only at h
    split at h
    · cases h; rfl
    · split at h
      · cases h; rfl
      · cases h

theorem Player.arrest_atomic (s s' : Game) (p t : Nat) (e : Err)
    (h : Player.arrest s p t = .throw e s') : s' = s := by
  unfold Player.arrest at h
  cases hm : Player.ensureMyTurn s p with
  | some e1 => rw [hm] at h; cases h; rfl
  | none =>
    rw [hm] at h
    dsimp only at h
    split at h
    · cases h; rfl
    · split at h
      · cases h; rfl
      · refine absurd h (Game.nextTurn_not_throw _ ?_ e s')
        exact Player.ensureMyTurn_wf s p hm

theorem Player.sanction_atomic (s s' : Game) (p t : Nat) (e : Err)
    (h : Player.sanction s p t = .throw e s') : s' = s := by
  unfold Player.sanction at h
  cases hm : Player.ensureMyTurn s p with
  | some e1 => rw [hm] at h; cases h; rfl
  | none =>
    rw [hm] at h
    dsimp only at h
    split at h
    · cases h; rfl
    · split at h
      · cases h; rfl
      · refine absurd h (Game.nextTurn_not_throw _ ?_ e s')
        exact Player.ensureMyTurn_wf s p hm

theorem Player.coup_atomic (s s' : Game) (p t : Nat) (e : Err)
    (h : Player.coup s p t = .throw e s') : s' = s := by
  unfold Player.coup at h
  cases hm : Player.ensureMyTurn s p with
  | some e1 => rw [hm] at h; cases h; rfl
  | none =>
    rw [hm] at h
    dsimp only at h
    split at h
    · cases h; rfl
    · split at h
      · cases h; rfl
      · refine absurd h (Game.nextTurn_not_throw _ ?_ e s')
        exact Player.ensureMyTurn_wf s p hm

theorem Player.specialAction_atomic (s s' : Game) (r p t : Nat) (e : Err)
    (h : Player.specialAction s r p t = .throw e s') : s' = s := by
  unfold Player.specialAction Role.specialAction at h
  split at h
  · split at h
    · cases h; rfl
    · exact Step.bind_ok_atomic _ _ s s' e (fun e1 s1 h1 => Game.onPlayer_atomic _ _ _ _ _ h1) h
  · cases h

theorem Game.addPlayer_atomic (s s' : Game) (p : Option Nat) (e : Err)
    (h : s.addPlayer p = .throw e s') : s' = s := by
  unfold Game.addPlayer at h
  split at h
  · cases h; rfl
  · split at h
    · cases h; rfl
    · cases h

theorem Game.removePlayer_atomic (s s' : Game) (p : Nat) (e : Err)
    (h : s.removePlayer p = .throw e s') : s' = s := by
  unfold Game.removePlayer at h
  split at h
  · dsimp only at h
    split at h
    · cases h
    · split at h <;> cases h
  · cases h; rfl

theorem Game.takeFromPool_atomic (s s' : Game) (n : Int) (e : Err)
    (h : s.takeFromPool n = .throw e s') : s' = s := by
  unfold Game.takeFromPool at h
  split at h
  · cases h; rfl
  · cases h

theorem exJoin_coins (q : Nat) : (exJoin q).coins = 0 := by
  rcases q with _ | _ | _ | q <;> rfl

theorem Game.Trace.run {allowed : Op → Prop} (ops : List Op) {log : List Nat} {s : Game}
    (h : Game.Trace allowed log s) (hops : ∀ op ∈ ops, allowed op) :
    ∃ log', Game.Trace allowed log' (s.run ops) := by
  induction ops generalizing log s with
  | nil => exact ⟨log, h⟩
  | cons op rest ih =>
    exact ih (Game.Trace.step op h (hops op (List.mem_cons_self _ _)))
      (fun o ho => hops o (List.mem_cons_of_mem _ ho))

theorem exBribePending_trace :
    ∃ log, Game.Trace (fun op => op.isRegister = false) log exBribePending :=
  Game.Trace.run _ (Game.Trace.new exJoin exJoin_coins) (by decide)

theorem Game.nextTurn_pending_of_ok (s s' : Game) (h : s.nextTurn = .ok s') :
    s'._pending = [] := by
  rw [Game.nextTurn_eq] at h
  obtain ⟨s1, h1, h2⟩ := Step.bind_eq_ok h
  have hp1 : s1._pending = [] := by
    have := Game.resolveAll_pending s._pending { s with _pending := [] }
    unfold Game.processPending at h1
    rw [h1] at this
    exact this
  obtain ⟨s2, hs2, _, _, _, hpd, _⟩ := Game.advance_ok s1
  rw [hs2] at h2
  rw [← Step.ok.inj h2, hpd, hp1]

theorem Game.eraseIdx_onlyBribes (l : List PendingAction) (i : Nat)
    (h : ∀ pa ∈ l, pa.type = .Bribe) : ∀ pa ∈ l.eraseIdx i, pa.type = .Bribe :=
  fun pa hpa => h pa ((List.eraseIdx_sublist l i).subset hpa)

theorem Game.apply_onlyBribes (s : Game) (op : Op) (hwf : s.wf) (hop : op.isRegister = false)
    (hB : ∀ pa ∈ s._pending, pa.type = .Bribe) :
    ∀ pa ∈ (s.apply op).state._pending, pa.type = .Bribe := by
  have keep : ∀ r : Step, (∀ e s', r = .throw e s' → s' = s) →
      (∀ s', r = .ok s' → ∀ pa ∈ s'._pending, pa.type = .Bribe) →
      ∀ pa ∈ r.state._pending, pa.type = .Bribe := by
    intro r h1 h2
    cases r with
    | ok s' => exact h2 s' rfl
    | throw e s' => rw [h1 e s' rfl]; exact hB
  have nil : ∀ s' : Game, s'._pending = [] → ∀ pa ∈ s'._pending, pa.type = .Bribe := by
    intro s' h pa hpa
    rw [h] at hpa
    cases hpa
  have same : ∀ s' : Game, s'._pending = s._pending → ∀ pa ∈ s'._pending, pa.type = .Bribe := by
    intro s' h
    rw [h]
    exact hB
  cases op with
  | addPlayer player =>
    refine keep (s.addPlayer player) (fun e s' h => Game.addPlayer_atomic s s' player e h) (fun s' h => same s' ?_)
    unfold Game.addPlayer at h
    split at h
    · cases h
    · split at h
      · cases h
      · cases h; rfl
  | removePlayer player => exact same _ (Game.removePlayer_pending s player)
  | nextTurn =>
    obtain ⟨s', hs', _, hpd, _⟩ := Game.nextTurn_ok s hwf
    show ∀ pa ∈ (s.nextTurn).state._pending, _
    rw [hs']
    exact nil s' hpd
  | takeFromPool n =>
    refine keep (s.takeFromPool n) (fun e s' h => Game.takeFromPool_atomic s s' n e h) (fun s' h => same s' ?_)
    unfold Game.takeFromPool at h
    split at h
    · cases h
    · cases h; rfl
  | returnToPool n => exact same _ (Game.returnToPool_pending s n)
  | registerTax a => cases hop
  | registerBribe a => cases hop
  | registerArrest a t => cases hop
  | registerSanction a t => cases hop
  | registerCoup a t => cases hop
  | blockTax b t =>
    refine keep (s.blockTax b t) (fun e s' h => Game.blockTax_atomic s s' b t e h) (fun s' h => ?_)
    unfold Game.blockTax at h
    split at h
    · cases h; exact Game.eraseIdx_onlyBribes _ _ hB
    · cases h
  | blockBribe b t =>
    refine keep (s.blockBribe b t) (fun e s' h => Game.blockBribe_atomic s s' b t e h) (fun s' h => ?_)
    unfold Game.blockBribe at h
    split at h
    · cases h
      refine Game.eraseIdx_onlyBribes _ _ ?_
      rw [Game.returnToPool_pending]
      exact hB
    · cases h
  | blockArrest b t =>
    refine keep (s.blockArrest b t) (fun e s' h => Game.blockArrest_atomic s s' b t e h) (fun s' h => ?_)
    unfold Game.blockArrest at h
    split at h
    · cases h; exact Game.eraseIdx_onlyBribes _ _ hB
    · cases h
  | blockSanction b t =>
    refine keep (s.blockSanction b t) (fun e s' h => Game.blockSanction_atomic s s' b t e h) (fun s' h => ?_)
    unfold Game.blockSanction at h
    split at h
    · split at h
      · obtain ⟨s1, h1, h2⟩ := Step.bind_eq_ok h
        cases h2
        refine Game.eraseIdx_onlyBribes _ _ ?_
        rw [Game.returnToPool_pending]
        obtain ⟨pl, _, hs1⟩ := Game.onPlayer_eq_ok h1
        exact same s1 (by rw [hs1]; rfl)
      · cases h
    · cases h
  | blockCoup b t =>
    refine keep (s.blockCoup b t) (fun e s' h => Game.blockCoup_atomic s s' b t e h) (fun s' h => ?_)
    unfold Game.blockCoup at h
    split at h
    · split at h
      · cases h
      · obtain ⟨s1, h1, h2⟩ := Step.bind_eq_ok h
        cases h2
        refine Game.eraseIdx_onlyBribes _ _ ?_
        rw [Game.returnToPool_pending]
        have := Game.onPlayer_pending s b (fun pl => pl.removeCoins 5)
        rw [h1] at this
        exact same s1 this
    · cases h
  | gather p =>
    refine keep (Player.gather s p) (fun e s' h => Player.gather_atomic s s' p e h) (fun s' h => nil s' ?_)
    unfold Player.gather at h
    split at h
    · cases h
    · exact Game.nextTurn_pending_of_ok _ _ h
  | tax p =>
    refine keep (Player.tax s p) (fun e s' h => Player.tax_atomic s s' p e h) (fun s' h => nil s' ?_)
    unfold Player.tax at h
    split at h
    · cases h
    · split at h
      · cases h
      · exact Game.nextTurn_pending_of_ok _ _ h
  | bribe p =>
    refine keep (Player.bribe s p) (fun e s' h => Player.bribe_atomic s s' p e h) (fun s' h => ?_)
    unfold Player.bribe at h
    split at h
    · cases h
    · split at h
      · cases h
      · split at h
        · cases h
        · cases h
          intro pa hpa
          rcases List.mem_append.mp hpa with h1 | h1
          · exact hB pa h1
          · rw [List.mem_singleton.mp h1]
  | arrest p t =>
    refine keep (Player.arrest s p t) (fun e s' h => Player.arrest_atomic s s' p t e h) (fun s' h => nil s' ?_)
    unfold Player.arrest at h
    split at h
    · cases h
    · split at h
      · cases h
      · split at h
        · cases h
        · exact Game.nextTurn_pending_of_ok _ _ h
  | sanction p t =>
    refine keep (Player.sanction s p t) (fun e s' h => Player.sanction_atomic s s' p t e h) (fun s' h => nil s' ?_)
    unfold Player.sanction at h
    split at h
    · cases h
    · split at h
      · cases h
      · split at h
        · cases h
        · exact Game.nextTurn_pending_of_ok _ _ h
  | coup p t =>
    refine keep (Player.coup s p t) (fun e s' h => Player.coup_atomic s s' p t e h) (fun s' h => nil s' ?_)
    unfold Player.coup at h
    split at h
    · cases h
    · split at h
      · cases h
      · split at h
        · cases h
        · exact Game.nextTurn_pending_of_ok _ _ h
  | specialAction r p t =>
    refine keep (Player.specialAction s r p t) (fun e s' h => Player.specialAction_atomic s s' r p t e h) (fun s' h => same s' ?_)
    unfold Player.specialAction Role.specialAction at h
    split at h
    · split at h
      · cases h
      · obtain ⟨s1, h1, h2⟩ := Step.bind_eq_ok h
        cases h2
        have := Game.onPlayer_pending s p (fun pl => pl.removeCoins 3)
        rw [h1] at this
        exact this
    · cases h; rfl
  | onStartTurn p => exact same _ (Game.onPlayer_pending s p Player.onStartTurn)
  | handleArrested p => exact same _ (Game.onPlayer_pending s p Player.handleArrested)
  | handleSanctioned p => exact same _ (Game.onPlayer_pending s p Player.handleSanctioned)
  | addCoins p n => exact same _ rfl
  | removeCoins p n => exact same _ (Game.onPlayer_pending s p (fun pl => pl.removeCoins n))

theorem Game.Trace.onlyBribes {log : List Nat} {s : Game}
    (h : Game.Trace (fun op => op.isRegister = false) log s) :
    ∀ pa ∈ s._pending, pa.type = .Bribe := by
  induction h with
  | new store h0 => intro pa hpa; cases hpa
  | @step log s op htr hop ih => exact Game.apply_onlyBribes s op htr.inv.1.ptr hop ih

theorem Step.refines.rfl (r : Step) : Step.refines r r := Or.inr (Eq.refl r)

theorem Step.refines.seq {r32 r : Step} {f32 f : Game → Step} (h : Step.refines r32 r)
    (hf : ∀ s, Step.refines (f32 s) (f s)) : Step.refines (r32.bind f32) (r.bind f) := by
  rcases h with h | h
  · cases r32 with
    | ok s => cases h
    | throw e s => exact Or.inl h
  · subst h
    cases r32 with
    | ok s => exact hf s
    | throw e s => exact Or.inr (Eq.refl _)

theorem Game.setCoins32_refines (s : Game) (p : Nat) (v : Int) :
    Step.refines (s.setCoins32 p v) (.ok (s.setPlayer p { s.store p with coins := v })) := by
  unfold Game.setCoins32
  split
  · exact Or.inr rfl
  · exact Or.inl rfl

theorem Game.setPool32_refines (s : Game) (v : Int) :
    Step.refines (s.setPool32 v) (.ok { s with _poolCoins := v }) := by
  unfold Game.setPool32
  split
  · exact Or.inr rfl
  · exact Or.inl rfl

theorem Game.addCoins32_refines (s : Game) (p : Nat) (n : Int) :
    Step.refines (s.addCoins32 p n) (.ok (s.setPlayer p ((s.store p).addCoins n))) := by
  unfold Game.addCoins32 Player.addCoins
  split
  · rw [Game.setPlayer_self]; exact Or.inr rfl
  · exact Game.setCoins32_refines s p _

theorem Game.removeCoins32_refines (s : Game) (p : Nat) (n : Int) :
    Step.refines (s.removeCoins32 p n) (s.onPlayer p fun pl => pl.removeCoins n) := by
  unfold Game.removeCoins32
  by_cases h : n > (s.store p).coins
  · have : (s.store p).removeCoins n = .error .OutOfCoins := by
      unfold Player.removeCoins; rw [if_pos h]
    rw [if_pos h, Game.onPlayer_throw s p _ _ this]
    exact Or.inr rfl
  · rw [if_neg h, Game.onPlayer_ok s p _ _ (Player.removeCoins_ok _ _ (by omega))]
    exact Game.setCoins32_refines s p _

theorem Game.takeFromPool32_refines (s : Game) (n : Int) :
    Step.refines (s.takeFromPool32 n) (s.takeFromPool n) := by
  unfold Game.takeFromPool32 Game.takeFromPool
  split
  · exact Or.inr rfl
  · exact Game.setPool32_refines s _

theorem Game.returnToPool32_refines (s : Game) (n : Int) :
    Step.refines (s.returnToPool32 n) (.ok (s.returnToPool n)) := by
  unfold Game.returnToPool32 Game.returnToPool
  split
  · exact Or.inr rfl
  · exact Game.setPool32_refines s _

theorem Game.onPlayer_noop (s : Game) (p : Nat) (f : Player → Except Err Player)
    (h : f (s.store p) = .ok (s.store p)) : s.onPlayer p f = .ok s := by
  rw [Game.onPlayer_ok s p f _ h, Game.setPlayer_self]

theorem Game.onStartTurn32_refines (s : Game) (p : Nat) :
    Step.refines (s.onStartTurn32 p) (s.onPlayer p Player.onStartTurn) := by
  unfold Game.onStartTurn32
  cases hrole : (s.store p).role <;> dsimp only
  case Merchant =>
    by_cases hc : (s.store p).coins ≥ 3
    · have : (s.store p).onStartTurn = .ok ((s.store p).addCoins 1) := by
        unfold Player.onStartTurn Role.onStartTurn; rw [hrole]; dsimp only; rw [if_pos hc]
      rw [if_pos hc, Game.onPlayer_ok s p _ _ this]
      exact Game.addCoins32_refines s p 1
    · have : (s.store p).onStartTurn = .ok (s.store p) := by
        unfold Player.onStartTurn Role.onStartTurn; rw [hrole]; dsimp only; rw [if_neg hc]
      rw [if_neg hc, Game.onPlayer_noop s p _ this]
      exact Or.inr rfl
  all_goals
    have : (s.store p).onStartTurn = .ok (s.store p) := by
      unfold Player.onStartTurn Role.onStartTurn; rw [hrole]
    rw [Game.onPlayer_noop s p _ this]
    exact Or.inr rfl

theorem Game.handleArrested32_refines (s : Game) (p : Nat) :
    Step.refines (s.handleArrested32 p) (s.onPlayer p Player.handleArrested) := by
  unfold Game.handleArrested32
  cases hrole : (s.store p).role <;> dsimp only
  case General =>
    have : (s.store p).handleArrested = .ok ((s.store p).addCoins 1) := by
      unfold Player.handleArrested Role.onArrested; rw [hrole]
    rw [Game.onPlayer_ok s p _ _ this]
    exact Game.addCoins32_refines s p 1
  case Merchant =>
    by_cases hc : (s.store p).coins ≥ 2
    · have : s.onPlayer p Player.handleArrested = s.onPlayer p (fun pl => pl.removeCoins 2) := by
        unfold Game.onPlayer Player.handleArrested Role.onArrested
        rw [hrole]; dsimp only; rw [if_pos hc]
      rw [if_pos hc, this]
      exact Game.removeCoins32_refines s p 2
    · have : s.onPlayer p Player.handleArrested =
          s.onPlayer p (fun pl => pl.removeCoins (s.store p).coins) := by
        unfold Game.onPlayer Player.handleArrested Role.onArrested
        rw [hrole]; dsimp only; rw [if_neg hc]
      rw [if_neg hc, this]
      exact Game.removeCoins32_refines s p _
  all_goals
    have : (s.store p).handleArrested = .ok (s.store p) := by
      unfold Player.handleArrested Role.onArrested; rw [hrole]
    rw [Game.onPlayer_noop s p _ this]
    exact Or.inr rfl

theorem Game.handleSanctioned32_refines (s : Game) (p : Nat) :
    Step.refines (s.handleSanctioned32 p) (s.onPlayer p Player.handleSanctioned) := by
  unfold Game.handleSanctioned32
  cases hrole : (s.store p).role <;> dsimp only
  case Baron =>
    have : (s.store p).handleSanctioned = .ok ((s.store p).addCoins 1) := by
      unfold Player.handleSanctioned Role.onSanctioned; rw [hrole]
    rw [Game.onPlayer_ok s p _ _ this]
    exact Game.addCoins32_refines s p 1
  all_goals
    have : (s.store p).handleSanctioned = .ok (s.store p) := by
      unfold Player.handleSanctioned Role.onSanctioned; rw [hrole]
    rw [Game.onPlayer_noop s p _ this]
    exact Or.inr rfl

theorem Step.refines.ok_bind (r32 : Step) (x : Game) (f32 f : Game → Step)
    (h : Step.refines r32 (.ok x)) (hf : ∀ s, Step.refines (f32 s) (f s)) :
    Step.refines (r32.bind f32) (f x) :=
  Step.refines.seq h hf

theorem Game.blockBribe32_refines (s : Game) (b t : Nat) :
    Step.refines (s.blockBribe32 b t) (s.blockBribe b t) := by
  unfold Game.blockBribe32 Game.blockBribe
  split
  · rename_i _ i _
    exact Step.refines.ok_bind _ _ _ (fun s1 => .ok { s1 with _pending := s1._pending.eraseIdx i })
      (Game.returnToPool32_refines s 4) (fun s1 => Step.refines.rfl _)
  · exact Step.refines.rfl _

theorem Game.blockSanction32_refines (s : Game) (b t : Nat) :
    Step.refines (s.blockSanction32 b t) (s.blockSanction b t) := by
  unfold Game.blockSanction32 Game.blockSanction
  split
  · rename_i _ i _
    split
    · exact Step.refines.seq (Game.removeCoins32_refines s _ 1) (fun s1 =>
        Step.refines.ok_bind _ _ _
          (fun s2 => .ok { s2 with _pending := s2._pending.eraseIdx i })
          (Game.returnToPool32_refines s1 1) (fun s2 => Step.refines.rfl _))
    · exact Step.refines.rfl _
  · exact Step.refines.rfl _

theorem Game.blockCoup32_refines (s : Game) (b t : Nat) :
    Step.refines (s.blockCoup32 b t) (s.blockCoup b t) := by
  unfold Game.blockCoup32 Game.blockCoup
  split
  · rename_i _ i _
    split
    · exact Step.refines.rfl _
    · exact Step.refines.seq (Game.removeCoins32_refines s _ 5) (fun s1 =>
        Step.refines.ok_bind _ _ _
          (fun s2 => .ok { s2 with _pending := s2._pending.eraseIdx i })
          (Game.returnToPool32_refines s1 7) (fun s2 => Step.refines.rfl _))
  · exact Step.refines.rfl _

theorem Game.resolve32_refines (s : Game) (pa : PendingAction) :
    Step.refines (s.resolve32 pa) (s.resolve pa) := by
  rcases pa with ⟨a, tgt, ty⟩
  cases ty
  · exact Game.addCoins32_refines s a 1
  · unfold Game.resolve32 Game.resolve
    dsimp only
    split
    · exact Game.addCoins32_refines s a 3
    · exact Game.addCoins32_refines s a 2
  · exact Step.refines.rfl _
  · unfold Game.resolve32 Game.resolve
    dsimp only
    split
    · exact Step.refines.rfl _
    · cases tgt with
      | none => exact Step.refines.rfl _
      | some t =>
        dsimp only
        exact Step.refines.seq (Game.removeCoins32_refines s t _) (fun s1 =>
          Step.refines.ok_bind _ _ _ (fun s2 => s2.onPlayer t Player.handleArrested)
            (Game.addCoins32_refines s1 a _) (fun s2 => Game.handleArrested32_refines s2 t))
  · unfold Game.resolve32 Game.resolve
    dsimp only
    split
    · exact Step.refines.rfl _
    · cases tgt with
      | none => exact Step.refines.rfl _
      | some t =>
        dsimp only
        refine Step.refines.seq ?_ (fun s2 => ?_)
        · split
          · exact Step.refines.seq (Game.removeCoins32_refines s t 1) (fun s1 =>
              Game.returnToPool32_refines s1 1)
          · exact Step.refines.rfl _
        · split
          · exact Game.handleSanctioned32_refines s2 t
          · exact Step.refines.rfl _
  · unfold Game.resolve32 Game.resolve
    dsimp only
    split
    · exact Step.refines.rfl _
    · exact Game.returnToPool32_refines s 7

theorem Game.resolveAll32_refines (l : List PendingAction) (s : Game) :
    Step.refines (s.resolveAll32 l) (s.resolveAll l) := by
  induction l generalizing s with
  | nil => exact Step.refines.rfl _
  | cons pa rest ih => exact Step.refines.seq (Game.resolve32_refines s pa) ih

theorem Game.processPending32_refines (s : Game) :
    Step.refines s.processPending32 s.processPending :=
  Game.resolveAll32_refines _ _

theorem Game.nextTurn32_refines (s : Game) : Step.refines s.nextTurn32 s.nextTurn := by
  unfold Game.nextTurn32 Game.nextTurn
  refine Step.refines.seq (Game.processPending32_refines s) (fun s1 => ?_)
  split
  · exact Step.refines.rfl _
  · dsimp only
    split
    · exact Game.onStartTurn32_refines _ _
    · exact Step.refines.rfl _

theorem Player.gather32_refines (s : Game) (p : Nat) :
    Step.refines (Player.gather32 s p) (Player.gather s p) := by
  unfold Player.gather32 Player.gather
  split
  · exact Step.refines.rfl _
  · exact Step.refines.ok_bind _ _ _ Game.nextTurn (Game.setCoins32_refines s p _)
      Game.nextTurn32_refines

theorem Player.tax32_refines (s : Game) (p : Nat) :
    Step.refines (Player.tax32 s p) (Player.tax s p) := by
  unfold Player.tax32 Player.tax
  split
  · exact Step.refines.rfl _
  · split
    · exact Step.refines.rfl _
    · exact Game.nextTurn32_refines _

theorem Player.bribe32_refines (s : Game) (p : Nat) :
    Step.refines (Player.bribe32 s p) (Player.bribe s p) := by
  unfold Player.bribe32 Player.bribe
  split
  · exact Step.refines.rfl _
  · split
    · exact Step.refines.rfl _
    · split
      · exact Step.refines.rfl _
      · exact Step.refines.ok_bind _ _ _ (fun s1 => .ok (s1.registerBribe p))
          (Game.setCoins32_refines s p _) (fun s1 => Step.refines.rfl _)

theorem Player.arrest32_refines (s : Game) (p t : Nat) :
    Step.refines (Player.arrest32 s p t) (Player.arrest s p t) := by
  unfold Player.arrest32 Player.arrest
  split
  · exact Step.refines.rfl _
  · split
    · exact Step.refines.rfl _
    · split
      · exact Step.refines.rfl _
      · exact Game.nextTurn32_refines _

theorem Player.sanction32_refines (s : Game) (p t : Nat) :
    Step.refines (Player.sanction32 s p t) (Player.sanction s p t) := by
  unfold Player.sanction32 Player.sanction
  split
  · exact Step.refines.rfl _
  · split
    · exact Step.refines.rfl _
    · split
      · exact Step.refines.rfl _
      · exact Step.refines.ok_bind _ _ _ (fun s1 => (s1.registerSanction p (some t)).nextTurn)
          (Game.setCoins32_refines s p _) (fun s1 => Game.nextTurn32_refines _)

theorem Player.coup32_refines (s : Game) (p t : Nat) :
    Step.refines (Player.coup32 s p t) (Player.coup s p t) := by
  unfold Player.coup32 Player.coup
  split
  · exact Step.refines.rfl _
  · split
    · exact Step.refines.rfl _
    · split
      · exact Step.refines.rfl _
      · exact Step.refines.ok_bind _ _ _ (fun s1 => (s1.registerCoup p (some t)).nextTurn)
          (Game.setCoins32_refines s p _) (fun s1 => Game.nextTurn32_refines _)

theorem Player.specialAction32_refines (s : Game) (r p t : Nat) :
    Step.refines (Player.specialAction32 s r p t) (Player.specialAction s r p t) := by
  unfold Player.specialAction32 Player.specialAction Role.specialAction
  cases hrole : (s.store r).role <;> dsimp only
  case Baron =>
    split
    · exact Step.refines.rfl _
    · exact Step.refines.seq (Game.removeCoins32_refines s p 3)
        (fun s1 => Game.addCoins32_refines s1 p 6)
  all_goals exact Step.refines.rfl _

theorem Game.apply32_refines (s : Game) (op : Op) :
    Step.refines (s.apply32 op) (s.apply op) := by
  cases op with
  | addPlayer player => exact Step.refines.rfl _
  | removePlayer player => exact Step.refines.rfl _
  | nextTurn => exact Game.nextTurn32_refines s
  | takeFromPool n => exact Game.takeFromPool32_refines s n
  | returnToPool n => exact Game.returnToPool32_refines s n
  | registerTax a => exact Step.refines.rfl _
  | registerBribe a => exact Step.refines.rfl _
  | registerArrest a t => exact Step.refines.rfl _
  | registerSanction a t => exact Step.refines.rfl _
  | registerCoup a t => exact Step.refines.rfl _
  | blockTax b t => exact Step.refines.rfl _
  | blockBribe b t => exact Game.blockBribe32_refines s b t
  | blockArrest b t => exact Step.refines.rfl _
  | blockSanction b t => exact Game.blockSanction32_refines s b t
  | blockCoup b t => exact Game.blockCoup32_refines s b t
  | gather p => exact Player.gather32_refines s p
  | tax p => exact Player.tax32_refines s p
  | bribe p => exact Player.bribe32_refines s p
  | arrest p t => exact Player.arrest32_refines s p t
  | sanction p t => exact Player.sanction32_refines s p t
  | coup p t => exact Player.coup32_refines s p t
  | specialAction r p t => exact Player.specialAction32_refines s r p t
  | onStartTurn p => exact Game.onStartTurn32_refines s p
  | handleArrested p => exact Game.handleArrested32_refines s p
  | handleSanctioned p => exact Game.handleSanctioned32_refines s p
  | addCoins p n => exact Game.addCoins32_refines s p n
  | removeCoins p n => exact Game.removeCoins32_refines s p n

theorem Game.apply32_eq (s : Game) (op : Op) (h : (s.apply32 op).err ≠ some .Undefined) :
    s.apply32 op = s.apply op := by
  rcases Game.apply32_refines s op with h1 | h1
  · exact absurd h1 h
  · exact h1

theorem Game.Trace32.exact {log : List Nat} {s : Game} (h : Game.Trace32 log s) :
    Game.Trace (fun _ => True) log s := by
  induction h with
  | new store h0 => exact Game.Trace.new store h0
  | @step log s op _ hub ih =>
    rw [Game.apply32_eq s op hub]
    exact Game.Trace.step op ih trivial

theorem exPlayed32_reachable : exPlayed32.Reachable32 :=
  ⟨_, Game.Trace32.step (.gather 0)
    (Game.Trace32.step (.addPlayer (some 1))
      (Game.Trace32.step (.addPlayer (some 0)) (Game.Trace32.new exFresh exFresh_coins)
        (by decide))
      (by decide)) (by decide)⟩

/-- Claim C1 (contest window), evaluated on the code: `Player::tax` and `Player::coup` call
`Game::nextTurn` themselves, so the entry they register is resolved before they return.
When the lone Governor of test_Player.cpp:41-45 taxes, she already holds her 3 coins on
return, the queue is empty and `blockTax` fails with IllegalAction; when Alice coups Bob,
Bob has left the roster on return and `blockCoup` fails with IllegalAction. -/
theorem C1_effect_applied_before_return :
    (Player.tax exTax 0).err = none ∧
    ((Player.tax exTax 0).state.store 0).coins = 3 ∧
    (Player.tax exTax 0).state._pending = [] ∧
    (Game.blockTax (Player.tax exTax 0).state 0 0).err = some .IllegalAction ∧
    (Player.coup exCoup 0 1).err = none ∧
    (Player.coup exCoup 0 1).state._players = [0] ∧
    (Player.coup exCoup 0 1).state._pending = [] ∧
    (Game.blockCoup (Player.coup exCoup 0 1).state 1 1).err = some .IllegalAction := by
  decide

/-- Claim C2 (turn enforcement): when `turn()` returns a name different from the name of
`p`, each of the six actions of `p` throws NotYourTurn, whatever the role, the balance or
the target, and the game is exactly the one before the call. -/
theorem C2_out_of_turn_throws_NotYourTurn (s : Game) (p : Nat) (nm : String)
    (hturn : s.turn = .ok nm) (hne : (s.store p).name ≠ nm) :
    Player.gather s p = .throw .NotYourTurn s ∧
    Player.tax s p = .throw .NotYourTurn s ∧
    Player.bribe s p = .throw .NotYourTurn s ∧
    (∀ t, Player.arrest s p t = .throw .NotYourTurn s) ∧
    (∀ t, Player.sanction s p t = .throw .NotYourTurn s) ∧
    (∀ t, Player.coup s p t = .throw .NotYourTurn s) := by
  have h := Player.ensureMyTurn_other s p nm hturn hne
  refine ⟨?_, ?_, ?_, fun t => ?_, fun t => ?_, fun t => ?_⟩
  · unfold Player.gather; rw [h]
  · unfold Player.tax; rw [h]
  · unfold Player.bribe; rw [h]
  · unfold Player.arrest; rw [h]
  · unfold Player.sanction; rw [h]
  · unfold Player.coup; rw [h]

/-- Witness of C2 on the game of test_Player.cpp:332-339: it is Alice's turn and Bob acts. -/
theorem C2_out_of_turn_witness :
    exCoup.turn = .ok "Alice" ∧ (exCoup.store 1).name ≠ "Alice" ∧
    Player.gather exCoup 1 = .throw .NotYourTurn exCoup ∧
    Player.coup exCoup 1 0 = .throw .NotYourTurn exCoup :=
  ⟨rfl, by decide,
    (C2_out_of_turn_throws_NotYourTurn exCoup 1 "Alice" rfl (by decide)).1,
    (C2_out_of_turn_throws_NotYourTurn exCoup 1 "Alice" rfl (by decide)).2.2.2.2.2 0⟩

/-- Claim C5 (bribe): for the current player `p` with balance b, `bribe()` throws
IllegalAction when the role cannot bribe; otherwise it throws OutOfCoins iff b < 4 (state
unchanged in both failures); on success the balance is b-4, one Bribe entry of `p` is
appended at the end of the queue, and pointer, roster, pool and all other players are
unchanged. -/
theorem C5_bribe (s : Game) (p : Nat) (hcur : s._players[s._currentIndex]? = some p) :
    ((s.store p).role.canBribe = false → Player.bribe s p = .throw .IllegalAction s) ∧
    ((s.store p).role.canBribe = true →
      ((Player.bribe s p).err = some .OutOfCoins ↔ (s.store p).coins < 4) ∧
      ((s.store p).coins < 4 → Player.bribe s p = .throw .OutOfCoins s) ∧
      (¬ (s.store p).coins < 4 → ∃ s', Player.bribe s p = .ok s' ∧
        (s'.store p).coins = (s.store p).coins - 4 ∧
        s'._pending = s._pending ++ [⟨p, none, .Bribe⟩] ∧
        s'._currentIndex = s._currentIndex ∧ s'._players = s._players ∧
        s'._poolCoins = s._poolCoins ∧
        (s'.store p).name = (s.store p).name ∧ (s'.store p).role = (s.store p).role ∧
        ∀ q, q ≠ p → s'.store q = s.store q)) := by
  have h := Player.ensureMyTurn_current s p hcur
  refine ⟨fun hb => ?_, fun hb => ⟨?_, fun hc => ?_, fun hc => ?_⟩⟩
  · unfold Player.bribe; rw [h]; simp [hb]
  · unfold Player.bribe; rw [h]
    by_cases hc : (s.store p).coins < 4
    · simp [hb, hc, Step.err]
    · simp [hb, hc, Step.err]
  · unfold Player.bribe; rw [h]; simp [hb, hc]
  · unfold Player.bribe; rw [h]
    simp only [hb, Bool.not_true, Bool.false_eq_true, if_false, hc]
    refine ⟨_, rfl, ?_, rfl, rfl, rfl, rfl, ?_, ?_, fun q hq => ?_⟩
    · simp [Game.registerBribe, Game.pushPending, Game.setPlayer]
    · simp [Game.registerBribe, Game.pushPending, Game.setPlayer]
    · simp [Game.registerBribe, Game.pushPending, Game.setPlayer]
    · simp [Game.registerBribe, Game.pushPending, Game.setPlayer, Function.update_noteq hq]

/-- Witness of C5 on the game of test_Player.cpp:84-91: Alice pays her 4 coins. -/
theorem C5_bribe_witness :
    exBribe._players[exBribe._currentIndex]? = some 2 ∧
    (exBribe.store 2).role.canBribe = true ∧ ¬ (exBribe.store 2).coins < 4 ∧
    ∃ s', Player.bribe exBribe 2 = .ok s' ∧ (s'.store 2).coins = 0 ∧
      s'._pending = [⟨2, none, .Bribe⟩] ∧ s'._currentIndex = 2 := by
  refine ⟨by decide, by decide, by decide, ?_⟩
  obtain ⟨s', h, hc, hp, hi, _⟩ :=
    (C5_bribe exBribe 2 (by decide)).2 (by decide) |>.2.2 (by decide)
  exact ⟨s', h, hc.trans (by decide), hp, hi⟩

/-- Claim C6 (bribe grants the extra turn): when the queue is exactly one Bribe by the
current player `p`, `nextTurn()` succeeds, `turn()` then still returns the name of `p`
(the pointer is back at its position, also from position 0 where the rewind wraps), and
the queue is empty. -/
theorem C6_bribe_keeps_turn (s : Game) (p : Nat) (tgt : Option Nat)
    (hcur : s._players[s._currentIndex]? = some p)
    (hpend : s._pending = [⟨p, tgt, .Bribe⟩]) :
    ∃ s', s.nextTurn = .ok s' ∧ s'.turn = .ok (s.store p).name ∧ s'._pending = [] ∧
      s'._players[s'._currentIndex]? = some p ∧ s'._currentIndex = s._currentIndex ∧
      s'._players = s._players := by
  have hlt : s._currentIndex < s._players.length := (List.getElem?_eq_some.mp hcur).1
  have hne : s._players ≠ [] := by
    intro h; simp [h] at hcur
  have hemp : s._players.isEmpty = false := by
    cases h : s._players with
    | nil => exact absurd h hne
    | cons a l => rfl
  -- the sweep rewinds the pointer
  have hsweep : ∃ s1, s.processPending = .ok s1 ∧ s1.store = s.store ∧
      s1._players = s._players ∧ s1._pending = [] ∧
      (s1._currentIndex + 1) % s._players.length = s._currentIndex := by
    unfold Game.processPending
    rw [hpend]
    simp only [Game.resolveAll, Game.resolve, Game.getCurrentPlayer, hemp, hcur, Step.bind]
    simp only [Bool.false_eq_true, if_false, if_true]
    by_cases h0 : s._currentIndex > 0
    · rw [if_pos h0]
      refine ⟨_, rfl, rfl, rfl, rfl, ?_⟩
      show (s._currentIndex - 1 + 1) % s._players.length = s._currentIndex
      rw [Nat.sub_add_cancel h0]
      exact Nat.mod_eq_of_lt hlt
    · rw [if_neg h0]
      refine ⟨_, rfl, rfl, rfl, rfl, ?_⟩
      show (s._players.length - 1 + 1) % s._players.length = s._currentIndex
      rw [Nat.sub_add_cancel (by omega)]
      simp; omega
  obtain ⟨s1, hs1, hst1, hpl1, hpd1, hidx1⟩ := hsweep
  obtain ⟨s', hs', _, hpl, _, hpd, hidx, hn, _, _⟩ := Game.advance_ok s1
  have hidx' : s'._currentIndex = s._currentIndex := by
    rw [hidx, if_neg (by rw [hpl1]; exact hne), hpl1, hidx1]
  have hcur' : s'._players[s'._currentIndex]? = some p := by
    rw [hpl, hpl1, hidx']; exact hcur
  refine ⟨s', by rw [Game.nextTurn_eq, hs1]; exact hs', ?_, hpd.trans hpd1, hcur', hidx',
    hpl.trans hpl1⟩
  rw [Game.turn_of_current s' p hcur', hn p, hst1]

/-- Witness of C6 at roster position 0, where the rewind wraps around. -/
theorem C6_bribe_keeps_turn_witness :
    exBribed._players[exBribed._currentIndex]? = some 0 ∧
    exBribed._pending = [⟨0, none, .Bribe⟩] ∧
    ∃ s', exBribed.nextTurn = .ok s' ∧ s'.turn = .ok "Alice" ∧ s'._pending = [] := by
  refine ⟨by decide, by decide, ?_⟩
  obtain ⟨s', h, ht, hp, _⟩ := C6_bribe_keeps_turn exBribed 0 none (by decide) (by decide)
  exact ⟨s', h, ht, hp⟩

/-- Counterexample to claim C7 as stated: after `game.registerTax(&alice)`, Alice (a
Governor, not a Merchant, holding b = 7) coups Bob; the call succeeds and her balance on
return is 3, not b-7 = 0, because the sweep inside `coup()` also resolves her pending Tax. -/
theorem C7_coup_balance_with_pending_tax :
    exCoupTax._players[exCoupTax._currentIndex]? = some 0 ∧
    (exCoupTax.store 0).role ≠ .Merchant ∧ (exCoupTax.store 0).coins = 7 ∧
    (Player.coup exCoupTax 0 1).err = none ∧
    ((Player.coup exCoupTax 0 1).state.store 0).coins = 3 := by
  decide

/-- Claim C7 as amended: for the current player `p` with balance b and any role (no
capability is consulted), `coup(t)` throws OutOfCoins iff b < 7, also when t is `p`;
otherwise it throws IllegalAction iff t is `p`; otherwise it succeeds, and if the role of
`p` is not Merchant and no entry pending at the call writes the balance of `p` (a Tax or
Gather by `p`, an Arrest by or on `p`, a Sanction on `p`), the balance on return is b-7. -/
theorem C7_coup (s : Game) (p t : Nat) (hcur : s._players[s._currentIndex]? = some p) :
    ((Player.coup s p t).err = some .OutOfCoins ↔ (s.store p).coins < 7) ∧
    ((s.store p).coins < 7 → Player.coup s p t = .throw .OutOfCoins s) ∧
    (¬ (s.store p).coins < 7 →
      ((Player.coup s p t).err = some .IllegalAction ↔ t = p) ∧
      (t = p → Player.coup s p t = .throw .IllegalAction s) ∧
      (t ≠ p → ∃ s', Player.coup s p t = .ok s' ∧
        ((s.store p).role ≠ .Merchant → (∀ pa ∈ s._pending, pa.touches p = false) →
          (s'.store p).coins = (s.store p).coins - 7))) := by
  have h := Player.ensureMyTurn_current s p hcur
  have hwf := Game.wf_of_current s p hcur
  have hlow : (s.store p).coins < 7 → Player.coup s p t = .throw .OutOfCoins s := by
    intro hc; unfold Player.coup; rw [h]; simp [hc]
  have hself : ¬ (s.store p).coins < 7 → t = p → Player.coup s p t = .throw .IllegalAction s := by
    intro hc ht; unfold Player.coup; rw [h]; simp [hc, ht]
  have hok : ¬ (s.store p).coins < 7 → t ≠ p → ∃ s', Player.coup s p t = .ok s' ∧
      ((s.store p).role ≠ .Merchant → (∀ pa ∈ s._pending, pa.touches p = false) →
        (s'.store p).coins = (s.store p).coins - 7) := by
    intro hc ht
    obtain ⟨s', hs', _, _, _, hr, hcoins⟩ := Game.nextTurn_ok
      ((s.setPlayer p { s.store p with coins := (s.store p).coins - 7 }).registerCoup p (some t))
      hwf
    refine ⟨s', ?_, fun hm htouch => ?_⟩
    · unfold Player.coup; rw [h]; simp only [hc, if_false, Ne.symm ht]; exact hs'
    · have := hcoins p (by
        intro pa hpa
        simp only [Game.registerCoup, Game.pushPending, Game.setPlayer, List.mem_append,
          List.mem_singleton] at hpa
        rcases hpa with hpa | hpa
        · exact htouch pa hpa
        · subst hpa; rfl) (by simpa [Game.registerCoup, Game.pushPending, Game.setPlayer] using hm)
      rw [this]
      simp [Game.registerCoup, Game.pushPending, Game.setPlayer]
  refine ⟨⟨fun he => ?_, fun hc => by rw [hlow hc]; rfl⟩, hlow, fun hc =>
    ⟨⟨fun he => ?_, fun ht => by rw [hself hc ht]; rfl⟩, hself hc, hok hc⟩⟩
  · by_contra hc
    by_cases ht : t = p
    · rw [hself hc ht] at he; simp [Step.err] at he
    · obtain ⟨s', hs', _⟩ := hok hc ht
      rw [hs'] at he; simp [Step.err] at he
  · by_contra ht
    obtain ⟨s', hs', _⟩ := hok hc ht
    rw [hs'] at he; simp [Step.err] at he

/-- Witness of C7 (amended): Alice, a Governor with 7 coins, coups Bob and is left with 0. -/
theorem C7_coup_witness :
    exCoup._players[exCoup._currentIndex]? = some 0 ∧ ¬ (exCoup.store 0).coins < 7 ∧
    ∃ s', Player.coup exCoup 0 1 = .ok s' ∧ (s'.store 0).coins = 0 := by
  refine ⟨by decide, by decide, ?_⟩
  obtain ⟨s', h, hc⟩ :=
    (C7_coup exCoup 0 1 (by decide)).2.2 (by decide) |>.2.2 (by decide)
  exact ⟨s', h, (hc (by decide) (by decide)).trans (by decide)⟩

/-- Claim C9 (capability table): for each of the six built-in roles, canGather is true,
canTax is true iff the role is Governor, canBribe, canArrest and canSanction are false; a
veto throws IllegalAction in every state unless the pair is (Governor, tax), (Spy, arrest),
(General, coup) or (Judge, bribe), so no built-in role can veto a Sanction; hence for a
current player with a built-in role `tax()` fails with IllegalAction iff the role is not
Governor, and `bribe()`, `arrest(t)`, `sanction(t)` always fail with IllegalAction. -/
theorem C9_capability_table (r : Role) (hb : r.builtin = true) :
    r.canGather = true ∧ (r.canTax = true ↔ r = .Governor) ∧ r.canBribe = false ∧
    r.canArrest = false ∧ r.canSanction = false ∧
    ((∀ self s t, r.blockTax self s t = .throw .IllegalAction s) ↔ r ≠ .Governor) ∧
    ((∀ self s t, r.blockArrest self s t = .throw .IllegalAction s) ↔ r ≠ .Spy) ∧
    ((∀ self s t, r.blockCoup self s t = .throw .IllegalAction s) ↔ r ≠ .General) ∧
    ((∀ self s t, r.blockBribe self s t = .throw .IllegalAction s) ↔ r ≠ .Judge) ∧
    (∀ self s t, r.blockSanction self s t = .throw .IllegalAction s) ∧
    (∀ self s t, r.blockGather self s t = .throw .IllegalAction s) ∧
    (∀ s p, s._players[s._currentIndex]? = some p → (s.store p).role = r →
      ((Player.tax s p).err = some .IllegalAction ↔ r ≠ .Governor) ∧
      Player.bribe s p = .throw .IllegalAction s ∧
      (∀ t, Player.arrest s p t = .throw .IllegalAction s) ∧
      (∀ t, Player.sanction s p t = .throw .IllegalAction s)) := by
  have hT : (Role.Governor.blockTax 0 exVeto 1).err = none := by decide
  have hA : (Role.Spy.blockArrest 0 exVeto 1).err = none := by decide
  have hC : (Role.General.blockCoup 0 exVeto 1).err = none := by decide
  have hB : (Role.Judge.blockBribe 0 exVeto 1).err = none := by decide
  have hacts : ∀ s p, s._players[s._currentIndex]? = some p → (s.store p).role = r →
      ((Player.tax s p).err = some .IllegalAction ↔ r ≠ .Governor) ∧
      Player.bribe s p = .throw .IllegalAction s ∧
      (∀ t, Player.arrest s p t = .throw .IllegalAction s) ∧
      (∀ t, Player.sanction s p t = .throw .IllegalAction s) := by
    intro s p hcur hr
    have h := Player.ensureMyTurn_current s p hcur
    refine ⟨?_, ?_, fun t => ?_, fun t => ?_⟩
    · constructor
      · intro he hg
        obtain ⟨s', hs', _⟩ := Game.nextTurn_ok (s.registerTax p) (Game.wf_of_current s p hcur)
        unfold Player.tax at he
        rw [h, hr, hg] at he
        simp only [Role.canTax, Bool.not_true, Bool.false_eq_true, if_false] at he
        rw [hs'] at he
        simp [Step.err] at he
      · intro hg
        unfold Player.tax
        rw [h, hr]
        cases r <;> simp_all [Role.canTax, Role.builtin, Step.err]
    · unfold Player.bribe
      rw [h, hr]
      cases r <;> simp_all [Role.canBribe, Role.builtin]
    · unfold Player.arrest
      rw [h, hr]
      cases r <;> simp_all [Role.canArrest, Role.builtin]
    · unfold Player.sanction
      rw [h, hr]
      cases r <;> simp_all [Role.canSanction, Role.builtin]
  refine ⟨?_, ?_, ?_, ?_, ?_, ⟨fun h hr => ?_, fun hr self s t => ?_⟩,
    ⟨fun h hr => ?_, fun hr self s t => ?_⟩, ⟨fun h hr => ?_, fun hr self s t => ?_⟩,
    ⟨fun h hr => ?_, fun hr self s t => ?_⟩, fun _ _ _ => rfl, fun _ _ _ => rfl, hacts⟩
  · cases r <;> simp_all [Role.canGather, Role.builtin]
  · cases r <;> simp_all [Role.canTax, Role.builtin]
  · cases r <;> simp_all [Role.canBribe, Role.builtin]
  · cases r <;> simp_all [Role.canArrest, Role.builtin]
  · cases r <;> simp_all [Role.canSanction, Role.builtin]
  · rw [hr] at h; rw [h 0 exVeto 1] at hT; simp [Step.err] at hT
  · cases r <;> first | rfl | exact absurd rfl hr
  · rw [hr] at h; rw [h 0 exVeto 1] at hA; simp [Step.err] at hA
  · cases r <;> first | rfl | exact absurd rfl hr
  · rw [hr] at h; rw [h 0 exVeto 1] at hC; simp [Step.err] at hC
  · cases r <;> first | rfl | exact absurd rfl hr
  · rw [hr] at h; rw [h 0 exVeto 1] at hB; simp [Step.err] at hB
  · cases r <;> first | rfl | exact absurd rfl hr

/-- Witness of C9 for the Governor, on the game `exTax`. -/
theorem C9_capability_table_witness :
    Role.Governor.builtin = true ∧ Role.Governor.canTax = true ∧
    Player.bribe exTax 0 = .throw .IllegalAction exTax :=
  ⟨by decide, by decide,
    ((C9_capability_table .Governor (by decide)).2.2.2.2.2.2.2.2.2.2.2
      exTax 0 (by decide) (by decide)).2.1⟩

/-- Claim C10 (a Baron can arrest), evaluated on the code: in the game of
test_Player.cpp:135-149 the current player is a Baron and Carol is another active player,
yet `baron.arrest(carol)` throws IllegalAction and registers nothing, because `Baron`
inherits `Role::canArrest`, which returns false. -/
theorem C10_baron_arrest_throws :
    exArrest._players[exArrest._currentIndex]? = some 1 ∧
    (exArrest.store 1).role = .Baron ∧ (2 : Nat) ∈ exArrest._players ∧
    (Player.arrest exArrest 1 2).err = some .IllegalAction ∧
    (Player.arrest exArrest 1 2).state._pending = [] := by
  decide

/-- Claim C12 (an arrested Merchant loses 2 instead of 1), evaluated on the code: the
Merchant Dave of test_Player.cpp:114-130 holds b = 3 coins; resolving Bob's Arrest gives
Bob 2 coins and leaves Dave with 0, not b-2 = 1, because `processPending` removes 2 coins
and `Merchant::onArrested` then removes up to 2 more. -/
theorem C12_merchant_arrest_double_penalty :
    (0 : Nat) ∈ exMerchant._players ∧ (1 : Nat) ∈ exMerchant._players ∧
    (exMerchant.store 1).role = .Merchant ∧ (exMerchant.store 1).coins = 3 ∧
    (exMerchant.resolve ⟨0, some 1, .Arrest⟩).err = none ∧
    ((exMerchant.resolve ⟨0, some 1, .Arrest⟩).state.store 0).coins = 2 ∧
    ((exMerchant.resolve ⟨0, some 1, .Arrest⟩).state.store 1).coins = 0 := by
  decide

/-- Claim C14 (sanctioned Baron with no coins): when a Sanction on an active Baron holding
0 coins (actor active) is resolved, the Baron holds exactly 1 coin afterwards and the pool
and all other players are unchanged. -/
theorem C14_sanctioned_baron_zero (s : Game) (a t : Nat) (ha : a ∈ s._players)
    (ht : t ∈ s._players) (hr : (s.store t).role = .Baron) (h0 : (s.store t).coins = 0) :
    ∃ s', s.resolve ⟨a, some t, .Sanction⟩ = .ok s' ∧ (s'.store t).coins = 1 ∧
      s'._poolCoins = s._poolCoins ∧ (∀ q, q ≠ t → s'.store q = s.store q) ∧
      s'._players = s._players := by
  rw [Game.resolve_sanction s a t ha ht, if_neg (by omega)]
  simp only [Step.bind]
  have hn : (s.store t).roleName = "Baron" := by
    unfold Player.roleName; rw [hr]; rfl
  rw [if_pos hn]
  have hp : (s.store t).handleSanctioned = .ok ((s.store t).addCoins 1) := by
    unfold Player.handleSanctioned Role.onSanctioned
    rw [hr]
  rw [Game.onPlayer_ok s t _ _ hp]
  refine ⟨_, rfl, ?_, rfl, fun q hq => ?_, rfl⟩
  · simp [Game.setPlayer, Player.addCoins, h0]
  · simp [Game.setPlayer, Function.update_noteq hq]

/-- Witness of C14 on the game of test_Baron.cpp:31-44. -/
theorem C14_sanctioned_baron_zero_witness :
    (exBaronZero.store 0).role = .Baron ∧ (exBaronZero.store 0).coins = 0 ∧
    ∃ s', exBaronZero.resolve ⟨1, some 0, .Sanction⟩ = .ok s' ∧ (s'.store 0).coins = 1 ∧
      s'._poolCoins = 50 := by
  refine ⟨by decide, by decide, ?_⟩
  obtain ⟨s', h, hc, hp, _⟩ :=
    C14_sanctioned_baron_zero exBaronZero 1 0 (by decide) (by decide) (by decide) (by decide)
  exact ⟨s', h, hc, hp⟩

/-- Claim C15 (a sanctioned Baron gains instead of losing), evaluated on the code: an
active Baron holding b = 3 coins is sanctioned; after the resolution he holds 3 coins, not
b+1 = 4, and the pool has received the one-coin penalty: `processPending` first takes the
coin from any target with a positive balance and only then runs `Baron::onSanctioned`. -/
theorem C15_sanctioned_baron_pays_penalty :
    (0 : Nat) ∈ exBaron._players ∧ (1 : Nat) ∈ exBaron._players ∧
    (exBaron.store 0).role = .Baron ∧ (exBaron.store 0).coins = 3 ∧
    (exBaron.resolve ⟨1, some 0, .Sanction⟩).err = none ∧
    ((exBaron.resolve ⟨1, some 0, .Sanction⟩).state.store 0).coins = 3 ∧
    (exBaron.resolve ⟨1, some 0, .Sanction⟩).state._poolCoins = exBaron._poolCoins + 1 := by
  decide

/-- Claim C16 (a veto needs a matching entry): each of `blockTax`, `blockBribe`,
`blockArrest`, `blockSanction`, `blockCoup` called with player `t` throws IllegalAction if
and only if no pending entry of that kind matches `t` (the actor for Tax and Bribe, the
target for Arrest, Sanction and Coup), and then the game is exactly the one before the
call; for `blockCoup` this holds whatever the balance of the blocker. -/
theorem C16_veto_needs_matching_entry (s : Game) (blocker t : Nat) :
    (((s.blockTax blocker t).err = some .IllegalAction ↔
        ¬ ∃ pa ∈ s._pending, pa.type = .Tax ∧ pa.actor = t) ∧
      ((¬ ∃ pa ∈ s._pending, pa.type = .Tax ∧ pa.actor = t) →
        s.blockTax blocker t = .throw .IllegalAction s)) ∧
    (((s.blockBribe blocker t).err = some .IllegalAction ↔
        ¬ ∃ pa ∈ s._pending, pa.type = .Bribe ∧ pa.actor = t) ∧
      ((¬ ∃ pa ∈ s._pending, pa.type = .Bribe ∧ pa.actor = t) →
        s.blockBribe blocker t = .throw .IllegalAction s)) ∧
    (((s.blockArrest blocker t).err = some .IllegalAction ↔
        ¬ ∃ pa ∈ s._pending, pa.type = .Arrest ∧ pa.target = some t) ∧
      ((¬ ∃ pa ∈ s._pending, pa.type = .Arrest ∧ pa.target = some t) →
        s.blockArrest blocker t = .throw .IllegalAction s)) ∧
    (((s.blockSanction blocker t).err = some .IllegalAction ↔
        ¬ ∃ pa ∈ s._pending, pa.type = .Sanction ∧ pa.target = some t) ∧
      ((¬ ∃ pa ∈ s._pending, pa.type = .Sanction ∧ pa.target = some t) →
        s.blockSanction blocker t = .throw .IllegalAction s)) ∧
    (((s.blockCoup blocker t).err = some .IllegalAction ↔
        ¬ ∃ pa ∈ s._pending, pa.type = .Coup ∧ pa.target = some t) ∧
      ((¬ ∃ pa ∈ s._pending, pa.type = .Coup ∧ pa.target = some t) →
        s.blockCoup blocker t = .throw .IllegalAction s)) := by
  have hT : (¬ ∃ pa ∈ s._pending, pa.type = .Tax ∧ pa.actor = t) →
      s.blockTax blocker t = .throw .IllegalAction s := fun h => by
    unfold Game.blockTax
    rw [Game.findPending_none_of_not_exists s _ _ (fun x => by simp) h]
  have hB : (¬ ∃ pa ∈ s._pending, pa.type = .Bribe ∧ pa.actor = t) →
      s.blockBribe blocker t = .throw .IllegalAction s := fun h => by
    unfold Game.blockBribe
    rw [Game.findPending_none_of_not_exists s _ _ (fun x => by simp) h]
  have hA : (¬ ∃ pa ∈ s._pending, pa.type = .Arrest ∧ pa.target = some t) →
      s.blockArrest blocker t = .throw .IllegalAction s := fun h => by
    unfold Game.blockArrest
    rw [Game.findPending_none_of_not_exists s _ _ (fun x => by simp) h]
  have hS : (¬ ∃ pa ∈ s._pending, pa.type = .Sanction ∧ pa.target = some t) →
      s.blockSanction blocker t = .throw .IllegalAction s := fun h => by
    unfold Game.blockSanction
    rw [Game.findPending_none_of_not_exists s _ _ (fun x => by simp) h]
  have hC : (¬ ∃ pa ∈ s._pending, pa.type = .Coup ∧ pa.target = some t) →
      s.blockCoup blocker t = .throw .IllegalAction s := fun h => by
    unfold Game.blockCoup
    rw [Game.findPending_none_of_not_exists s _ _ (fun x => by simp) h]
  refine ⟨⟨⟨fun he hex => ?_, fun h => by rw [hT h]; rfl⟩, hT⟩,
    ⟨⟨fun he hex => ?_, fun h => by rw [hB h]; rfl⟩, hB⟩,
    ⟨⟨fun he hex => ?_, fun h => by rw [hA h]; rfl⟩, hA⟩,
    ⟨⟨fun he hex => ?_, fun h => by rw [hS h]; rfl⟩, hS⟩,
    ⟨⟨fun he hex => ?_, fun h => by rw [hC h]; rfl⟩, hC⟩⟩
  · obtain ⟨l1, pa, l2, hl, hm, h1⟩ := Game.split_of_exists s _ hex
    rw [Game.blockTax_of_split s blocker t l1 pa l2 hl hm h1] at he
    cases he
  · obtain ⟨l1, pa, l2, hl, hm, h1⟩ := Game.split_of_exists s _ hex
    rw [Game.blockBribe_of_split s blocker t l1 pa l2 hl hm h1] at he
    cases he
  · obtain ⟨l1, pa, l2, hl, hm, h1⟩ := Game.split_of_exists s _ hex
    rw [Game.blockArrest_of_split s blocker t l1 pa l2 hl hm h1] at he
    cases he
  · obtain ⟨l1, pa, l2, hl, hm, h1⟩ := Game.split_of_exists s _ hex
    rw [Game.blockSanction_of_split s blocker t l1 pa l2 hl hm h1] at he
    split at he <;> cases he
  · obtain ⟨l1, pa, l2, hl, hm, h1⟩ := Game.split_of_exists s _ hex
    rw [Game.blockCoup_of_split s blocker t l1 pa l2 hl hm h1] at he
    split at he <;> cases he

/-- Witness of C16: nothing is pending in `exTax`, so a Coup veto by a blocker without
coins throws IllegalAction and not OutOfCoins. -/
theorem C16_veto_needs_matching_entry_witness :
    (¬ ∃ pa ∈ exTax._pending, pa.type = .Coup ∧ pa.target = some 0) ∧
    (exTax.store 0).coins < 5 ∧
    exTax.blockCoup 0 0 = .throw .IllegalAction exTax :=
  ⟨by decide, by decide, (C16_veto_needs_matching_entry exTax 0 0).2.2.2.2.2 (by decide)⟩

/-- Counterexample to claim C20 as stated: a Tax by Alice and then a Tax by Bob are
pending; `registerTax(alice)` followed by `blockTax(bob, alice)` removes Alice's earlier
entry and keeps the new one at the end, so the queue, and with it the state, differs
from the one before. -/
theorem C20_roundtrip_reorders_queue :
    ((exTaxQueue.registerTax 0).blockTax 1 0).err = none ∧
    exTaxQueue._pending = [⟨0, none, .Tax⟩, ⟨1, none, .Tax⟩] ∧
    ((exTaxQueue.registerTax 0).blockTax 1 0).state._pending =
      [⟨1, none, .Tax⟩, ⟨0, none, .Tax⟩] ∧
    ((exTaxQueue.registerTax 0).blockTax 1 0).state._pending ≠ exTaxQueue._pending := by
  decide

/-- Claim C20 as amended: `registerTax(a)` followed by `blockTax(blocker, a)`, and
`registerArrest(a, t)` followed by `blockArrest(blocker, t)`, always succeed and yield a
state with the same player objects, pool, roster, pointer and queue length as before; when
no Tax by `a` (no Arrest on `t`) was pending before, the state is equal to the one before,
so that the next `nextTurn()` does exactly what it would have done without the pair. -/
theorem C20_register_then_veto (s : Game) (a t blocker : Nat) :
    (∃ s1, (s.registerTax a).blockTax blocker a = .ok s1 ∧
      s1.store = s.store ∧ s1._poolCoins = s._poolCoins ∧ s1._players = s._players ∧
      s1._currentIndex = s._currentIndex ∧ s1._pending.length = s._pending.length ∧
      ((¬ ∃ pa ∈ s._pending, pa.type = .Tax ∧ pa.actor = a) →
        s1 = s ∧ s1.nextTurn = s.nextTurn)) ∧
    (∃ s2, (s.registerArrest a (some t)).blockArrest blocker t = .ok s2 ∧
      s2.store = s.store ∧ s2._poolCoins = s._poolCoins ∧ s2._players = s._players ∧
      s2._currentIndex = s._currentIndex ∧ s2._pending.length = s._pending.length ∧
      ((¬ ∃ pa ∈ s._pending, pa.type = .Arrest ∧ pa.target = some t) →
        s2 = s ∧ s2.nextTurn = s.nextTurn)) := by
  constructor
  · have hex : ∃ pa ∈ (s.registerTax a)._pending, pa.type = .Tax ∧ pa.actor = a :=
      ⟨⟨a, none, .Tax⟩, by simp [Game.registerTax, Game.pushPending], rfl, rfl⟩
    obtain ⟨l1, pa, l2, hl, hm, h1⟩ := Game.split_of_exists _ _ hex
    have hres := Game.blockTax_of_split (s.registerTax a) blocker a l1 pa l2 hl hm h1
    have hlen : (l1 ++ l2).length = s._pending.length := by
      have := congrArg List.length hl
      simp [Game.registerTax, Game.pushPending] at this
      simp; omega
    refine ⟨_, hres, rfl, rfl, rfl, rfl, hlen, fun hno => ?_⟩
    have hres2 := Game.blockTax_of_split (s.registerTax a) blocker a s._pending
      ⟨a, none, .Tax⟩ [] rfl ⟨rfl, rfl⟩ (fun x hx hx2 => hno ⟨x, hx, hx2⟩)
    rw [hres] at hres2
    have heq := Step.ok.inj hres2
    have hs : ({ s.registerTax a with _pending := s._pending ++ [] } : Game) = s := by
      cases s; simp [Game.registerTax, Game.pushPending]
    rw [heq, hs]
    exact ⟨rfl, rfl⟩
  · have hex : ∃ pa ∈ (s.registerArrest a (some t))._pending,
        pa.type = .Arrest ∧ pa.target = some t :=
      ⟨⟨a, some t, .Arrest⟩, by simp [Game.registerArrest, Game.pushPending], rfl, rfl⟩
    obtain ⟨l1, pa, l2, hl, hm, h1⟩ := Game.split_of_exists _ _ hex
    have hres := Game.blockArrest_of_split (s.registerArrest a (some t)) blocker t l1 pa l2
      hl hm h1
    have hlen : (l1 ++ l2).length = s._pending.length := by
      have := congrArg List.length hl
      simp [Game.registerArrest, Game.pushPending] at this
      simp; omega
    refine ⟨_, hres, rfl, rfl, rfl, rfl, hlen, fun hno => ?_⟩
    have hres2 := Game.blockArrest_of_split (s.registerArrest a (some t)) blocker t s._pending
      ⟨a, some t, .Arrest⟩ [] rfl ⟨rfl, rfl⟩ (fun x hx hx2 => hno ⟨x, hx, hx2⟩)
    rw [hres] at hres2
    have heq := Step.ok.inj hres2
    have hs : ({ s.registerArrest a (some t) with _pending := s._pending ++ [] } : Game) = s := by
      cases s; simp [Game.registerArrest, Game.pushPending]
    rw [heq, hs]
    exact ⟨rfl, rfl⟩

/-- Witness of C20 (amended) on `exCoup`, where nothing is pending. -/
theorem C20_register_then_veto_witness :
    (¬ ∃ pa ∈ exCoup._pending, pa.type = .Tax ∧ pa.actor = 0) ∧
    ∃ s1, (exCoup.registerTax 0).blockTax 1 0 = .ok s1 ∧ s1 = exCoup := by
  refine ⟨by decide, ?_⟩
  obtain ⟨s1, h, _, _, _, _, _, heq⟩ := (C20_register_then_veto exCoup 0 1 1).1
  exact ⟨s1, h, (heq (by decide)).1⟩

/-- Claim C21 (removePlayer): `removePlayer(q)` throws IllegalAction iff `q` is not in the
roster, and then the game is unchanged; otherwise the roster is the previous one with `q`
erased, `players()` is the previous list of names with the entry at the position of `q`
removed (the previous list with the name of `q` erased when the names are pairwise
distinct), and the player objects, the pool and the pending queue are unchanged. -/
theorem C21_removePlayer (s : Game) (q : Nat) :
    ((s.removePlayer q).err = some .IllegalAction ↔ q ∉ s._players) ∧
    (q ∉ s._players → s.removePlayer q = .throw .IllegalAction s) ∧
    (q ∈ s._players → ∃ s', s.removePlayer q = .ok s' ∧
      s'._players = s._players.erase q ∧
      s'.players = s.players.eraseIdx (s._players.indexOf q) ∧
      (s.players.Nodup → s'.players = s.players.erase (s.store q).name) ∧
      s'.store = s.store ∧ s'._poolCoins = s._poolCoins ∧ s'._pending = s._pending) := by
  have hin : q ∈ s._players → ∃ s', s.removePlayer q = .ok s' ∧
      s'._players = s._players.erase q ∧
      s'.players = s.players.eraseIdx (s._players.indexOf q) ∧
      (s.players.Nodup → s'.players = s.players.erase (s.store q).name) ∧
      s'.store = s.store ∧ s'._poolCoins = s._poolCoins ∧ s'._pending = s._pending := by
    intro hq
    obtain ⟨s', hs', hpl, hst, hpool, hpd, _⟩ := Game.removePlayer_index s q hq
    have hplayers : s'.players = s.players.eraseIdx (s._players.indexOf q) := by
      unfold Game.players
      rw [hpl, hst, ← List.eraseIdx_indexOf_eq_erase, map_eraseIdx']
    refine ⟨s', hs', hpl, hplayers, fun hnd => ?_, hst, hpool, hpd⟩
    rw [hplayers, ← List.eraseIdx_indexOf_eq_erase]
    congr 1
    have hlt : s._players.indexOf q < s._players.length := List.indexOf_lt_length.mpr hq
    have hlt' : s._players.indexOf q < s.players.length := by
      unfold Game.players; simpa using hlt
    have hget : s.players[s._players.indexOf q] = (s.store q).name := by
      unfold Game.players
      simp [List.getElem_indexOf hlt]
    rw [← hget]
    exact (List.indexOf_getElem hnd _ hlt').symm
  refine ⟨⟨fun he hq => ?_, fun hq => by rw [Game.removePlayer_throw s q hq]; rfl⟩,
    Game.removePlayer_throw s q, hin⟩
  obtain ⟨s', hs', _⟩ := hin hq
  rw [hs'] at he
  cases he

/-- Witness of C21: removing B from [A, B, C, D] leaves the names [A, C, D]. -/
theorem C21_removePlayer_witness :
    (1 : Nat) ∈ exFour._players ∧ exFour.players.Nodup ∧
    ∃ s', exFour.removePlayer 1 = .ok s' ∧ s'.players = ["A", "C", "D"] ∧
      s'._poolCoins = 50 := by
  refine ⟨by decide, by decide, ?_⟩
  obtain ⟨s', h, _, _, hn, _, hp, _⟩ := (C21_removePlayer exFour 1).2.2 (by decide)
  exact ⟨s', h, (hn (by decide)).trans (by decide), hp⟩

/-- Counterexample to claim C22 as stated: in the roster [A, C, D] the current player D is
the last one (i = 2, n = 3); after `removePlayer(D)`, `turn()` returns C, the player before
D, and not A, the player at position (i+1) mod n = 0. -/
theorem C22_last_current_hands_turn_back :
    exThree._players.Nodup ∧ exThree._players[exThree._currentIndex]? = some 2 ∧
    2 ≤ exThree._players.length ∧
    exThree.players = ["A", "C", "D"] ∧
    (exThree.removePlayer 2).err = none ∧
    (exThree.removePlayer 2).state.turn = .ok "C" ∧
    exThree.players[(exThree._currentIndex + 1) % exThree._players.length]? = some "A" :=
  ⟨by decide, by decide, by decide, by decide, by decide, rfl, by decide⟩

/-- Claim C22 as amended: in a roster of n >= 2 distinct players with the current player at
position i, `removePlayer` of the current player succeeds, and `turn()` then returns the
name of the player that was at position i+1 when i+1 < n, and of the player that was at
position i-1 when the current player was the last one (i = n-1). -/
theorem C22_remove_current (s : Game) (p : Nat) (hnd : s._players.Nodup)
    (hcur : s._players[s._currentIndex]? = some p) (hn : 2 ≤ s._players.length) :
    ∃ s' p', s.removePlayer p = .ok s' ∧ s'._players = s._players.erase p ∧
      s'._players[s'._currentIndex]? = some p' ∧ s'.turn = .ok (s.store p').name ∧
      s._players[if s._currentIndex + 1 < s._players.length then s._currentIndex + 1
        else s._currentIndex - 1]? = some p' := by
  obtain ⟨hlt, hq⟩ := List.getElem?_eq_some.mp hcur
  have hmem : p ∈ s._players := hq ▸ List.getElem_mem _
  obtain ⟨s', hs', hpl, hst, _, _, hidx⟩ := Game.removePlayer_index s p hmem
  rw [if_neg (by omega), indexOf_of_getElem? _ _ _ hnd hcur] at hidx
  by_cases hlast : s._currentIndex + 1 < s._players.length
  · rw [if_neg (by omega)] at hidx
    obtain ⟨p', hp'⟩ : ∃ p', s._players[s._currentIndex + 1]? = some p' :=
      ⟨_, List.getElem?_eq_getElem hlast⟩
    have hcur' : s'._players[s'._currentIndex]? = some p' := by
      rw [hpl, hidx, getElem?_erase_nodup _ _ _ _ hnd hcur, if_neg (by omega), hp']
    refine ⟨s', p', hs', hpl, hcur', ?_, by rw [if_pos hlast]; exact hp'⟩
    rw [Game.turn_of_current s' p' hcur', hst]
  · rw [if_pos (by omega)] at hidx
    obtain ⟨p', hp'⟩ : ∃ p', s._players[s._currentIndex - 1]? = some p' :=
      ⟨_, List.getElem?_eq_getElem (by omega)⟩
    have hcur' : s'._players[s'._currentIndex]? = some p' := by
      rw [hpl, hidx, getElem?_erase_nodup _ _ _ _ hnd hcur, if_pos (by omega), hp']
    refine ⟨s', p', hs', hpl, hcur', ?_, by rw [if_neg hlast]; exact hp'⟩
    rw [Game.turn_of_current s' p' hcur', hst]

/-- Witness of C22 (amended) on the game of test_Game.cpp:207-229: B is removed, C is next. -/
theorem C22_remove_current_witness :
    exFour._players.Nodup ∧ exFour._players[exFour._currentIndex]? = some 1 ∧
    ∃ s', exFour.removePlayer 1 = .ok s' ∧ s'.turn = .ok "C" ∧ s'._players = [0, 2, 3] := by
  refine ⟨by decide, by decide, ?_⟩
  obtain ⟨s', p', h, hpl, _, ht, hp⟩ :=
    C22_remove_current exFour 1 (by decide) (by decide) (by decide)
  have h2 : exFour._players[if exFour._currentIndex + 1 < exFour._players.length then
      exFour._currentIndex + 1 else exFour._currentIndex - 1]? = some 2 := by decide
  have hp2 : p' = 2 := Option.some.inj (hp.symm.trans h2)
  subst hp2
  exact ⟨s', h, ht, hpl.trans (by decide)⟩

/-- Counterexample to claim C23 as stated: roster [A, B, C, D] with the pointer at c = 1;
removing the player at position r = 1 (so r <= c) leaves the pointer at 1, not at
max(c-1, 0) = 0. -/
theorem C23_removed_at_pointer_keeps_index :
    exFour._players.Nodup ∧ exFour._currentIndex = 1 ∧ exFour._players[1]? = some 1 ∧
    (exFour.removePlayer 1).err = none ∧
    (exFour.removePlayer 1).state._currentIndex = 1 ∧
    max (exFour._currentIndex - 1) 0 = 0 := by
  decide

/-- Claim C23 as amended: in a roster of distinct players, removing the player at position
r succeeds; with n >= 2 players and a valid pointer c, the new pointer is c-1 if r < c, or
if r = c and c is the last position, and it stays c otherwise (r > c, or r = c with c not
last); when the roster becomes empty the pointer is 0. -/
theorem C23_pointer_adjustment (s : Game) (q r : Nat) (hnd : s._players.Nodup)
    (hr : s._players[r]? = some q) :
    ∃ s', s.removePlayer q = .ok s' ∧
      (s._players.length = 1 → s'._players = [] ∧ s'._currentIndex = 0) ∧
      (2 ≤ s._players.length → s._currentIndex < s._players.length →
        s'._currentIndex =
          if r < s._currentIndex ∨
            (r = s._currentIndex ∧ s._currentIndex + 1 = s._players.length)
          then s._currentIndex - 1 else s._currentIndex) := by
  obtain ⟨hlt, hq⟩ := List.getElem?_eq_some.mp hr
  have hmem : q ∈ s._players := hq ▸ List.getElem_mem _
  obtain ⟨s', hs', hpl, _, _, _, hidx⟩ := Game.removePlayer_index s q hmem
  rw [indexOf_of_getElem? _ _ _ hnd hr] at hidx
  refine ⟨s', hs', fun h1 => ?_, fun h2 hc => ?_⟩
  · rw [if_pos h1] at hidx
    refine ⟨?_, hidx⟩
    apply List.eq_nil_of_length_eq_zero
    rw [hpl, List.length_erase_of_mem hmem, h1]
  · rw [if_neg (by omega)] at hidx
    rw [hidx]
    by_cases h : r < s._currentIndex ∨ s._currentIndex + 1 ≥ s._players.length
    · rw [if_pos h, if_pos (by omega)]
    · rw [if_neg h, if_neg (by omega)]

/-- Witness of C23 (amended): removing A (position 0) from [A, B, C, D] with the pointer
at 1 moves the pointer to 0. -/
theorem C23_pointer_adjustment_witness :
    exFour._players.Nodup ∧ exFour._players[0]? = some 0 ∧
    ∃ s', exFour.removePlayer 0 = .ok s' ∧ s'._currentIndex = 0 := by
  refine ⟨by decide, by decide, ?_⟩
  obtain ⟨s', h, _, hi⟩ := C23_pointer_adjustment exFour 0 0 (by decide) (by decide)
  exact ⟨s', h, (hi (by decide) (by decide)).trans (by decide)⟩

/-- Claim C24 (removing a non-current player keeps the turn): in a roster of pairwise
distinct players, removing an active player other than the current one succeeds and
`turn()` returns the same name as before; the current player is still the current one. -/
theorem C24_remove_other_keeps_turn (s : Game) (p q : Nat) (hnd : s._players.Nodup)
    (hcur : s._players[s._currentIndex]? = some p) (hq : q ∈ s._players) (hne : q ≠ p) :
    ∃ s', s.removePlayer q = .ok s' ∧ s'._players = s._players.erase q ∧
      s'._players[s'._currentIndex]? = some p ∧ s'.turn = s.turn := by
  obtain ⟨hlt, hp⟩ := List.getElem?_eq_some.mp hcur
  obtain ⟨s', hs', hpl, hst, _, _, hidx⟩ := Game.removePlayer_index s q hq
  have hrlt : s._players.indexOf q < s._players.length := List.indexOf_lt_length.mpr hq
  have hr : s._players[s._players.indexOf q]? = some q := by
    rw [List.getElem?_eq_getElem hrlt, List.getElem_indexOf hrlt]
  have hrne : s._players.indexOf q ≠ s._currentIndex := by
    intro h
    rw [h, hcur] at hr
    exact hne (Option.some.inj hr).symm
  have hlen : ¬ s._players.length = 1 := by omega
  rw [if_neg hlen] at hidx
  have hcur' : s'._players[s'._currentIndex]? = some p := by
    rw [hpl, getElem?_erase_nodup _ _ _ _ hnd hr]
    by_cases h : s._players.indexOf q < s._currentIndex
    · rw [if_pos (Or.inl h)] at hidx
      rw [hidx, if_neg (by omega)]
      have : s._currentIndex - 1 + 1 = s._currentIndex := by omega
      rw [this]
      exact hcur
    · have hg : ¬ (s._players.indexOf q < s._currentIndex ∨
          s._currentIndex + 1 ≥ s._players.length) := by omega
      rw [if_neg hg] at hidx
      rw [hidx, if_pos (by omega)]
      exact hcur
  refine ⟨s', hs', hpl, hcur', ?_⟩
  rw [Game.turn_of_current s' p hcur', Game.turn_of_current s p hcur, hst]

/-- Witness of C24 on the game of test_Game.cpp:231-240: A is removed while D is current. -/
theorem C24_remove_other_keeps_turn_witness :
    exThree._players.Nodup ∧ exThree._players[exThree._currentIndex]? = some 2 ∧
    ∃ s', exThree.removePlayer 0 = .ok s' ∧ s'.turn = .ok "D" ∧ s'._players = [1, 2] := by
  refine ⟨by decide, by decide, ?_⟩
  obtain ⟨s', h, hpl, _, ht⟩ :=
    C24_remove_other_keeps_turn exThree 2 0 (by decide) (by decide) (by decide) (by decide)
  exact ⟨s', h, ht.trans rfl, hpl.trans (by decide)⟩

/-- Claim C25 (turn-pointer validity): in every game reachable from a new game by public
operations (addPlayer, removePlayer, nextTurn with its Bribe rewinds and Coup removals, the
player actions, the vetoes, and the remaining state-changing operations), whenever the
roster is not empty the pointer is smaller than the roster size, `turn()` succeeds and the
name it returns is contained in `players()`. -/
theorem C25_pointer_valid (s : Game) (h : s.Reachable) (hne : s._players ≠ []) :
    s._currentIndex < s._players.length ∧ ∃ nm, s.turn = .ok nm ∧ nm ∈ s.players := by
  obtain ⟨log, htr⟩ := h
  have hlt := htr.inv.1.ptr hne
  obtain ⟨p, hp⟩ : ∃ p, s._players[s._currentIndex]? = some p :=
    ⟨_, List.getElem?_eq_getElem hlt⟩
  refine ⟨hlt, (s.store p).name, Game.turn_of_current s p hp, ?_⟩
  unfold Game.players
  obtain ⟨hl, heq⟩ := List.getElem?_eq_some.mp hp
  exact List.mem_map.mpr ⟨p, heq ▸ List.getElem_mem _, rfl⟩

/-- Witness of C25 on the game reached by two `addPlayer` and one `gather`. -/
theorem C25_pointer_valid_witness :
    exPlayed._players ≠ [] ∧ exPlayed._currentIndex < exPlayed._players.length ∧
    ∃ nm, exPlayed.turn = .ok nm ∧ nm ∈ exPlayed.players :=
  ⟨by decide, C25_pointer_valid exPlayed exPlayed_reachable (by decide)⟩

/-- Claim C26 (winner): `winner()` returns a name iff the roster holds exactly one player,
and then the name of that player; for every other roster size, the empty roster included,
it throws GameStillActive. It is a function of the game that returns no new state. -/
theorem C26_winner (s : Game) :
    ((∃ nm, s.winner = .ok nm) ↔ s._players.length = 1) ∧
    (∀ p, s._players = [p] → s.winner = .ok (s.store p).name) ∧
    (s._players.length ≠ 1 → s.winner = .error .GameStillActive) := by
  have h1 : ∀ p, s._players = [p] → s.winner = .ok (s.store p).name := by
    intro p hp; unfold Game.winner; rw [hp]
  have h2 : s._players.length ≠ 1 → s.winner = .error .GameStillActive := by
    intro hl
    unfold Game.winner
    rcases hs : s._players with _ | ⟨a, _ | ⟨b, l⟩⟩
    · rfl
    · rw [hs] at hl; exact absurd rfl hl
    · rfl
  refine ⟨⟨fun ⟨nm, hnm⟩ => ?_, fun hl => ?_⟩, h1, h2⟩
  · by_contra hl
    rw [h2 hl] at hnm
    cases hnm
  · obtain ⟨p, hp⟩ := List.length_eq_one.mp hl
    exact ⟨_, h1 p hp⟩

/-- Witness of C26: the lone Governor of `exTax` wins, nobody wins in `exFour`. -/
theorem C26_winner_witness :
    exTax.winner = .ok "Alice" ∧ exFour.winner = .error .GameStillActive :=
  ⟨(C26_winner exTax).2.1 0 (by decide), (C26_winner exFour).2.2 (by decide)⟩

/-- Claim C27 (roster order and name uniqueness): `addPlayer(p)` throws IllegalAction iff a
player of the roster already has the name of `p`, and then the game is unchanged;
otherwise `p` is appended at the end of the roster and nothing else changes, the pointer
included. Hence along every trace from a new game the names in `players()` are pairwise
distinct and the roster is a sublist of the log of the players that joined, in joining
order. -/
theorem C27_roster_order_and_names (s : Game) (p : Nat) :
    ((s.addPlayer (some p)).err = some .IllegalAction ↔
      ∃ q ∈ s._players, (s.store q).name = (s.store p).name) ∧
    ((∃ q ∈ s._players, (s.store q).name = (s.store p).name) →
      s.addPlayer (some p) = .throw .IllegalAction s) ∧
    ((¬ ∃ q ∈ s._players, (s.store q).name = (s.store p).name) →
      ∃ s', s.addPlayer (some p) = .ok s' ∧ s'._players = s._players ++ [p] ∧
        s'.players = s.players ++ [(s.store p).name] ∧
        s'._currentIndex = s._currentIndex ∧ s'.store = s.store ∧
        s'._poolCoins = s._poolCoins ∧ s'._pending = s._pending) ∧
    (∀ log, Game.Trace (fun _ => True) log s → s.players.Nodup ∧ s._players.Sublist log ∧
      s.players = s._players.map (fun q => (s.store q).name)) := by
  refine ⟨⟨fun he => ?_, fun h => by rw [Game.addPlayer_dup s p h]; rfl⟩,
    Game.addPlayer_dup s p, fun h => ?_, fun log htr => ⟨htr.inv.2.1, htr.inv.2.2, rfl⟩⟩
  · by_contra h
    rw [Game.addPlayer_fresh s p h] at he
    cases he
  · refine ⟨_, Game.addPlayer_fresh s p h, rfl, ?_, rfl, rfl, rfl, rfl⟩
    simp [Game.players]

/-- Witness of C27: a third player with a new name joins the reachable game `exPlayed`. -/
theorem C27_roster_order_and_names_witness :
    (¬ ∃ q ∈ exPlayed._players, (exPlayed.store q).name = (exPlayed.store 2).name) ∧
    (∃ s', exPlayed.addPlayer (some 2) = .ok s' ∧ s'._players = [0, 1, 2]) ∧
    exPlayed.players.Nodup := by
  obtain ⟨log, htr⟩ := exPlayed_reachable
  obtain ⟨_, _, hadd, hinv⟩ := C27_roster_order_and_names exPlayed 2
  obtain ⟨s', hs', hpl, _⟩ := hadd (by decide)
  exact ⟨by decide, ⟨s', hs', hpl.trans (by decide)⟩, (hinv log htr).1⟩

/-- Claim C28 (pool operations), evaluated on the code: on a new game, whose pool holds
50, `returnToPool(2147483647)` overflows `int`; the pool is left at -2147483599 on a
two's-complement machine, not at 50 + 2147483647. -/
theorem C28_returnToPool_overflows :
    (Game.new exFresh).poolCoins = 50 ∧
    ((Game.new exFresh).returnToPool32 2147483647).err = some .Undefined ∧
    ((Game.new exFresh).returnToPool32 2147483647).state.poolCoins = -2147483599 ∧
    ((Game.new exFresh).returnToPool32 2147483647).state.poolCoins ≠
      (Game.new exFresh).poolCoins + 2147483647 := by
  decide

/-- Claim C28 as amended: a new game has 50 coins in the pool; `takeFromPool(n)` throws
IllegalAction iff n exceeds the pool, leaving the game unchanged, and otherwise decreases
the pool by exactly n provided pool - n is representable in `int`; `returnToPool(n)`
increases the pool by exactly n when n >= 0 provided pool + n is representable in `int`,
and does nothing when n < 0; for 0 <= n <= pool, with the pool representable, taking and
returning n restores the game. -/
theorem C28_pool_operations (store : Nat → Player) (s : Game) (n : Int) :
    (Game.new store).poolCoins = 50 ∧
    ((s.takeFromPool32 n).err = some .IllegalAction ↔ n > s.poolCoins) ∧
    (n > s.poolCoins → s.takeFromPool32 n = .throw .IllegalAction s) ∧
    (¬ n > s.poolCoins → fitsInt (s.poolCoins - n) →
      ∃ s', s.takeFromPool32 n = .ok s' ∧ s'.poolCoins = s.poolCoins - n ∧
        s'.store = s.store ∧ s'._players = s._players ∧ s'._currentIndex = s._currentIndex ∧
        s'._pending = s._pending) ∧
    (0 ≤ n → fitsInt (s.poolCoins + n) →
      ∃ s', s.returnToPool32 n = .ok s' ∧ s'.poolCoins = s.poolCoins + n ∧
        s'.store = s.store ∧ s'._players = s._players ∧ s'._currentIndex = s._currentIndex ∧
        s'._pending = s._pending) ∧
    (n < 0 → s.returnToPool32 n = .ok s) ∧
    (0 ≤ n → n ≤ s.poolCoins → fitsInt s.poolCoins →
      ∃ s', s.takeFromPool32 n = .ok s' ∧ s'.returnToPool32 n = .ok s) := by
  refine ⟨rfl, ?_, ?_, ?_, ?_, ?_, ?_⟩
  · unfold Game.takeFromPool32 Game.setPool32 Game.poolCoins
    split
    · simp_all [Step.err]
    · split <;> simp_all [Step.err]
  · intro h
    unfold Game.takeFromPool32
    unfold Game.poolCoins at h
    rw [if_pos h]
  · intro h hf
    unfold Game.poolCoins at h hf
    unfold Game.takeFromPool32 Game.setPool32
    rw [if_neg h, if_pos hf]
    exact ⟨_, rfl, rfl, rfl, rfl, rfl, rfl⟩
  · intro h hf
    unfold Game.poolCoins at hf
    unfold Game.returnToPool32 Game.setPool32
    rw [if_neg (by omega), if_pos hf]
    exact ⟨_, rfl, rfl, rfl, rfl, rfl, rfl⟩
  · intro h
    unfold Game.returnToPool32
    rw [if_pos h]
  · intro h0 h1 hf
    unfold Game.poolCoins at h1 hf
    have hf1 : fitsInt (s._poolCoins - n) := by
      unfold fitsInt intMin intMax at hf ⊢
      omega
    have hf2 : fitsInt (s._poolCoins - n + n) := by
      rw [Int.sub_add_cancel]; exact hf
    refine ⟨{ s with _poolCoins := s._poolCoins - n }, ?_, ?_⟩
    · unfold Game.takeFromPool32 Game.setPool32
      rw [if_neg (by omega), if_pos hf1]
    · unfold Game.returnToPool32 Game.setPool32
      dsimp only
      rw [if_neg (by omega), if_pos hf2]
      cases s
      simp

/-- Witness of C28 on the test values of test_Game.cpp:70-82. -/
theorem C28_pool_operations_witness :
    fitsInt (exTax.poolCoins - 10) ∧
    (∃ s', exTax.takeFromPool32 10 = .ok s' ∧ s'.poolCoins = 40) ∧
    exTax.takeFromPool32 1000 = .throw .IllegalAction exTax := by
  obtain ⟨_, _, _, h4, _⟩ := C28_pool_operations exFresh exTax 10
  obtain ⟨s', h, hp, _⟩ := h4 (by decide) (by decide)
  exact ⟨by decide, ⟨s', h, hp.trans (by decide)⟩,
    (C28_pool_operations exFresh exTax 1000).2.2.1 (by decide)⟩

/-- Claim C29 (pool never negative), evaluated on the code: the public operation
`returnToPool(2147483647)` on a new game overflows `int` and leaves a negative pool,
-2147483599 on a two's-complement machine. -/
theorem C29_pool_negative_after_overflow :
    ((Game.new exFresh).apply32 (.returnToPool 2147483647)).err = some .Undefined ∧
    ((Game.new exFresh).apply32 (.returnToPool 2147483647)).state.poolCoins < 0 ∧
    ((Game.new exFresh).apply32 (.returnToPool 2147483647)).state.poolCoins = -2147483599 := by
  decide

/-- Claim C29 as amended: in every game reached from a new game by a sequence of public
operations (takeFromPool and returnToPool with arbitrary integers, the vetoes, nextTurn,
the player actions, ...) none of which overflows `int`, `poolCoins()` is at least 0. -/
theorem C29_pool_never_negative (s : Game) (h : s.Reachable32) : 0 ≤ s.poolCoins := by
  obtain ⟨log, htr⟩ := h
  exact htr.exact.inv.1.pool

/-- Witness of C29 on the reachable game `exPlayed32`. -/
theorem C29_pool_never_negative_witness : exPlayed32.Reachable32 ∧ 0 ≤ exPlayed32.poolCoins :=
  ⟨exPlayed32_reachable, C29_pool_never_negative exPlayed32 exPlayed32_reachable⟩

/-- Claim C30 (balance never negative), evaluated on the code: on a new game whose players
hold 0 coins, `addCoins(2147483647)` succeeds and a following `addCoins(1)` on the same
player overflows `int`, leaving the balance negative, -2147483648 on a two's-complement
machine. -/
theorem C30_balance_negative_after_overflow :
    ((Game.new exFresh).store 0).coins = 0 ∧
    ((Game.new exFresh).apply32 (.addCoins 0 2147483647)).err = none ∧
    (((Game.new exFresh).apply32 (.addCoins 0 2147483647)).state.store 0).coins = 2147483647 ∧
    (((Game.new exFresh).apply32 (.addCoins 0 2147483647)).state.apply32
      (.addCoins 0 1)).err = some .Undefined ∧
    ((((Game.new exFresh).apply32 (.addCoins 0 2147483647)).state.apply32
      (.addCoins 0 1)).state.store 0).coins = -2147483648 := by
  decide

/-- Claim C30 as amended: in every game reached from a new game whose players were created
with balance 0, by a sequence of public operations (the six actions, specialAction, the
hooks, addCoins and removeCoins with arbitrary integers, the vetoes, nextTurn, ...) none of
which overflows `int`, every balance is at least 0; `addCoins(n)` with n < 0 changes
nothing and with n >= 0 adds n provided the sum is representable in `int`;
`removeCoins(n)` throws OutOfCoins, changing nothing, iff n exceeds the balance, and
otherwise subtracts n provided the difference is representable in `int`. -/
theorem C30_balance_never_negative (s : Game) (h : s.Reachable32) (p : Nat) (n : Int) :
    (∀ q, 0 ≤ (s.store q).coins) ∧
    (n < 0 → s.apply32 (.addCoins p n) = .ok s) ∧
    (0 ≤ n → fitsInt ((s.store p).coins + n) →
      ∃ s', s.apply32 (.addCoins p n) = .ok s' ∧ (s'.store p).coins = (s.store p).coins + n) ∧
    ((s.apply32 (.removeCoins p n)).err = some .OutOfCoins ↔ n > (s.store p).coins) ∧
    (n > (s.store p).coins → s.apply32 (.removeCoins p n) = .throw .OutOfCoins s) ∧
    (¬ n > (s.store p).coins → fitsInt ((s.store p).coins - n) →
      ∃ s', s.apply32 (.removeCoins p n) = .ok s' ∧
        (s'.store p).coins = (s.store p).coins - n) := by
  obtain ⟨log, htr⟩ := h
  refine ⟨htr.exact.inv.1.coins, fun hn => ?_, fun hn hf => ?_, ?_, fun hn => ?_, fun hn hf => ?_⟩
  · show s.addCoins32 p n = _
    unfold Game.addCoins32
    rw [if_pos hn]
  · show ∃ s', s.addCoins32 p n = _ ∧ _
    unfold Game.addCoins32 Game.setCoins32
    rw [if_neg (by omega), if_pos hf]
    exact ⟨_, rfl, by simp [Game.setPlayer]⟩
  · show (s.removeCoins32 p n).err = _ ↔ _
    unfold Game.removeCoins32 Game.setCoins32
    split
    · simp_all [Step.err]
    · split <;> simp_all [Step.err]
  · show s.removeCoins32 p n = _
    unfold Game.removeCoins32
    rw [if_pos hn]
  · show ∃ s', s.removeCoins32 p n = _ ∧ _
    unfold Game.removeCoins32 Game.setCoins32
    rw [if_neg hn, if_pos hf]
    exact ⟨_, rfl, by simp [Game.setPlayer]⟩

/-- Witness of C30: Alice holds 1 coin in `exPlayed32` and cannot remove 2. -/
theorem C30_balance_never_negative_witness :
    exPlayed32.Reachable32 ∧ (∀ q, 0 ≤ (exPlayed32.store q).coins) ∧
    (exPlayed32.store 0).coins = 1 ∧
    exPlayed32.apply32 (.removeCoins 0 2) = .throw .OutOfCoins exPlayed32 := by
  obtain ⟨h1, _, _, _, h5, _⟩ := C30_balance_never_negative exPlayed32 exPlayed32_reachable 0 2
  exact ⟨exPlayed32_reachable, h1, by decide, h5 (by decide)⟩

/-- Claim C32 (atomicity on failure): when a public operation other than `nextTurn` (the
six actions, `specialAction`, the five vetoes of `Game` and of every role class,
`addPlayer`, `removePlayer`, `takeFromPool`, `removeCoins`, the hooks) throws, the game it
leaves behind, roster, turn pointer, pool, pending queue and every player object, is the
game before the call. The queries `turn` and `winner` are const members and are modelled
as functions that return no state. -/
theorem C32_atomic_failure (s s' : Game) (e : Err) :
    (∀ op, op ≠ .nextTurn → s.apply op = .throw e s' → s' = s) ∧
    (∀ (r : Role) (self t : Nat),
      (r.blockGather self s t = .throw e s' → s' = s) ∧
      (r.blockTax self s t = .throw e s' → s' = s) ∧
      (r.blockBribe self s t = .throw e s' → s' = s) ∧
      (r.blockArrest self s t = .throw e s' → s' = s) ∧
      (r.blockSanction self s t = .throw e s' → s' = s) ∧
      (r.blockCoup self s t = .throw e s' → s' = s)) := by
  refine ⟨fun op hop h => ?_, fun r self t => ⟨fun h => ?_, fun h => ?_, fun h => ?_, fun h => ?_,
    fun h => ?_, fun h => ?_⟩⟩
  · cases op with
    | addPlayer player => exact Game.addPlayer_atomic s s' player e h
    | removePlayer player => exact Game.removePlayer_atomic s s' player e h
    | nextTurn => exact absurd rfl hop
    | takeFromPool n => exact Game.takeFromPool_atomic s s' n e h
    | returnToPool n => cases h
    | registerTax a => cases h
    | registerBribe a => cases h
    | registerArrest a t => cases h
    | registerSanction a t => cases h
    | registerCoup a t => cases h
    | blockTax b t => exact Game.blockTax_atomic s s' b t e h
    | blockBribe b t => exact Game.blockBribe_atomic s s' b t e h
    | blockArrest b t => exact Game.blockArrest_atomic s s' b t e h
    | blockSanction b t => exact Game.blockSanction_atomic s s' b t e h
    | blockCoup b t => exact Game.blockCoup_atomic s s' b t e h
    | gather p => exact Player.gather_atomic s s' p e h
    | tax p => exact Player.tax_atomic s s' p e h
    | bribe p => exact Player.bribe_atomic s s' p e h
    | arrest p t => exact Player.arrest_atomic s s' p t e h
    | sanction p t => exact Player.sanction_atomic s s' p t e h
    | coup p t => exact Player.coup_atomic s s' p t e h
    | specialAction r p t => exact Player.specialAction_atomic s s' r p t e h
    | onStartTurn p => exact Game.onPlayer_atomic s s' p Player.onStartTurn e h
    | handleArrested p => exact Game.onPlayer_atomic s s' p Player.handleArrested e h
    | handleSanctioned p => exact Game.onPlayer_atomic s s' p Player.handleSanctioned e h
    | addCoins p n => cases h
    | removeCoins p n => exact Game.onPlayer_atomic s s' p (fun pl => pl.removeCoins n) e h
  · cases h; rfl
  · cases r <;> first | exact Game.blockTax_atomic s s' self t e h | (cases h; rfl)
  · cases r <;> first | exact Game.blockBribe_atomic s s' self t e h | (cases h; rfl)
  · cases r <;> first | exact Game.blockArrest_atomic s s' self t e h | (cases h; rfl)
  · cases h; rfl
  · cases r <;> first | exact Game.blockCoup_atomic s s' self t e h | (cases h; rfl)

/-- Witness of C32: Bob calls `coup` when it is Alice's turn. -/
theorem C32_atomic_failure_witness :
    exCoup.apply (.coup 1 0) = .throw .NotYourTurn exCoup ∧
    (exCoup.apply (.coup 1 0)).state = exCoup :=
  ⟨rfl, (C32_atomic_failure exCoup (exCoup.apply (.coup 1 0)).state .NotYourTurn).1 (.coup 1 0)
    (by decide) rfl⟩

/-- Claim C34 (nextTurn pointer advance): with nothing pending, `nextTurn` on an empty
roster returns and leaves the pointer unchanged; on a roster of n >= 1 players it returns
with the pointer at (i + 1) mod n and the roster and the pool unchanged; from a valid
pointer i, k successive calls return with the pointer at (i + k) mod n, so n calls bring it
back to i. -/
theorem C34_nextTurn_advance (s : Game) (hpend : s._pending = []) :
    (s._players = [] → ∃ s', s.nextTurn = .ok s' ∧ s'._currentIndex = s._currentIndex ∧
      s'._players = []) ∧
    (s._players ≠ [] → ∃ s', s.nextTurn = .ok s' ∧
      s'._currentIndex = (s._currentIndex + 1) % s._players.length ∧
      s'._players = s._players ∧ s'._poolCoins = s._poolCoins) ∧
    (s._currentIndex < s._players.length → ∀ k, ∃ s', s.nextTurns k = .ok s' ∧
      s'._currentIndex = (s._currentIndex + k) % s._players.length ∧
      s'._players = s._players ∧ s'._poolCoins = s._poolCoins) ∧
    (s._currentIndex < s._players.length → ∃ s', s.nextTurns s._players.length = .ok s' ∧
      s'._currentIndex = s._currentIndex ∧ s'._players = s._players) := by
  obtain ⟨s1, hs1, _, hpl1, hpool1, _, hidx1, _⟩ := Game.advance_ok s
  refine ⟨fun he => ?_, fun hne => ?_, fun hlt k => ?_, fun hlt => ?_⟩
  · rw [if_pos he] at hidx1
    exact ⟨s1, by rw [Game.nextTurn_nil s hpend]; exact hs1, hidx1, hpl1.trans he⟩
  · rw [if_neg hne] at hidx1
    exact ⟨s1, by rw [Game.nextTurn_nil s hpend]; exact hs1, hidx1, hpl1, hpool1⟩
  · obtain ⟨s', hs', hidx, hpl, hpool, _⟩ := Game.nextTurns_nil k s hpend hlt
    exact ⟨s', hs', hidx, hpl, hpool⟩
  · obtain ⟨s', hs', hidx, hpl, _, _⟩ := Game.nextTurns_nil s._players.length s hpend hlt
    refine ⟨s', hs', ?_, hpl⟩
    rw [hidx, Nat.add_mod_right]
    exact Nat.mod_eq_of_lt hlt

/-- Witness of C34: four successive calls in the game of four players. -/
theorem C34_nextTurn_advance_witness :
    exFour._pending = [] ∧ exFour._currentIndex < exFour._players.length ∧
    ∃ s', exFour.nextTurns exFour._players.length = .ok s' ∧
      s'._currentIndex = exFour._currentIndex ∧ s'._players = exFour._players :=
  ⟨rfl, by decide, (C34_nextTurn_advance exFour rfl).2.2.2 (by decide)⟩

/-- Claim C35 (the extra turn survives any sweep), evaluated on the code: Tom, Alice and
Xena joined in this order, it is Alice's turn, her Bribe is pending and she holds 7 coins.
She calls `coup(tom)`; the call registers the Coup behind the Bribe and runs `nextTurn`.
The Bribe rewinds the pointer from 1 to 0, removing Tom (position 0) leaves it at 0, now
Alice's position, and the advance moves it to 1: the roster is [Alice, Xena] and `turn()`
returns Xena, although Alice is still in the roster. -/
theorem C35_coup_on_predecessor_loses_extra_turn :
    exBribePending._players = [0, 1, 2] ∧ exBribePending._currentIndex = 1 ∧
    exBribePending.turn = .ok "Alice" ∧
    exBribePending._pending = [⟨1, none, .Bribe⟩] ∧
    (exBribePending.store 1).coins = 7 ∧
    (Player.coup exBribePending 1 0).err = none ∧
    (Player.coup exBribePending 1 0).state._players = [1, 2] ∧
    (Player.coup exBribePending 1 0).state._currentIndex = 1 ∧
    (Player.coup exBribePending 1 0).state.turn = .ok "Xena" ∧
    ((exBribePending.setPlayer 1 ⟨"Alice", 0, briber⟩).registerCoup 1 (some 0))._pending =
      [⟨1, none, .Bribe⟩, ⟨1, some 0, .Coup⟩] ∧
    ((exBribePending.setPlayer 1 ⟨"Alice", 0, briber⟩).registerCoup 1
      (some 0)).nextTurn.state.turn = .ok "Xena" := by
  refine ⟨by decide, by decide, rfl, by decide, by decide, by decide, by decide, by decide, rfl,
    by decide, rfl⟩

/-- Claim C38 (only bribes are ever left pending): in every game reached from a new game
by public operations other than the direct `registerX` calls (this includes `addPlayer`,
the six actions, the five vetoes and `nextTurn`), every pending entry is a Bribe, and
`blockTax`, `blockArrest`, `blockSanction` and `blockCoup` throw IllegalAction, changing
nothing, for every blocker and target. -/
theorem C38_only_bribes_pending (s : Game)
    (h : ∃ log, Game.Trace (fun op => op.isRegister = false) log s) (b t : Nat) :
    (∀ pa ∈ s._pending, pa.type = .Bribe) ∧
    s.blockTax b t = .throw .IllegalAction s ∧
    s.blockArrest b t = .throw .IllegalAction s ∧
    s.blockSanction b t = .throw .IllegalAction s ∧
    s.blockCoup b t = .throw .IllegalAction s := by
  obtain ⟨log, htr⟩ := h
  have hB := htr.onlyBribes
  have none_of : ∀ (m : PendingAction → Bool) (k : ActionType), k ≠ .Bribe →
      (∀ x, m x = true → x.type = k) → s.findPending m = none := by
    intro m k hk hm
    rw [Game.findPending_none]
    intro x hx
    cases hmx : m x with
    | false => rfl
    | true =>
      have h1 := hm x hmx
      rw [hB x hx] at h1
      exact absurd h1.symm hk
  refine ⟨hB, ?_, ?_, ?_, ?_⟩
  · unfold Game.blockTax
    rw [none_of _ .Tax (by decide) (fun x hx => by simp at hx; exact hx.1)]
  · unfold Game.blockArrest
    rw [none_of _ .Arrest (by decide) (fun x hx => by simp at hx; exact hx.1)]
  · unfold Game.blockSanction
    rw [none_of _ .Sanction (by decide) (fun x hx => by simp at hx; exact hx.1)]
  · unfold Game.blockCoup
    rw [none_of _ .Coup (by decide) (fun x hx => by simp at hx; exact hx.1)]

/-- Witness of C38: the game in which Alice's Bribe is pending. -/
theorem C38_only_bribes_pending_witness :
    (∃ log, Game.Trace (fun op => op.isRegister = false) log exBribePending) ∧
    exBribePending._pending = [⟨1, none, .Bribe⟩] ∧
    exBribePending.blockCoup 0 1 = .throw .IllegalAction exBribePending :=
  ⟨exBribePending_trace, by decide,
    (C38_only_bribes_pending exBribePending exBribePending_trace 0 1).2.2.2.2⟩

/-- Claim C39 (nextTurn never fails): in every game whose turn pointer is valid when the
roster is non-empty, `nextTurn` returns, with an empty queue and a valid pointer; the other
invariants named in the claim are not needed. -/
theorem C39_nextTurn_never_fails (s : Game) (hwf : s.wf) :
    ∃ s', s.nextTurn = .ok s' ∧ s'._pending = [] ∧ s'.wf := by
  obtain ⟨s', hs', hwf', hpd, _⟩ := Game.nextTurn_ok s hwf
  exact ⟨s', hs', hpd, hwf'⟩

/-- Witness of C39: a game with two pending Coups. -/
theorem C39_nextTurn_never_fails_witness :
    exTwoCoups.wf ∧ ∃ s', exTwoCoups.nextTurn = .ok s' ∧ s'._pending = [] ∧ s'.wf :=
  ⟨by decide, C39_nextTurn_never_fails exTwoCoups (by decide)⟩

/-- Claim C40 (a veto removes the earliest match only): a successful `blockTax`,
`blockBribe`, `blockArrest`, `blockSanction` or `blockCoup` removes the earliest pending
entry of its kind whose actor (Tax, Bribe) or target (Arrest, Sanction, Coup) is the given
player and keeps the other entries in their order; so when entries of one kind by actors
a1 and then a2 on the same target t are pending, a successful veto for t removes the entry
of a1 and the entry of a2 stays in the queue, to be resolved by the next sweep. -/
theorem C40_veto_removes_earliest_match (s s' : Game) (b t : Nat) :
    (s.blockTax b t = .ok s' →
      Game.firstRemoved (fun pa => pa.type = .Tax ∧ pa.actor = t) s s') ∧
    (s.blockBribe b t = .ok s' →
      Game.firstRemoved (fun pa => pa.type = .Bribe ∧ pa.actor = t) s s') ∧
    (s.blockArrest b t = .ok s' →
      Game.firstRemoved (fun pa => pa.type = .Arrest ∧ pa.target = some t) s s') ∧
    (s.blockSanction b t = .ok s' →
      Game.firstRemoved (fun pa => pa.type = .Sanction ∧ pa.target = some t) s s') ∧
    (s.blockCoup b t = .ok s' →
      Game.firstRemoved (fun pa => pa.type = .Coup ∧ pa.target = some t) s s') ∧
    (∀ k a1 a2 l1 l2 l3, k = .Arrest ∨ k = .Sanction ∨ k = .Coup →
      s._pending = l1 ++ ⟨a1, some t, k⟩ :: l2 ++ ⟨a2, some t, k⟩ :: l3 →
      (∀ x ∈ l1, ¬ (x.type = k ∧ x.target = some t)) →
      (k = .Arrest ∧ s.blockArrest b t = .ok s') ∨ (k = .Sanction ∧ s.blockSanction b t = .ok s') ∨
        (k = .Coup ∧ s.blockCoup b t = .ok s') →
      s'._pending = l1 ++ l2 ++ ⟨a2, some t, k⟩ :: l3) := by
  have key : ∀ (P : PendingAction → Prop) (m : PendingAction → Bool) (r : Step),
      (∀ x, m x = true ↔ P x) →
      (s.findPending m = none → r = .throw .IllegalAction s) →
      (∀ l1 pa l2, s._pending = l1 ++ pa :: l2 → P pa → (∀ x ∈ l1, ¬ P x) →
        r = .ok s' → s'._pending = l1 ++ l2) →
      r = .ok s' → Game.firstRemoved P s s' := by
    intro P m r hm hnone hsplit hr
    by_cases hex : ∃ pa ∈ s._pending, P pa
    · obtain ⟨l1, pa, l2, hl, hP, h1⟩ := Game.split_of_exists s P hex
      exact ⟨l1, pa, l2, hl, hP, h1, hsplit l1 pa l2 hl hP h1 hr⟩
    · rw [hnone (Game.findPending_none_of_not_exists s P m hm hex)] at hr
      cases hr
  have sTax : ∀ l1 pa l2, s._pending = l1 ++ pa :: l2 → (pa.type = .Tax ∧ pa.actor = t) →
      (∀ x ∈ l1, ¬ (x.type = .Tax ∧ x.actor = t)) → s.blockTax b t = .ok s' →
      s'._pending = l1 ++ l2 := by
    intro l1 pa l2 hl hP h1 hr
    rw [Game.blockTax_of_split s b t l1 pa l2 hl hP h1] at hr
    rw [← Step.ok.inj hr]
  have sBribe : ∀ l1 pa l2, s._pending = l1 ++ pa :: l2 → (pa.type = .Bribe ∧ pa.actor = t) →
      (∀ x ∈ l1, ¬ (x.type = .Bribe ∧ x.actor = t)) → s.blockBribe b t = .ok s' →
      s'._pending = l1 ++ l2 := by
    intro l1 pa l2 hl hP h1 hr
    rw [Game.blockBribe_of_split s b t l1 pa l2 hl hP h1] at hr
    rw [← Step.ok.inj hr]
  have sArrest : ∀ l1 pa l2, s._pending = l1 ++ pa :: l2 →
      (pa.type = .Arrest ∧ pa.target = some t) →
      (∀ x ∈ l1, ¬ (x.type = .Arrest ∧ x.target = some t)) → s.blockArrest b t = .ok s' →
      s'._pending = l1 ++ l2 := by
    intro l1 pa l2 hl hP h1 hr
    rw [Game.blockArrest_of_split s b t l1 pa l2 hl hP h1] at hr
    rw [← Step.ok.inj hr]
  have sSanction : ∀ l1 pa l2, s._pending = l1 ++ pa :: l2 →
      (pa.type = .Sanction ∧ pa.target = some t) →
      (∀ x ∈ l1, ¬ (x.type = .Sanction ∧ x.target = some t)) → s.blockSanction b t = .ok s' →
      s'._pending = l1 ++ l2 := by
    intro l1 pa l2 hl hP h1 hr
    rw [Game.blockSanction_of_split s b t l1 pa l2 hl hP h1] at hr
    split at hr
    · cases hr
    · rw [← Step.ok.inj hr]
  have sCoup : ∀ l1 pa l2, s._pending = l1 ++ pa :: l2 →
      (pa.type = .Coup ∧ pa.target = some t) →
      (∀ x ∈ l1, ¬ (x.type = .Coup ∧ x.target = some t)) → s.blockCoup b t = .ok s' →
      s'._pending = l1 ++ l2 := by
    intro l1 pa l2 hl hP h1 hr
    rw [Game.blockCoup_of_split s b t l1 pa l2 hl hP h1] at hr
    split at hr
    · cases hr
    · rw [← Step.ok.inj hr]
  refine ⟨?_, ?_, ?_, ?_, ?_, ?_⟩
  · refine key _ (fun pa => pa.type == .Tax && pa.actor == t) _ (fun x => by simp) (fun h => ?_)
      sTax
    unfold Game.blockTax; rw [h]
  · refine key _ (fun pa => pa.type == .Bribe && pa.actor == t) _ (fun x => by simp) (fun h => ?_)
      sBribe
    unfold Game.blockBribe; rw [h]
  · refine key _ (fun pa => pa.type == .Arrest && pa.target == some t) _ (fun x => by simp)
      (fun h => ?_) sArrest
    unfold Game.blockArrest; rw [h]
  · refine key _ (fun pa => pa.type == .Sanction && pa.target == some t) _ (fun x => by simp)
      (fun h => ?_) sSanction
    unfold Game.blockSanction; rw [h]
  · refine key _ (fun pa => pa.type == .Coup && pa.target == some t) _ (fun x => by simp)
      (fun h => ?_) sCoup
    unfold Game.blockCoup; rw [h]
  · intro k a1 a2 l1 l2 l3 _ hl h1 hr
    have hl' : s._pending = l1 ++ (⟨a1, some t, k⟩ : PendingAction) ::
        (l2 ++ ⟨a2, some t, k⟩ :: l3) := by
      rw [hl]; simp
    have hgoal : l1 ++ l2 ++ (⟨a2, some t, k⟩ : PendingAction) :: l3 =
        l1 ++ (l2 ++ ⟨a2, some t, k⟩ :: l3) := by simp
    rw [hgoal]
    rcases hr with ⟨rfl, hr⟩ | ⟨rfl, hr⟩ | ⟨rfl, hr⟩
    · exact sArrest _ _ _ hl' ⟨rfl, rfl⟩ h1 hr
    · exact sSanction _ _ _ hl' ⟨rfl, rfl⟩ h1 hr
    · exact sCoup _ _ _ hl' ⟨rfl, rfl⟩ h1 hr

/-- Witness of C40: of two pending Coups on the General, the veto removes the first. -/
theorem C40_veto_removes_earliest_match_witness :
    exTwoCoups._pending = [] ++ ⟨1, some 0, .Coup⟩ :: [] ++ ⟨2, some 0, .Coup⟩ :: [] ∧
    (∃ s', exTwoCoups.blockCoup 0 0 = .ok s' ∧
      s'._pending = [] ++ [] ++ ⟨2, some 0, .Coup⟩ :: []) :=
  ⟨rfl, (exTwoCoups.blockCoup 0 0).state, rfl,
    (C40_veto_removes_earliest_match exTwoCoups (exTwoCoups.blockCoup 0 0).state 0 0).2.2.2.2.2
      .Coup 1 2 [] [] [] (Or.inr (Or.inr rfl)) rfl (fun _ h => by cases h)
      (Or.inr (Or.inr ⟨rfl, rfl⟩))⟩

end CoupGame
